import Mathlib

/-!
OBJ scene import (`Model.cpp`): vertex deduplication and material partitioning

A shallow embedding of `src/example09_shadowRays/Model.cpp` (the file
`src/example07_firstRealModel/Model.cpp` has the same `operator<`, `addVertex` and
shape loop; it differs in the text of the error message only).

Modelling conventions.

* `float` values are only copied by the importer, so the scalar type is a parameter `F`.
  A value-initialised `vec3f`/`vec2f` (the filler of `std::vector::resize`, the colour of a
  fresh `TriangleMesh`) is `default`.
* `int` is `Int`. The only conversion is `(int)mesh->vertex.size()`; it is exact below
  `2^31` vertices, and a partition can only exceed that after the loop counter expression
  `3 * faceID + 2` has overflowed, which C++ leaves undefined. Sizes are therefore unbounded.
* A `std::vector` that the source reads through unchecked `operator[]` or through a raw
  `data()` pointer is a `RawVec`: its elements plus the contents of the memory around it.
  The source performs no bounds check, so an out-of-range read yields `outside i`.
* `std::map<index_t,int>` is an association list ordered by the source's `operator<`;
  `std::set<int>` is an ascending duplicate-free list.
* The order in which C++ evaluates the three `addVertex` arguments of the `vec3i`
  constructor is unspecified; it is the parameter `ArgOrder`.
* `rand()` is global state: the number of calls made so far is threaded through the load.
* `stbi_load` is a parameter of `loadTexture`; the file names handed to it are recorded, so that
  the number of decode attempts of a call can be stated. `std::string` keys are compared
  character by character, as `operator<` of `std::string` does.
* `TriangleMesh::addUnitCube` takes the transformation type and `xfmPoint` of gdt as
  parameters. `TriangleMesh::addCube` only builds such a transformation in `float` arithmetic
  and calls `addUnitCube`; it is not embedded.
-/

namespace osc

/-! ## Data types -/

/-- Modelled from the spec: the two-component vector `gdt::vec2f` (the gdt headers are not among
the sources), a texture coordinate. -/
structure vec2f (F : Type) where
  x : F
  y : F
deriving DecidableEq, Repr, Inhabited

/-- Modelled from the spec: the three-component vector `gdt::vec3f` (the gdt headers are not
among the sources), a 3D position, normal or RGB colour. -/
structure vec3f (F : Type) where
  x : F
  y : F
  z : F
deriving DecidableEq, Repr, Inhabited

/-- Modelled from the spec: the integer vector `gdt::vec3i` (the gdt headers are not among the
sources), one triangle of a mesh: three indices into the vertex sequence. -/
structure vec3i where
  x : Int
  y : Int
  z : Int
deriving DecidableEq, Repr, Inhabited

/-- A `std::vector` read without bounds check: `elems` are its elements, `outside i` is what
the memory at offset `i` from `data()` holds when `i` is not a valid position. -/
structure RawVec (α : Type) where
  elems : List α
  outside : Int → α

/-- Number of elements, `std::vector::size()`. -/
def RawVec.size {α : Type} (v : RawVec α) : Nat := v.elems.length

/-- Unchecked read `v[i]` (or `v.data()[i]`). -/
def RawVec.read {α : Type} (v : RawVec α) (i : Int) : α :=
  if 0 ≤ i then
    match v.elems[i.toNat]? with
    | some a => a
    | none => v.outside i
  else v.outside i

/-- Modelled from the spec: the corner identity `tinyobj::index_t` (`tiny_obj_loader.h` is not
among the sources), with the three fields that `operator<` compares; a negative normal or
texcoord index means that the attribute is absent. -/
structure index_t where
  vertex_index : Int
  normal_index : Int
  texcoord_index : Int
deriving DecidableEq, Repr, Inhabited

/-- Modelled from the spec: the flat float arrays `tinyobj::attrib_t` (`tiny_obj_loader.h` is not
among the sources), with the fields that `addVertex` reads. -/
structure attrib_t (F : Type) where
  vertices : RawVec F
  normals : RawVec F
  texcoords : RawVec F

/-- Modelled from the spec: the faces of a shape, `tinyobj::mesh_t` (`tiny_obj_loader.h` is not
among the sources): a flat array of corner identities, three per face, and one material id per
face. -/
structure mesh_t where
  indices : RawVec index_t
  material_ids : List Int

/-- Modelled from the spec: one shape, `tinyobj::shape_t` (`tiny_obj_loader.h` is not among the
sources). -/
structure shape_t where
  mesh : mesh_t

/-- Modelled from the spec: one material, `tinyobj::material_t` (`tiny_obj_loader.h` is not among
the sources): diffuse RGB and the diffuse texture file name. -/
structure material_t (F : Type) where
  diffuse : vec3f F
  diffuse_texname : String

/-- Modelled from the spec: the triangle mesh `osc::TriangleMesh` (`Model.h` is not among the
sources), with the members that `Model.cpp` names: positions, normals, texture coordinates,
triangles, one diffuse colour and one diffuse texture handle. -/
structure TriangleMesh (F : Type) where
  vertex : List (vec3f F)
  normal : List (vec3f F)
  texcoord : List (vec2f F)
  index : List vec3i
  diffuse : vec3f F
  diffuseTextureID : Int
deriving DecidableEq, Repr

/-- Modelled from the spec: the axis-aligned box `gdt::box3f` (not among the sources). It
begins empty; the first vertex establishes both corners, later ones extend it by
componentwise minimum and maximum. -/
structure box3f (F : Type) where
  corners : Option (vec3f F × vec3f F)
deriving DecidableEq, Repr

/-- Modelled from the spec: the two-component integer vector `gdt::vec2i` (the gdt headers are not
among the sources), the resolution of a texture. -/
structure vec2i where
  x : Int
  y : Int
deriving DecidableEq, Repr, Inhabited

/-- Modelled from the spec: a decoded texture, `osc::Texture` (`Model.h` is not among the
sources): its resolution and its RGBA8 pixels, one 32-bit word per pixel, row by row. -/
structure Texture where
  pixel : List Nat
  resolution : vec2i
deriving DecidableEq, Repr

/-- Modelled from the spec: the imported scene `osc::Model` (`Model.h` is not among the sources):
its meshes, its textures and its bounding box. -/
structure Model (F : Type) where
  meshes : List (TriangleMesh F)
  textures : List Texture
  bounds : box3f F
deriving DecidableEq, Repr

/-- What `tinyobj::LoadObj` hands back: the success flag, the diagnostic text (warnings and
errors share one string in the source) and the parsed arrays. -/
structure ParseResult (F : Type) where
  readOK : Bool
  err : String
  attributes : attrib_t F
  shapes : List shape_t
  materials : RawVec (material_t F)

/-- The six orders in which the three constructor arguments may be evaluated. -/
inductive ArgOrder where
  | o012 | o021 | o102 | o120 | o201 | o210
deriving DecidableEq, Repr

/-- The collaborators of `loadOBJ` that are not part of `Model.cpp`. -/
structure Env (F : Type) where
  LoadObj : String → String → ParseResult F
  rand : Nat → Int
  randomColor : Int → vec3f F
  argOrder : ArgOrder

/-! ## `operator<` and the `knownVertices` map -/

/-- The source's `operator<` on `tinyobj::index_t`. -/
def index_t.lt (a b : index_t) : Bool :=
  if a.vertex_index < b.vertex_index then true
  else if a.vertex_index > b.vertex_index then false
  else if a.normal_index < b.normal_index then true
  else if a.normal_index > b.normal_index then false
  else if a.texcoord_index < b.texcoord_index then true
  else if a.texcoord_index > b.texcoord_index then false
  else false

/-- A `std::map<tinyobj::index_t,int>`: entries in ascending key order. -/
abbrev VertexMap := List (index_t × Int)

/-- Lookup `m.find(k)`: the entry whose key is equivalent to `k` (neither is less). -/
def VertexMap.find (m : VertexMap) (k : index_t) : Option Int :=
  match m with
  | [] => none
  | e :: rest => if !(e.1.lt k) && !(k.lt e.1) then some e.2 else VertexMap.find rest k

/-- Assignment `m[k] = v`: overwrite the equivalent entry or insert in key order. -/
def VertexMap.assign (m : VertexMap) (k : index_t) (v : Int) : VertexMap :=
  match m with
  | [] => [(k, v)]
  | e :: rest =>
    if k.lt e.1 then (k, v) :: e :: rest
    else if e.1.lt k then e :: VertexMap.assign rest k v
    else (e.1, v) :: rest

/-! ## `addVertex` -/

/-- The view `(const vec3f*)v.data()` of a flat float array, read at `i`. -/
def vec3f_at {F : Type} (v : RawVec F) (i : Int) : vec3f F :=
  ⟨v.read (3 * i), v.read (3 * i + 1), v.read (3 * i + 2)⟩

/-- The view `(const vec2f*)v.data()` of a flat float array, read at `i`. -/
def vec2f_at {F : Type} (v : RawVec F) (i : Int) : vec2f F :=
  ⟨v.read (2 * i), v.read (2 * i + 1)⟩

/-- Body of `while (l.size() < n) l.push_back(a)`, run `k` times. -/
def pushTimes {α : Type} (a : α) : Nat → List α → List α
  | 0, l => l
  | k + 1, l => pushTimes a k (l ++ [a])

/-- The loop `while (l.size() < n) l.push_back(a)`: it runs `n - l.size()` times. -/
def pushUntil {α : Type} (l : List α) (n : Nat) (a : α) : List α :=
  pushTimes a (n - l.length) l

/-- The call `l.resize(n)`: truncate, or pad with value-initialised elements. -/
def resize {α : Type} [Inhabited α] (l : List α) (n : Nat) : List α :=
  l.take n ++ List.replicate (n - l.length) default

/-- One partition under construction: the mesh and its `knownVertices` map. -/
structure Partition (F : Type) where
  mesh : TriangleMesh F
  knownVertices : VertexMap
deriving DecidableEq, Repr

/-- A fresh `TriangleMesh`: empty arrays, a colour that the source does not initialise, and the
"no texture" handle `-1`. -/
def TriangleMesh.fresh {F : Type} [Inhabited F] : TriangleMesh F :=
  { vertex := [], normal := [], texcoord := [], index := [], diffuse := default,
    diffuseTextureID := -1 }

/-- A fresh mesh with an empty `knownVertices` map. -/
def Partition.fresh {F : Type} [Inhabited F] : Partition F :=
  { mesh := TriangleMesh.fresh, knownVertices := [] }

/-- The function `addVertex`: returns the local vertex id of `idx` and the updated mesh and map. -/
def addVertex {F : Type} [Inhabited F] (st : Partition F) (attributes : attrib_t F)
    (idx : index_t) : Int × Partition F :=
  match st.knownVertices.find idx with
  | some id => (id, st)
  | none =>
    let newID : Int := (st.mesh.vertex.length : Int)
    let known := st.knownVertices.assign idx newID
    let vertex := st.mesh.vertex ++ [vec3f_at attributes.vertices idx.vertex_index]
    let normal1 :=
      if idx.normal_index ≥ 0 then
        pushUntil st.mesh.normal vertex.length (vec3f_at attributes.normals idx.normal_index)
      else st.mesh.normal
    let texcoord1 :=
      if idx.texcoord_index ≥ 0 then
        pushUntil st.mesh.texcoord vertex.length (vec2f_at attributes.texcoords idx.texcoord_index)
      else st.mesh.texcoord
    let texcoord2 := if texcoord1.length > 0 then resize texcoord1 vertex.length else texcoord1
    let normal2 := if normal1.length > 0 then resize normal1 vertex.length else normal1
    (newID,
      { mesh := { st.mesh with vertex := vertex, normal := normal2, texcoord := texcoord2 },
        knownVertices := known })

/-- A sequence of `addVertex` calls from the state `st`: the ids returned, call by call, and
the final state. -/
def addVerticesFrom {F : Type} [Inhabited F] (attributes : attrib_t F) :
    Partition F → List index_t → List Int × Partition F
  | st, [] => ([], st)
  | st, idx :: rest =>
    let r := addVertex st attributes idx
    let rr := addVerticesFrom attributes r.2 rest
    (r.1 :: rr.1, rr.2)

/-- A sequence of `addVertex` calls on a mesh and map that start empty. -/
def addVertices {F : Type} [Inhabited F] (attributes : attrib_t F) (calls : List index_t) :
    List Int × Partition F :=
  addVerticesFrom attributes Partition.fresh calls

/-! ## `loadTexture` -/

/-- Lexicographic comparison of two character sequences by character code. -/
def charsLt : List Char → List Char → Bool
  | [], [] => false
  | [], _ :: _ => true
  | _ :: _, [] => false
  | x :: xs, y :: ys =>
    if x.toNat < y.toNat then true
    else if y.toNat < x.toNat then false
    else charsLt xs ys

/-- The comparison `operator<` of `std::string`, which orders the keys of `knownTextures`. -/
def stringLt (a b : String) : Bool := charsLt a.data b.data

/-- A `std::map<std::string,int>`: entries in ascending key order. -/
abbrev TextureMap := List (String × Int)

/-- Lookup `m.find(k)`: the entry whose key is equivalent to `k` (neither is less). -/
def TextureMap.find (m : TextureMap) (k : String) : Option Int :=
  match m with
  | [] => none
  | e :: rest =>
    if !(stringLt e.1 k) && !(stringLt k e.1) then some e.2 else TextureMap.find rest k

/-- Assignment `m[k] = v`: overwrite the equivalent entry or insert in key order. -/
def TextureMap.assign (m : TextureMap) (k : String) (v : Int) : TextureMap :=
  match m with
  | [] => [(k, v)]
  | e :: rest =>
    if stringLt k e.1 then (k, v) :: e :: rest
    else if stringLt e.1 k then e :: TextureMap.assign rest k v
    else (e.1, v) :: rest

/-- What `stbi_load` hands back for a file it can decode: the width and height it stores
through its out-parameters and the pixel buffer, one 32-bit word per pixel (four channels were
requested), row by row. -/
structure Image where
  width : Int
  height : Int
  pixels : List Nat
deriving DecidableEq, Repr

/-- The loop `for (int i = 0; i < n; i++) body(i)` on a state. -/
def forLoop {σ : Type} (n : Nat) (body : Nat → σ → σ) (s : σ) : σ :=
  (List.range n).foldl (fun acc i => body i acc) s

/-- The call `std::swap(buf[i], buf[j])` on the pixel buffer. The decoder hands back
`res.x * res.y` pixels, so the loops only touch positions inside the buffer; a position outside
it (which the source would reach through the raw pointer) is left alone here. -/
def swapAt (buf : List Nat) (i j : Nat) : List Nat :=
  (buf.set i (buf.getD j 0)).set j (buf.getD i 0)

/-- The two nested loops of `loadTexture` that mirror the picture along the y axis: for
`y < res.y / 2` and `x < res.x`, swap `line_y[x]` with `mirrored_y[x]`, where `line_y` starts at
`y * res.x` and `mirrored_y` at `(res.y - 1 - y) * res.x`. -/
def mirrorRows (res : vec2i) (pixel : List Nat) : List Nat :=
  forLoop (Int.tdiv res.y 2).toNat
    (fun y buf =>
      forLoop res.x.toNat
        (fun x acc =>
          swapAt acc ((y : Int) * res.x + (x : Int)).toNat
            ((res.y - 1 - (y : Int)) * res.x + (x : Int)).toNat)
        buf)
    pixel

/-- The loop that rewrites every backslash of the file name to a forward slash. -/
def fixBackslashes (fileName : String) : String :=
  String.mk (fileName.data.map (fun c => if c = '\\' then '/' else c))

/-- What one call of `loadTexture` leaves behind: the returned id, the model, the cache, and
the file names it handed to `stbi_load` (its decode attempts). -/
structure TextureResult (F : Type) where
  textureID : Int
  model : Model F
  knownTextures : TextureMap
  decoded : List String

/-- The function `loadTexture`; the decoder `stbi_load` is a parameter (`none` stands for a null
pointer). -/
def loadTexture {F : Type} (stbi_load : String → Option Image) (model : Model F)
    (knownTextures : TextureMap) (inFileName modelPath : String) : TextureResult F :=
  if inFileName = "" then
    { textureID := -1, model := model, knownTextures := knownTextures, decoded := [] }
  else
    match knownTextures.find inFileName with
    | some id =>
      { textureID := id, model := model, knownTextures := knownTextures, decoded := [] }
    | none =>
      let fileName := modelPath ++ "/" ++ fixBackslashes inFileName
      match stbi_load fileName with
      | some image =>
        let textureID : Int := (model.textures.length : Int)
        let res : vec2i := ⟨image.width, image.height⟩
        let texture : Texture := { resolution := res, pixel := mirrorRows res image.pixels }
        { textureID := textureID,
          model := { model with textures := model.textures ++ [texture] },
          knownTextures := knownTextures.assign inFileName textureID,
          decoded := [fileName] }
      | none =>
        { textureID := -1, model := model,
          knownTextures := knownTextures.assign inFileName (-1),
          decoded := [fileName] }

/-! ## `TriangleMesh::addUnitCube` -/

/-- The constant array `indices` of `addUnitCube`: twelve triangles over the eight corners of
the cube. -/
def cubeIndices : List Int :=
  [0, 1, 3, 2, 3, 0, 5, 7, 6, 5, 6, 4, 0, 4, 5, 0, 5, 1,
   2, 3, 7, 2, 7, 6, 1, 5, 7, 1, 7, 3, 4, 0, 2, 4, 2, 6]

/-- Modelled from the spec: the sum `int + vec3i` of gdt (the gdt headers are not among the
sources), which adds the scalar to each of the three indices of a triangle. -/
def vec3i.addScalar (s : Int) (v : vec3i) : vec3i :=
  ⟨s + v.x, s + v.y, s + v.z⟩

/-- The function `TriangleMesh::addUnitCube`. The transformation type `affine3f` and the
function `xfmPoint` of gdt are parameters. -/
def addUnitCube {F A : Type} [Zero F] [One F] (xfmPoint : A → vec3f F → vec3f F)
    (mesh : TriangleMesh F) (xfm : A) : TriangleMesh F :=
  let firstVertexID : Int := (mesh.vertex.length : Int)
  let vertex := mesh.vertex
    ++ [xfmPoint xfm ⟨0, 0, 0⟩] ++ [xfmPoint xfm ⟨1, 0, 0⟩]
    ++ [xfmPoint xfm ⟨0, 1, 0⟩] ++ [xfmPoint xfm ⟨1, 1, 0⟩]
    ++ [xfmPoint xfm ⟨0, 0, 1⟩] ++ [xfmPoint xfm ⟨1, 0, 1⟩]
    ++ [xfmPoint xfm ⟨0, 1, 1⟩] ++ [xfmPoint xfm ⟨1, 1, 1⟩]
  let index := forLoop 12
    (fun i acc =>
      acc ++ [vec3i.addScalar firstVertexID
        ⟨cubeIndices.getD (3 * i + 0) 0, cubeIndices.getD (3 * i + 1) 0,
          cubeIndices.getD (3 * i + 2) 0⟩])
    mesh.index
  { mesh with vertex := vertex, index := index }

/-! ## `loadOBJ` -/

/-- The three `addVertex` calls of one face, evaluated in the order `ord`; the triangle lists
the results in argument order. -/
def addCorners {F : Type} [Inhabited F] (ord : ArgOrder) (attributes : attrib_t F)
    (st : Partition F) (idx0 idx1 idx2 : index_t) : vec3i × Partition F :=
  match ord with
  | .o012 =>
    let r0 := addVertex st attributes idx0
    let r1 := addVertex r0.2 attributes idx1
    let r2 := addVertex r1.2 attributes idx2
    (⟨r0.1, r1.1, r2.1⟩, r2.2)
  | .o021 =>
    let r0 := addVertex st attributes idx0
    let r2 := addVertex r0.2 attributes idx2
    let r1 := addVertex r2.2 attributes idx1
    (⟨r0.1, r1.1, r2.1⟩, r1.2)
  | .o102 =>
    let r1 := addVertex st attributes idx1
    let r0 := addVertex r1.2 attributes idx0
    let r2 := addVertex r0.2 attributes idx2
    (⟨r0.1, r1.1, r2.1⟩, r2.2)
  | .o120 =>
    let r1 := addVertex st attributes idx1
    let r2 := addVertex r1.2 attributes idx2
    let r0 := addVertex r2.2 attributes idx0
    (⟨r0.1, r1.1, r2.1⟩, r0.2)
  | .o201 =>
    let r2 := addVertex st attributes idx2
    let r0 := addVertex r2.2 attributes idx0
    let r1 := addVertex r0.2 attributes idx1
    (⟨r0.1, r1.1, r2.1⟩, r1.2)
  | .o210 =>
    let r2 := addVertex st attributes idx2
    let r1 := addVertex r2.2 attributes idx1
    let r0 := addVertex r1.2 attributes idx0
    (⟨r0.1, r1.1, r2.1⟩, r0.2)

/-- State of the face loop: the partition and the number of `rand()` calls made so far. -/
structure FaceState (F : Type) where
  part : Partition F
  randCalls : Nat
deriving DecidableEq, Repr

/-- Body of the face loop for a face `faceID` whose material id equals `materialID`. -/
def addFace {F : Type} [Inhabited F] (env : Env F) (attributes : attrib_t F)
    (materials : RawVec (material_t F)) (shape : shape_t) (materialID : Int) (faceID : Nat)
    (st : FaceState F) : FaceState F :=
  let idx0 := shape.mesh.indices.read (3 * (faceID : Int) + 0)
  let idx1 := shape.mesh.indices.read (3 * (faceID : Int) + 1)
  let idx2 := shape.mesh.indices.read (3 * (faceID : Int) + 2)
  let r := addCorners env.argOrder attributes st.part idx0 idx1 idx2
  let mesh1 := { r.2.mesh with index := r.2.mesh.index ++ [r.1] }
  if materialID ≠ -1 then
    { part := { r.2 with mesh := { mesh1 with diffuse := (materials.read materialID).diffuse } },
      randCalls := st.randCalls }
  else
    { part := { r.2 with mesh := { mesh1 with diffuse := env.randomColor (env.rand st.randCalls) } },
      randCalls := st.randCalls + 1 }

/-- The face loop `for (faceID = 0; faceID < material_ids.size(); faceID++)`, from face
`faceID` on; `ids` are the material ids of the faces not yet visited. -/
def faceLoop {F : Type} [Inhabited F] (env : Env F) (attributes : attrib_t F)
    (materials : RawVec (material_t F)) (shape : shape_t) (materialID : Int) :
    Nat → List Int → FaceState F → FaceState F
  | _, [], st => st
  | faceID, m :: ids, st =>
    if m ≠ materialID then faceLoop env attributes materials shape materialID (faceID + 1) ids st
    else faceLoop env attributes materials shape materialID (faceID + 1) ids
      (addFace env attributes materials shape materialID faceID st)

/-- The partition built for one material id of one shape, with the `rand()` count after it. -/
def buildPartition {F : Type} [Inhabited F] (env : Env F) (attributes : attrib_t F)
    (materials : RawVec (material_t F)) (shape : shape_t) (materialID : Int) (randCalls : Nat) :
    FaceState F :=
  faceLoop env attributes materials shape materialID 0 shape.mesh.material_ids
    { part := Partition.fresh, randCalls := randCalls }

/-- Insertion into a `std::set<int>` (ascending, no duplicates). -/
def setInsert : List Int → Int → List Int
  | [], x => [x]
  | y :: ys, x =>
    if x < y then x :: y :: ys
    else if y < x then y :: setInsert ys x
    else y :: ys

/-- The set `materialIDs` of a shape, in the order in which the source iterates it. -/
def materialIDs (shape : shape_t) : List Int :=
  shape.mesh.material_ids.foldl setInsert []

/-- State of the shape loop: the meshes pushed so far and the number of `rand()` calls. -/
structure LoadState (F : Type) where
  meshes : List (TriangleMesh F)
  randCalls : Nat
deriving DecidableEq, Repr

/-- The loop `for (int materialID : materialIDs)` of one shape. -/
def materialLoop {F : Type} [Inhabited F] (env : Env F) (attributes : attrib_t F)
    (materials : RawVec (material_t F)) (shape : shape_t) :
    List Int → LoadState F → LoadState F
  | [], st => st
  | materialID :: rest, st =>
    let r := buildPartition env attributes materials shape materialID st.randCalls
    if r.part.mesh.vertex.isEmpty then
      materialLoop env attributes materials shape rest
        { meshes := st.meshes, randCalls := r.randCalls }
    else
      materialLoop env attributes materials shape rest
        { meshes := st.meshes ++ [r.part.mesh], randCalls := r.randCalls }

/-- The loop over all shapes. -/
def shapeLoop {F : Type} [Inhabited F] (env : Env F) (attributes : attrib_t F)
    (materials : RawVec (material_t F)) : List shape_t → LoadState F → LoadState F
  | [], st => st
  | shape :: rest, st =>
    shapeLoop env attributes materials rest
      (materialLoop env attributes materials shape (materialIDs shape) st)

/-- Componentwise minimum of two points. -/
def vec3f.min {F : Type} [Min F] (a b : vec3f F) : vec3f F :=
  ⟨Min.min a.x b.x, Min.min a.y b.y, Min.min a.z b.z⟩

/-- Componentwise maximum of two points. -/
def vec3f.max {F : Type} [Max F] (a b : vec3f F) : vec3f F :=
  ⟨Max.max a.x b.x, Max.max a.y b.y, Max.max a.z b.z⟩

/-- Modelled from the spec: `box3f::extend` (not among the sources). -/
def box3f.extend {F : Type} [Min F] [Max F] (b : box3f F) (v : vec3f F) : box3f F :=
  match b.corners with
  | none => ⟨some (v, v)⟩
  | some (lo, hi) => ⟨some (vec3f.min lo v, vec3f.max hi v)⟩

/-- The loop that folds `model->bounds` over every vertex of every mesh. -/
def computeBounds {F : Type} [Min F] [Max F] (meshes : List (TriangleMesh F)) : box3f F :=
  meshes.foldl (fun b mesh => mesh.vertex.foldl box3f.extend b) ⟨none⟩

/-- Position of the last occurrence of `c`, `std::string::rfind`; `none` stands for `npos`. -/
def rfind (c : Char) : List Char → Option Nat
  | [] => none
  | x :: xs =>
    match rfind c xs with
    | some p => some (p + 1)
    | none => if x = c then some 0 else none

/-- The value `objFile.rfind('/') + 1` in `size_t` arithmetic (`npos + 1` wraps to `0`). -/
def rfindPlusOne (s : List Char) : Nat :=
  match rfind '/' s with
  | some p => (p + 1) % 2 ^ 64
  | none => (2 ^ 64 - 1 + 1) % 2 ^ 64

/-- The directory `objFile.substr(0, objFile.rfind('/') + 1)`. -/
def modelDir (objFile : String) : String :=
  String.mk (objFile.data.take (rfindPlusOne objFile.data))

/-- The function `loadOBJ`: a thrown `std::runtime_error` is `Except.error` with its message. -/
def loadOBJ {F : Type} [Inhabited F] [Min F] [Max F] (env : Env F) (objFile : String) :
    Except String (Model F) :=
  let parsed := env.LoadObj objFile (modelDir objFile)
  if !parsed.readOK then
    Except.error ("Could not read OBJ model from " ++ objFile ++ " : " ++ parsed.err)
  else
    let st := shapeLoop env parsed.attributes parsed.materials parsed.shapes
      { meshes := [], randCalls := 0 }
    Except.ok { meshes := st.meshes, textures := [], bounds := computeBounds st.meshes }

/-! ## Vocabulary of the statements -/

/-- The id `v` is a valid local vertex id of a mesh with `n` vertices. -/
def validId (n : Nat) (v : Int) : Prop := 0 ≤ v ∧ v.toNat < n

/-- Bounds-checked read of element `p` of a flat float array viewed as points: `positions[p]`
when `p` is a valid position, `none` otherwise. -/
def vec3f_checked {F : Type} (v : RawVec F) (p : Int) : Option (vec3f F) :=
  if 0 ≤ p then
    match v.elems[3 * p.toNat]?, v.elems[3 * p.toNat + 1]?, v.elems[3 * p.toNat + 2]? with
    | some x, some y, some z => some ⟨x, y, z⟩
    | _, _, _ => none
  else none

/-- Bounds-checked read of element `p` of a flat float array viewed as 2D points. -/
def vec2f_checked {F : Type} (v : RawVec F) (p : Int) : Option (vec2f F) :=
  if 0 ≤ p then
    match v.elems[2 * p.toNat]?, v.elems[2 * p.toNat + 1]? with
    | some x, some y => some ⟨x, y⟩
    | _, _ => none
  else none

/-- Corner `c` (0, 1 or 2) of face `faceID`, as the face loop reads it. -/
def corner (shape : shape_t) (faceID : Nat) (c : Nat) : index_t :=
  shape.mesh.indices.read (3 * (faceID : Int) + (c : Int))

/-- The faces of a shape whose material id is `materialID`, in face order. -/
def facesWithMaterial (shape : shape_t) (materialID : Int) : List Nat :=
  (List.range shape.mesh.material_ids.length).filter
    (fun f => shape.mesh.material_ids[f]? = some materialID)

/-- The faces visited by `faceLoop` from `faceID` on that carry `materialID`. -/
def matchingFaces (materialID : Int) : Nat → List Int → List Nat
  | _, [] => []
  | faceID, m :: ids =>
    if m = materialID then faceID :: matchingFaces materialID (faceID + 1) ids
    else matchingFaces materialID (faceID + 1) ids

/-- The triangle `t` lists the local ids that `known` gives to the three corners of `faceID`. -/
def TriangleOf (known : VertexMap) (shape : shape_t) (faceID : Nat) (t : vec3i) : Prop :=
  known.find (corner shape faceID 0) = some t.x ∧
  known.find (corner shape faceID 1) = some t.y ∧
  known.find (corner shape faceID 2) = some t.z

/-- The (shape, material id) pairs for which the shape loop builds a partition, in the order
in which it builds them. -/
def partitionKeys : List shape_t → List (shape_t × Int)
  | [] => []
  | shape :: rest => (materialIDs shape).map (fun m => (shape, m)) ++ partitionKeys rest

/-- Invariant of a partition that `addVertex` and the face loop maintain. -/
structure Partition.WF {F : Type} (attributes : attrib_t F) (st : Partition F) : Prop where
  normal_len : st.mesh.normal.length = 0 ∨ st.mesh.normal.length = st.mesh.vertex.length
  texcoord_len : st.mesh.texcoord.length = 0 ∨ st.mesh.texcoord.length = st.mesh.vertex.length
  range : ∀ k v, st.knownVertices.find k = some v → validId st.mesh.vertex.length v
  inj : ∀ k k' v, st.knownVertices.find k = some v → st.knownVertices.find k' = some v → k = k'
  dense : ∀ i, i < st.mesh.vertex.length → ∃ k, st.knownVertices.find k = some (i : Int)
  position : ∀ k v, st.knownVertices.find k = some v →
    st.mesh.vertex[v.toNat]? = some (vec3f_at attributes.vertices k.vertex_index)
  normal : ∀ k v, st.knownVertices.find k = some v → 0 ≤ k.normal_index →
    st.mesh.normal[v.toNat]? = some (vec3f_at attributes.normals k.normal_index)
  texcoord : ∀ k v, st.knownVertices.find k = some v → 0 ≤ k.texcoord_index →
    st.mesh.texcoord[v.toNat]? = some (vec2f_at attributes.texcoords k.texcoord_index)
  triangles : ∀ t ∈ st.mesh.index, validId st.mesh.vertex.length t.x ∧
    validId st.mesh.vertex.length t.y ∧ validId st.mesh.vertex.length t.z

/-- The partition `st'` extends `st`: known identities keep their ids, the attribute arrays
only grow at the end, and triangles and colour are untouched. -/
structure Partition.Ext {F : Type} (st st' : Partition F) : Prop where
  find : ∀ k v, st.knownVertices.find k = some v → st'.knownVertices.find k = some v
  vertex : st.mesh.vertex <+: st'.mesh.vertex
  normal : st.mesh.normal <+: st'.mesh.normal
  texcoord : st.mesh.texcoord <+: st'.mesh.texcoord
  index : st'.mesh.index = st.mesh.index
  diffuse : st'.mesh.diffuse = st.mesh.diffuse
  textureID : st'.mesh.diffuseTextureID = st.mesh.diffuseTextureID

/-- Vertex `i` of `mesh` carries the attributes that the corner identity `idx` references:
the position, and the normal and texcoord when their index is not negative (each one
provided the index lies within its source array). -/
def CornerGeometry {F : Type} (attributes : attrib_t F) (mesh : TriangleMesh F) (idx : index_t)
    (i : Int) : Prop :=
  0 ≤ i ∧
  (∀ a, vec3f_checked attributes.vertices idx.vertex_index = some a →
    mesh.vertex[i.toNat]? = some a) ∧
  (0 ≤ idx.normal_index → ∀ a, vec3f_checked attributes.normals idx.normal_index = some a →
    mesh.normal[i.toNat]? = some a) ∧
  (0 ≤ idx.texcoord_index → ∀ a, vec2f_checked attributes.texcoords idx.texcoord_index = some a →
    mesh.texcoord[i.toNat]? = some a)

/-! ## Sample scenes -/

/-- A vector all of whose surrounding memory holds `d`. -/
def rawOf {α : Type} (l : List α) (d : α) : RawVec α := ⟨l, fun _ => d⟩

/-- Three positions, one normal and one texcoord. -/
def sampleAttributes : attrib_t Int :=
  ⟨rawOf [10, 11, 12, 20, 21, 22, 30, 31, 32] 99, rawOf [1, 2, 3] 98, rawOf [5, 6] 97⟩

/-- Two faces over the same three positions, with material ids 2 and 0. -/
def sampleShape : shape_t :=
  ⟨⟨rawOf [⟨0, 0, 0⟩, ⟨1, -1, -1⟩, ⟨2, 0, 0⟩, ⟨0, 0, 0⟩, ⟨2, 0, 0⟩, ⟨1, 0, -1⟩] default, [2, 0]⟩⟩

/-- A material table with three entries. -/
def sampleMaterials : RawVec (material_t Int) :=
  rawOf [⟨⟨1, 1, 1⟩, ""⟩, ⟨⟨2, 2, 2⟩, ""⟩, ⟨⟨3, 3, 3⟩, "t.png"⟩] ⟨⟨7, 7, 7⟩, ""⟩

/-- Collaborators whose parser knows the single file `a/b.obj`. -/
def sampleEnv : Env Int :=
  { LoadObj := fun objFile _ =>
      if objFile = "a/b.obj" then ⟨true, "", sampleAttributes, [sampleShape], sampleMaterials⟩
      else ⟨false, "cannot open file", sampleAttributes, [], sampleMaterials⟩,
    rand := fun n => n,
    randomColor := fun i => ⟨i, i, i⟩,
    argOrder := .o012 }

/-- The mesh of the sample scene for material id 0 (its second face). -/
def sampleMesh0 : TriangleMesh Int :=
  { vertex := [⟨10, 11, 12⟩, ⟨30, 31, 32⟩, ⟨20, 21, 22⟩],
    normal := [⟨1, 2, 3⟩, ⟨1, 2, 3⟩, ⟨1, 2, 3⟩],
    texcoord := [⟨5, 6⟩, ⟨5, 6⟩, ⟨0, 0⟩],
    index := [⟨0, 1, 2⟩], diffuse := ⟨1, 1, 1⟩, diffuseTextureID := -1 }

/-- The mesh of the sample scene for material id 2 (its first face). -/
def sampleMesh2 : TriangleMesh Int :=
  { vertex := [⟨10, 11, 12⟩, ⟨20, 21, 22⟩, ⟨30, 31, 32⟩],
    normal := [⟨1, 2, 3⟩, ⟨0, 0, 0⟩, ⟨1, 2, 3⟩],
    texcoord := [⟨5, 6⟩, ⟨0, 0⟩, ⟨5, 6⟩],
    index := [⟨0, 1, 2⟩], diffuse := ⟨3, 3, 3⟩, diffuseTextureID := -1 }

/-- The model that `loadOBJ` returns for the sample scene. -/
def sampleModel : Model Int :=
  { meshes := [sampleMesh0, sampleMesh2], textures := [],
    bounds := ⟨some (⟨10, 11, 12⟩, ⟨30, 31, 32⟩)⟩ }

/-- A scene with a single position, one of whose corners references position 5; the memory
around the position array holds `1000 + i` at offset `i`. -/
def oobAttributes : attrib_t Int :=
  ⟨⟨[10, 11, 12], fun i => 1000 + i⟩, ⟨[], fun _ => 0⟩, ⟨[], fun _ => 0⟩⟩

/-- One face without material whose second corner references position 5. -/
def oobShape : shape_t :=
  ⟨⟨⟨[⟨0, -1, -1⟩, ⟨5, -1, -1⟩, ⟨0, -1, -1⟩], fun _ => default⟩, [-1]⟩⟩

/-- Collaborators whose parser returns the scene with the out-of-range position index. -/
def oobEnv : Env Int :=
  { LoadObj := fun _ _ => ⟨true, "", oobAttributes, [oobShape], ⟨[], fun _ => ⟨⟨0, 0, 0⟩, ""⟩⟩⟩,
    rand := fun _ => 4,
    randomColor := fun i => ⟨i, i, i⟩,
    argOrder := .o012 }

/-- Collaborators whose parser returns a scene whose only face names material 3 while the
material table has one entry; the memory around the table holds colour `100 + i` at offset `i`. -/
def badMaterialEnv : Env Int :=
  { LoadObj := fun _ _ =>
      ⟨true, "", sampleAttributes,
        [⟨⟨⟨[⟨0, -1, -1⟩, ⟨1, -1, -1⟩, ⟨2, -1, -1⟩], fun _ => default⟩, [3]⟩⟩],
        ⟨[⟨⟨1, 1, 1⟩, ""⟩], fun i => ⟨⟨100 + i, 100 + i, 100 + i⟩, ""⟩⟩⟩,
    rand := fun _ => 4,
    randomColor := fun i => ⟨i, i, i⟩,
    argOrder := .o012 }

/-- The message of the `std::runtime_error` thrown by `loadOBJ` in
`example07_firstRealModel/Model.cpp`, which also names the material directory. -/
def readErrorMessage07 (objFile mtlDir err : String) : String :=
  "Could not read OBJ model from " ++ objFile ++ ":" ++ mtlDir ++ " : " ++ err

/-- All vertices of all meshes, in the order in which the bounding-box loop visits them. -/
def allVertices {F : Type} : List (TriangleMesh F) → List (vec3f F)
  | [] => []
  | mesh :: rest => mesh.vertex ++ allVertices rest

/-- The mirror loops on a picture of `w` columns and `h` rows, with indices computed in `Nat`. -/
def mirrorRowsNat (w h : Nat) (pixel : List Nat) : List Nat :=
  forLoop (h / 2)
    (fun y buf => forLoop w (fun x acc => swapAt acc (y * w + x) ((h - 1 - y) * w + x)) buf)
    pixel

/-- The scene of one triangle with corners (0,0,0), (1,0,0) and (0,1,0). -/
def triangleEnv : Env Int :=
  { LoadObj := fun _ _ =>
      ⟨true, "", ⟨rawOf [0, 0, 0, 1, 0, 0, 0, 1, 0] 0, rawOf [] 0, rawOf [] 0⟩,
        [⟨⟨rawOf [⟨0, -1, -1⟩, ⟨1, -1, -1⟩, ⟨2, -1, -1⟩] default, [0]⟩⟩],
        rawOf [⟨⟨1, 1, 1⟩, ""⟩] ⟨⟨0, 0, 0⟩, ""⟩⟩,
    rand := fun _ => 0,
    randomColor := fun i => ⟨i, i, i⟩,
    argOrder := .o012 }

/-- A decoder that knows one picture, `tex/a.png`, of one column and two rows. -/
def sampleDecoder : String → Option Image :=
  fun fileName => if fileName = "tex/a.png" then some ⟨1, 2, [7, 9]⟩ else none

/-- A model without meshes and textures. -/
def emptyModel : Model Int :=
  { meshes := [], textures := [], bounds := ⟨none⟩ }

/-- The box with corners `lo` and `hi` is the componentwise minimum and maximum of the points
`vs`: it contains every point, and each of its six coordinates is attained by some point. -/
def IsExtremeBox {F : Type} [LE F] (lo hi : vec3f F) (vs : List (vec3f F)) : Prop :=
  (∀ v ∈ vs, lo.x ≤ v.x ∧ lo.y ≤ v.y ∧ lo.z ≤ v.z ∧ v.x ≤ hi.x ∧ v.y ≤ hi.y ∧ v.z ≤ hi.z) ∧
  (∃ v ∈ vs, v.x = lo.x) ∧ (∃ v ∈ vs, v.y = lo.y) ∧ (∃ v ∈ vs, v.z = lo.z) ∧
  (∃ v ∈ vs, v.x = hi.x) ∧ (∃ v ∈ vs, v.y = hi.y) ∧ (∃ v ∈ vs, v.z = hi.z)

/-- The box `b` is the bounding box of the points seen so far (empty if there are none). -/
def BoxInv {F : Type} [LE F] (b : box3f F) (seen : List (vec3f F)) : Prop :=
  match b.corners with
  | none => seen = []
  | some (lo, hi) => IsExtremeBox lo hi seen

/-- The model that `loadOBJ` returns for the scene of one triangle. -/
def triangleModel : Model Int :=
  { meshes := [{ vertex := [⟨0, 0, 0⟩, ⟨1, 0, 0⟩, ⟨0, 1, 0⟩], normal := [], texcoord := [],
                 index := [⟨0, 1, 2⟩], diffuse := ⟨1, 1, 1⟩, diffuseTextureID := -1 }],
    textures := [], bounds := ⟨some (⟨0, 0, 0⟩, ⟨1, 1, 0⟩)⟩ }

/-- Bookkeeping for a request of the identity `idx`: it joins the identities seen so far, at
the end, unless it is among them already. -/
def noteRequest (seen : List index_t) (idx : index_t) : List index_t :=
  if idx ∈ seen then seen else seen ++ [idx]

/-- The distinct identities of a sequence of requests, in the order of their first request. -/
def distinctRequests (calls : List index_t) : List index_t :=
  calls.foldl noteRequest []

/-- What a sequence of `loadTexture` calls leaves behind: the ids returned, call by call, the
model, the cache, and the file names handed to `stbi_load`, in order. -/
structure TextureRun (F : Type) where
  ids : List Int
  model : Model F
  knownTextures : TextureMap
  decoded : List String

/-- A sequence of `loadTexture` calls, each with its raw path and base directory, from the given
model and cache. -/
def loadTexturesFrom {F : Type} (stbi_load : String → Option Image) :
    Model F → TextureMap → List (String × String) → TextureRun F
  | model, knownTextures, [] =>
    { ids := [], model := model, knownTextures := knownTextures, decoded := [] }
  | model, knownTextures, (inFileName, modelPath) :: rest =>
    let r := loadTexture stbi_load model knownTextures inFileName modelPath
    let rr := loadTexturesFrom stbi_load r.model r.knownTextures rest
    { ids := r.textureID :: rr.ids, model := rr.model, knownTextures := rr.knownTextures,
      decoded := r.decoded ++ rr.decoded }

/-- A mesh of one triangle, in which a cube can be placed. -/
def triangleMesh : TriangleMesh Int :=
  { vertex := [⟨0, 0, 0⟩, ⟨1, 0, 0⟩, ⟨0, 1, 0⟩], normal := [], texcoord := [],
    index := [⟨0, 1, 2⟩], diffuse := ⟨1, 1, 1⟩, diffuseTextureID := -1 }

/-- The map numbers the identities of `seen` by their position, and the mesh has one vertex for
each. -/
def Numbered {F : Type} (st : Partition F) (seen : List index_t) : Prop :=
  st.mesh.vertex.length = seen.length ∧
  ∀ k v, st.knownVertices.find k = some v ↔ ∃ j : Nat, v = (j : Int) ∧ seen[j]? = some k

/-- Invariant of the texture collection, the cache and the decode log while `loadTexture`
calls are made. -/
structure TextureInv {F : Type} (stbi_load : String → Option Image) (model : Model F)
    (knownTextures : TextureMap) (log : List String) : Prop where
  keys : (knownTextures.map Prod.fst).Nodup
  values : ∀ e ∈ knownTextures, e.2 = -1 ∨ 0 ≤ e.2
  handles : ((knownTextures.filter (fun e => decide (0 ≤ e.2))).map Prod.snd).Perm
    ((List.range model.textures.length).map Int.ofNat)
  decodes : model.textures.length = (log.filter (fun f => (stbi_load f).isSome)).length

/-- The twelve triangles that `addUnitCube` appends to a mesh with `n` vertices. -/
def cubeTriangles (n : Int) : List vec3i :=
  [⟨n + 0, n + 1, n + 3⟩, ⟨n + 2, n + 3, n + 0⟩, ⟨n + 5, n + 7, n + 6⟩, ⟨n + 5, n + 6, n + 4⟩,
   ⟨n + 0, n + 4, n + 5⟩, ⟨n + 0, n + 5, n + 1⟩, ⟨n + 2, n + 3, n + 7⟩, ⟨n + 2, n + 7, n + 6⟩,
   ⟨n + 1, n + 5, n + 7⟩, ⟨n + 1, n + 7, n + 3⟩, ⟨n + 4, n + 0, n + 2⟩, ⟨n + 4, n + 2, n + 6⟩]

/-! ## The order `operator<` and the map -/

theorem index_t.lt_irrefl (a : index_t) : a.lt a = false := by
  simp [index_t.lt]

theorem index_t.equiv_iff (a b : index_t) :
    ((!(a.lt b) && !(b.lt a)) = true) ↔ a = b := by
  constructor
  · intro h
    cases a with
    | mk av an at_ =>
      cases b with
      | mk bv bn bt =>
        simp only [index_t.lt, Bool.and_eq_true, Bool.not_eq_true'] at h
        obtain ⟨h1, h2⟩ := h
        simp only [index_t.mk.injEq]
        split_ifs at h1 h2
        all_goals omega
  · rintro rfl
    simp [index_t.lt_irrefl]

theorem VertexMap.find_nil (k : index_t) : VertexMap.find [] k = none := rfl

theorem VertexMap.find_cons (e : index_t × Int) (rest : VertexMap) (k : index_t) :
    VertexMap.find (e :: rest) k = if e.1 = k then some e.2 else VertexMap.find rest k := by
  by_cases h : e.1 = k
  · subst h
    simp [VertexMap.find, index_t.lt_irrefl]
  · have h2 : ¬ ((!(e.1.lt k) && !(k.lt e.1)) = true) := fun hh => h ((index_t.equiv_iff e.1 k).1 hh)
    simp only [VertexMap.find, h, if_false]
    rw [if_neg h2]

theorem VertexMap.find_assign_same (m : VertexMap) (k : index_t) (v : Int) :
    VertexMap.find (VertexMap.assign m k v) k = some v := by
  induction m with
  | nil => simp [VertexMap.assign, VertexMap.find_cons]
  | cons e rest ih =>
    simp only [VertexMap.assign]
    by_cases h1 : k.lt e.1 = true
    · simp [h1, VertexMap.find_cons]
    · by_cases h2 : e.1.lt k = true
      · have hne : e.1 ≠ k := by
          intro he
          rw [he, index_t.lt_irrefl] at h2
          exact absurd h2 (by decide)
        simp [h1, h2, VertexMap.find_cons, hne, ih]
      · have he : e.1 = k := (index_t.equiv_iff e.1 k).1 (by simp [h1, h2])
        simp [h1, h2, VertexMap.find_cons, he, index_t.lt_irrefl]

theorem VertexMap.find_assign_other (m : VertexMap) (k k' : index_t) (v : Int) (hk : k' ≠ k) :
    VertexMap.find (VertexMap.assign m k v) k' = VertexMap.find m k' := by
  induction m with
  | nil => simp [VertexMap.assign, VertexMap.find_cons, VertexMap.find_nil, hk.symm]
  | cons e rest ih =>
    simp only [VertexMap.assign]
    by_cases h1 : k.lt e.1 = true
    · simp [h1, VertexMap.find_cons, hk.symm]
    · by_cases h2 : e.1.lt k = true
      · simp [h1, h2, VertexMap.find_cons, ih]
      · have he : e.1 = k := (index_t.equiv_iff e.1 k).1 (by simp [h1, h2])
        simp [h1, h2, VertexMap.find_cons, he, hk.symm, index_t.lt_irrefl]

theorem pushTimes_eq {α : Type} (a : α) (k : Nat) (l : List α) :
    pushTimes a k l = l ++ List.replicate k a := by
  induction k generalizing l with
  | zero => simp [pushTimes]
  | succ k ih => simp [pushTimes, ih, List.replicate_succ]

theorem pushUntil_eq {α : Type} (l : List α) (n : Nat) (a : α) :
    pushUntil l n a = l ++ List.replicate (n - l.length) a := by
  simp [pushUntil, pushTimes_eq]

/-! ## `addVertex` maintains the invariant -/

theorem Partition.Ext.refl {F : Type} (st : Partition F) : Partition.Ext st st :=
  ⟨fun _ _ h => h, List.prefix_refl _, List.prefix_refl _, List.prefix_refl _, rfl, rfl, rfl⟩

theorem Partition.Ext.trans {F : Type} {a b c : Partition F} (h1 : Partition.Ext a b)
    (h2 : Partition.Ext b c) : Partition.Ext a c :=
  ⟨fun k v h => h2.find k v (h1.find k v h), h1.vertex.trans h2.vertex,
    h1.normal.trans h2.normal, h1.texcoord.trans h2.texcoord,
    h2.index.trans h1.index, h2.diffuse.trans h1.diffuse, h2.textureID.trans h1.textureID⟩

theorem Partition.fresh_WF {F : Type} [Inhabited F] (attributes : attrib_t F) :
    Partition.WF attributes (Partition.fresh : Partition F) := by
  constructor <;> simp [Partition.fresh, TriangleMesh.fresh, VertexMap.find]

/-- The attribute-array update of `addVertex` (push loop, then the sanity resize). -/
theorem attr_update {α : Type} [Inhabited α] (l : List α) (k : Nat) (c : Prop) [Decidable c]
    (a : α) (h : l.length = 0 ∨ l.length = k) :
    ∃ ext, (if (if c then pushUntil l (k + 1) a else l).length > 0
        then resize (if c then pushUntil l (k + 1) a else l) (k + 1)
        else (if c then pushUntil l (k + 1) a else l)) = l ++ ext ∧
      ((l ++ ext).length = 0 ∨ (l ++ ext).length = k + 1) ∧
      (c → (l ++ ext).length = k + 1 ∧ (l ++ ext)[k]? = some a) := by
  by_cases hc : c
  · refine ⟨List.replicate (k + 1 - l.length) a, ?_, ?_, ?_⟩
    · have hlen : (l ++ List.replicate (k + 1 - l.length) a).length = k + 1 := by
        simp only [List.length_append, List.length_replicate]; omega
      simp only [hc, if_true, pushUntil_eq, hlen, resize]
      simp
      omega
    · right
      simp only [List.length_append, List.length_replicate]; omega
    · intro _
      refine ⟨by simp only [List.length_append, List.length_replicate]; omega, ?_⟩
      rw [List.getElem?_append_right (by omega)]
      rw [List.getElem?_replicate]
      rw [if_pos (by omega)]
  · by_cases hl : l.length > 0
    · have hk : l.length = k := by omega
      refine ⟨[default], ?_, ?_, ?_⟩
      · simp only [hc, if_false, hl, if_true, resize]
        rw [List.take_of_length_le (by omega)]
        have : k + 1 - l.length = 1 := by omega
        rw [this]; rfl
      · right; simp [hk]
      · intro h'; exact absurd h' hc
    · refine ⟨[], ?_, ?_, ?_⟩
      · simp [hc, hl]
      · left; simp only [List.append_nil]; omega
      · intro h'; exact absurd h' hc

theorem addVertex_found {F : Type} [Inhabited F] (st : Partition F) (attributes : attrib_t F)
    (idx : index_t) (id : Int) (h : st.knownVertices.find idx = some id) :
    addVertex st attributes idx = (id, st) := by
  simp [addVertex, h]

theorem addVertex_new {F : Type} [Inhabited F] (st : Partition F) (attributes : attrib_t F)
    (idx : index_t) (h : st.knownVertices.find idx = none)
    (hn : st.mesh.normal.length = 0 ∨ st.mesh.normal.length = st.mesh.vertex.length)
    (ht : st.mesh.texcoord.length = 0 ∨ st.mesh.texcoord.length = st.mesh.vertex.length) :
    ∃ next text,
      addVertex st attributes idx =
        ((st.mesh.vertex.length : Int),
          { mesh := { st.mesh with
              vertex := st.mesh.vertex ++ [vec3f_at attributes.vertices idx.vertex_index],
              normal := st.mesh.normal ++ next,
              texcoord := st.mesh.texcoord ++ text },
            knownVertices := st.knownVertices.assign idx (st.mesh.vertex.length : Int) }) ∧
      ((st.mesh.normal ++ next).length = 0 ∨
        (st.mesh.normal ++ next).length = st.mesh.vertex.length + 1) ∧
      (0 ≤ idx.normal_index → (st.mesh.normal ++ next).length = st.mesh.vertex.length + 1 ∧
        (st.mesh.normal ++ next)[st.mesh.vertex.length]? =
          some (vec3f_at attributes.normals idx.normal_index)) ∧
      ((st.mesh.texcoord ++ text).length = 0 ∨
        (st.mesh.texcoord ++ text).length = st.mesh.vertex.length + 1) ∧
      (0 ≤ idx.texcoord_index → (st.mesh.texcoord ++ text).length = st.mesh.vertex.length + 1 ∧
        (st.mesh.texcoord ++ text)[st.mesh.vertex.length]? =
          some (vec2f_at attributes.texcoords idx.texcoord_index)) := by
  obtain ⟨next, hne, hnl, hnv⟩ := attr_update st.mesh.normal st.mesh.vertex.length
    (idx.normal_index ≥ 0) (vec3f_at attributes.normals idx.normal_index) hn
  obtain ⟨text, hte, htl, htv⟩ := attr_update st.mesh.texcoord st.mesh.vertex.length
    (idx.texcoord_index ≥ 0) (vec2f_at attributes.texcoords idx.texcoord_index) ht
  refine ⟨next, text, ?_, hnl, hnv, htl, htv⟩
  simp only [addVertex, h, List.length_append, List.length_singleton]
  rw [hne, hte]

theorem validId_mono {n m : Nat} {v : Int} (h : validId n v) (hnm : n ≤ m) : validId m v :=
  ⟨h.1, lt_of_lt_of_le h.2 hnm⟩

theorem getElem?_of_prefix {α : Type} {l l' : List α} (h : l <+: l') {i : Nat} {a : α}
    (hi : l[i]? = some a) : l'[i]? = some a := by
  obtain ⟨t, rfl⟩ := h
  have hlt : i < l.length := by
    by_contra hc
    rw [List.getElem?_eq_none (by omega)] at hi
    exact absurd hi (by simp)
  rw [List.getElem?_append_left hlt]
  exact hi

theorem addVertex_spec {F : Type} [Inhabited F] (st : Partition F) (attributes : attrib_t F)
    (idx : index_t) (hwf : Partition.WF attributes st) :
    Partition.WF attributes (addVertex st attributes idx).2 ∧
    Partition.Ext st (addVertex st attributes idx).2 ∧
    (addVertex st attributes idx).2.knownVertices.find idx = some (addVertex st attributes idx).1 := by
  cases hf : st.knownVertices.find idx with
  | some id =>
    rw [addVertex_found st attributes idx id hf]
    exact ⟨hwf, Partition.Ext.refl st, hf⟩
  | none =>
    obtain ⟨next, text, heq, hnl, hnv, htl, htv⟩ :=
      addVertex_new st attributes idx hf hwf.normal_len hwf.texcoord_len
    rw [heq]
    have hfind : ∀ k v, (st.knownVertices.assign idx (st.mesh.vertex.length : Int)).find k = some v →
        (k = idx ∧ v = (st.mesh.vertex.length : Int)) ∨ (k ≠ idx ∧ st.knownVertices.find k = some v) := by
      intro k v hk
      by_cases hki : k = idx
      · subst hki
        rw [VertexMap.find_assign_same] at hk
        left; exact ⟨rfl, (Option.some.inj hk).symm⟩
      · rw [VertexMap.find_assign_other _ _ _ _ hki] at hk
        right; exact ⟨hki, hk⟩
    have hold : ∀ k v, st.knownVertices.find k = some v →
        (st.knownVertices.assign idx (st.mesh.vertex.length : Int)).find k = some v := by
      intro k v hk
      have hki : k ≠ idx := by
        rintro rfl
        rw [hf] at hk
        exact absurd hk (by simp)
      rw [VertexMap.find_assign_other _ _ _ _ hki]
      exact hk
    refine ⟨?_, ?_, ?_⟩
    · constructor
      · simpa using hnl
      · simpa using htl
      · intro k v hk
        simp only [List.length_append, List.length_singleton]
        rcases hfind k v hk with ⟨_, rfl⟩ | ⟨_, h⟩
        · exact ⟨by omega, by simp⟩
        · exact validId_mono (hwf.range k v h) (by omega)
      · intro k k' v hk hk'
        rcases hfind k v hk with ⟨rfl, rfl⟩ | ⟨_, h⟩
        · rcases hfind k' _ hk' with ⟨rfl, _⟩ | ⟨_, h'⟩
          · rfl
          · have := (hwf.range k' _ h').2
            simp at this
        · rcases hfind k' v hk' with ⟨rfl, rfl⟩ | ⟨_, h'⟩
          · have := (hwf.range k _ h).2
            simp at this
          · exact hwf.inj k k' v h h'
      · intro i hi
        simp only [List.length_append, List.length_singleton] at hi
        by_cases hlt : i < st.mesh.vertex.length
        · obtain ⟨k, hk⟩ := hwf.dense i hlt
          exact ⟨k, hold k _ hk⟩
        · have : i = st.mesh.vertex.length := by omega
          subst this
          exact ⟨idx, VertexMap.find_assign_same _ _ _⟩
      · intro k v hk
        rcases hfind k v hk with ⟨rfl, rfl⟩ | ⟨_, h⟩
        · simp
        · exact getElem?_of_prefix (List.prefix_append _ _) (hwf.position k v h)
      · intro k v hk hpos
        rcases hfind k v hk with ⟨rfl, rfl⟩ | ⟨_, h⟩
        · simpa using (hnv hpos).2
        · exact getElem?_of_prefix (List.prefix_append _ _) (hwf.normal k v h hpos)
      · intro k v hk hpos
        rcases hfind k v hk with ⟨rfl, rfl⟩ | ⟨_, h⟩
        · simpa using (htv hpos).2
        · exact getElem?_of_prefix (List.prefix_append _ _) (hwf.texcoord k v h hpos)
      · intro t ht
        obtain ⟨h1, h2, h3⟩ := hwf.triangles t ht
        simp only [List.length_append, List.length_singleton]
        exact ⟨validId_mono h1 (by omega), validId_mono h2 (by omega), validId_mono h3 (by omega)⟩
    · exact ⟨hold, List.prefix_append _ _, List.prefix_append _ _, List.prefix_append _ _,
        rfl, rfl, rfl⟩
    · exact VertexMap.find_assign_same _ _ _

/-! ## The face loop maintains the invariant -/

theorem addVertex_three {F : Type} [Inhabited F] (st : Partition F) (attributes : attrib_t F)
    (a b c : index_t) (hwf : Partition.WF attributes st) :
    Partition.WF attributes
        (addVertex (addVertex (addVertex st attributes a).2 attributes b).2 attributes c).2 ∧
      Partition.Ext st
        (addVertex (addVertex (addVertex st attributes a).2 attributes b).2 attributes c).2 ∧
      (addVertex (addVertex (addVertex st attributes a).2 attributes b).2 attributes c).2.knownVertices.find a
        = some (addVertex st attributes a).1 ∧
      (addVertex (addVertex (addVertex st attributes a).2 attributes b).2 attributes c).2.knownVertices.find b
        = some (addVertex (addVertex st attributes a).2 attributes b).1 ∧
      (addVertex (addVertex (addVertex st attributes a).2 attributes b).2 attributes c).2.knownVertices.find c
        = some (addVertex (addVertex (addVertex st attributes a).2 attributes b).2 attributes c).1 := by
  obtain ⟨w1, e1, f1⟩ := addVertex_spec st attributes a hwf
  obtain ⟨w2, e2, f2⟩ := addVertex_spec _ attributes b w1
  obtain ⟨w3, e3, f3⟩ := addVertex_spec _ attributes c w2
  exact ⟨w3, (e1.trans e2).trans e3, e3.find _ _ (e2.find _ _ f1), e3.find _ _ f2, f3⟩

theorem addCorners_spec {F : Type} [Inhabited F] (ord : ArgOrder) (attributes : attrib_t F)
    (st : Partition F) (idx0 idx1 idx2 : index_t) (hwf : Partition.WF attributes st) :
    Partition.WF attributes (addCorners ord attributes st idx0 idx1 idx2).2 ∧
      Partition.Ext st (addCorners ord attributes st idx0 idx1 idx2).2 ∧
      (addCorners ord attributes st idx0 idx1 idx2).2.knownVertices.find idx0
        = some (addCorners ord attributes st idx0 idx1 idx2).1.x ∧
      (addCorners ord attributes st idx0 idx1 idx2).2.knownVertices.find idx1
        = some (addCorners ord attributes st idx0 idx1 idx2).1.y ∧
      (addCorners ord attributes st idx0 idx1 idx2).2.knownVertices.find idx2
        = some (addCorners ord attributes st idx0 idx1 idx2).1.z := by
  cases ord
  · obtain ⟨w, e, f0, f1, f2⟩ := addVertex_three st attributes idx0 idx1 idx2 hwf
    exact ⟨w, e, f0, f1, f2⟩
  · obtain ⟨w, e, f0, f2, f1⟩ := addVertex_three st attributes idx0 idx2 idx1 hwf
    exact ⟨w, e, f0, f1, f2⟩
  · obtain ⟨w, e, f1, f0, f2⟩ := addVertex_three st attributes idx1 idx0 idx2 hwf
    exact ⟨w, e, f0, f1, f2⟩
  · obtain ⟨w, e, f1, f2, f0⟩ := addVertex_three st attributes idx1 idx2 idx0 hwf
    exact ⟨w, e, f0, f1, f2⟩
  · obtain ⟨w, e, f2, f0, f1⟩ := addVertex_three st attributes idx2 idx0 idx1 hwf
    exact ⟨w, e, f0, f1, f2⟩
  · obtain ⟨w, e, f2, f1, f0⟩ := addVertex_three st attributes idx2 idx1 idx0 hwf
    exact ⟨w, e, f0, f1, f2⟩

/-- What one run of the face-loop body does to a well-formed partition. -/
theorem addFace_spec {F : Type} [Inhabited F] (env : Env F) (attributes : attrib_t F)
    (materials : RawVec (material_t F)) (shape : shape_t) (materialID : Int) (faceID : Nat)
    (st : FaceState F) (hwf : Partition.WF attributes st.part) :
    Partition.WF attributes (addFace env attributes materials shape materialID faceID st).part ∧
      (∀ k v, st.part.knownVertices.find k = some v →
        (addFace env attributes materials shape materialID faceID st).part.knownVertices.find k
          = some v) ∧
      (∃ t, (addFace env attributes materials shape materialID faceID st).part.mesh.index
          = st.part.mesh.index ++ [t] ∧
        TriangleOf (addFace env attributes materials shape materialID faceID st).part.knownVertices
          shape faceID t) ∧
      (materialID ≠ -1 →
        (addFace env attributes materials shape materialID faceID st).part.mesh.diffuse
          = (materials.read materialID).diffuse) := by
  obtain ⟨w, e, f0, f1, f2⟩ := addCorners_spec env.argOrder attributes st.part
    (shape.mesh.indices.read (3 * (faceID : Int) + 0))
    (shape.mesh.indices.read (3 * (faceID : Int) + 1))
    (shape.mesh.indices.read (3 * (faceID : Int) + 2)) hwf
  have hvalid : ∀ k v, (addCorners env.argOrder attributes st.part
      (shape.mesh.indices.read (3 * (faceID : Int) + 0))
      (shape.mesh.indices.read (3 * (faceID : Int) + 1))
      (shape.mesh.indices.read (3 * (faceID : Int) + 2))).2.knownVertices.find k = some v →
      validId _ v := w.range
  by_cases hm : materialID = -1
  · refine ⟨?_, ?_, ?_, fun h => absurd hm h⟩
    · simp only [addFace, hm, ne_eq, not_true_eq_false, if_false]
      exact ⟨w.normal_len, w.texcoord_len, w.range, w.inj, w.dense, w.position, w.normal,
        w.texcoord, by
          intro t ht
          simp only [List.mem_append, List.mem_singleton] at ht
          rcases ht with ht | rfl
          · exact w.triangles t ht
          · exact ⟨hvalid _ _ f0, hvalid _ _ f1, hvalid _ _ f2⟩⟩
    · intro k v hk
      simp only [addFace, hm, ne_eq, not_true_eq_false, if_false]
      exact e.find k v hk
    · refine ⟨(addCorners env.argOrder attributes st.part
        (shape.mesh.indices.read (3 * (faceID : Int) + 0))
        (shape.mesh.indices.read (3 * (faceID : Int) + 1))
        (shape.mesh.indices.read (3 * (faceID : Int) + 2))).1, ?_, ?_⟩
      · simp only [addFace, hm, ne_eq, not_true_eq_false, if_false]
        rw [e.index]
      · simp only [addFace, hm, ne_eq, not_true_eq_false, if_false]
        exact ⟨f0, f1, f2⟩
  · refine ⟨?_, ?_, ?_, fun _ => ?_⟩
    · simp only [addFace, hm, ne_eq, not_false_eq_true, if_true]
      exact ⟨w.normal_len, w.texcoord_len, w.range, w.inj, w.dense, w.position, w.normal,
        w.texcoord, by
          intro t ht
          simp only [List.mem_append, List.mem_singleton] at ht
          rcases ht with ht | rfl
          · exact w.triangles t ht
          · exact ⟨hvalid _ _ f0, hvalid _ _ f1, hvalid _ _ f2⟩⟩
    · intro k v hk
      simp only [addFace, hm, ne_eq, not_false_eq_true, if_true]
      exact e.find k v hk
    · refine ⟨(addCorners env.argOrder attributes st.part
        (shape.mesh.indices.read (3 * (faceID : Int) + 0))
        (shape.mesh.indices.read (3 * (faceID : Int) + 1))
        (shape.mesh.indices.read (3 * (faceID : Int) + 2))).1, ?_, ?_⟩
      · simp only [addFace, hm, ne_eq, not_false_eq_true, if_true]
        rw [e.index]
      · simp only [addFace, hm, ne_eq, not_false_eq_true, if_true]
        exact ⟨f0, f1, f2⟩
    · simp only [addFace, hm, ne_eq, not_false_eq_true, if_true]

theorem TriangleOf.mono {known known' : VertexMap} {shape : shape_t} {faceID : Nat} {t : vec3i}
    (h : TriangleOf known shape faceID t)
    (hmono : ∀ k v, known.find k = some v → known'.find k = some v) :
    TriangleOf known' shape faceID t :=
  ⟨hmono _ _ h.1, hmono _ _ h.2.1, hmono _ _ h.2.2⟩

/-- What the face loop does to a well-formed partition: one triangle per matching face, in
face order, numbered by the final map. -/
theorem faceLoop_spec {F : Type} [Inhabited F] (env : Env F) (attributes : attrib_t F)
    (materials : RawVec (material_t F)) (shape : shape_t) (materialID : Int)
    (ids : List Int) (faceID : Nat) (st : FaceState F) (hwf : Partition.WF attributes st.part) :
    Partition.WF attributes
        (faceLoop env attributes materials shape materialID faceID ids st).part ∧
      (∀ k v, st.part.knownVertices.find k = some v →
        (faceLoop env attributes materials shape materialID faceID ids st).part.knownVertices.find k
          = some v) ∧
      ∃ new, (faceLoop env attributes materials shape materialID faceID ids st).part.mesh.index
          = st.part.mesh.index ++ new ∧
        List.Forall₂
          (TriangleOf (faceLoop env attributes materials shape materialID faceID ids
            st).part.knownVertices shape)
          (matchingFaces materialID faceID ids) new := by
  induction ids generalizing faceID st with
  | nil =>
    simp only [faceLoop, matchingFaces]
    exact ⟨hwf, fun _ _ h => h, [], by simp, List.Forall₂.nil⟩
  | cons m ids ih =>
    by_cases hm : m = materialID
    · subst hm
      obtain ⟨w1, f1, ⟨t, hidx, htri⟩, _⟩ :=
        addFace_spec env attributes materials shape m faceID st hwf
      obtain ⟨w2, f2, new, hnew, hall⟩ := ih (faceID + 1) _ w1
      simp only [faceLoop, matchingFaces, ne_eq, not_true_eq_false, if_false, if_true]
      refine ⟨w2, fun k v h => f2 k v (f1 k v h), t :: new, ?_, ?_⟩
      · rw [hnew, hidx]; simp
      · exact List.Forall₂.cons (htri.mono f2) hall
    · obtain ⟨w2, f2, new, hnew, hall⟩ := ih (faceID + 1) st hwf
      simp only [faceLoop, matchingFaces, ne_eq, hm, not_false_eq_true, if_true, if_false]
      exact ⟨w2, f2, new, hnew, hall⟩

/-- The colour after the face loop, for a material id other than `-1`. -/
theorem faceLoop_diffuse {F : Type} [Inhabited F] (env : Env F) (attributes : attrib_t F)
    (materials : RawVec (material_t F)) (shape : shape_t) (materialID : Int)
    (hne : materialID ≠ -1) (ids : List Int) (faceID : Nat) (st : FaceState F)
    (hwf : Partition.WF attributes st.part)
    (h : materialID ∈ ids ∨ st.part.mesh.diffuse = (materials.read materialID).diffuse) :
    (faceLoop env attributes materials shape materialID faceID ids st).part.mesh.diffuse
      = (materials.read materialID).diffuse := by
  induction ids generalizing faceID st with
  | nil =>
    rcases h with h | h
    · simp at h
    · simpa [faceLoop] using h
  | cons m ids ih =>
    by_cases hm : m = materialID
    · subst hm
      obtain ⟨w1, _, _, hd⟩ := addFace_spec env attributes materials shape m faceID st hwf
      simp only [faceLoop, ne_eq, not_true_eq_false, if_false]
      exact ih (faceID + 1) _ w1 (Or.inr (hd hne))
    · simp only [faceLoop, ne_eq, hm, not_false_eq_true, if_true]
      refine ih (faceID + 1) st hwf ?_
      rcases h with h | h
      · left
        simp only [List.mem_cons] at h
        rcases h with h | h
        · exact absurd h.symm hm
        · exact h
      · right; exact h

theorem matchingFaces_eq_filter (materialID : Int) (ids : List Int) (faceID : Nat) :
    matchingFaces materialID faceID ids =
      ((List.range ids.length).filter (fun f => ids[f]? = some materialID)).map (· + faceID) := by
  induction ids generalizing faceID with
  | nil => simp [matchingFaces]
  | cons m ids ih =>
    rw [List.length_cons, List.range_succ_eq_map, List.filter_cons]
    simp only [matchingFaces, ih (faceID + 1), List.filter_map, List.map_map]
    by_cases hm : m = materialID
    · simp [hm, Function.comp_def, Nat.add_comm, Nat.add_left_comm]
    · simp [hm, Function.comp_def, Nat.add_comm, Nat.add_left_comm]

theorem matchingFaces_zero (shape : shape_t) (materialID : Int) :
    matchingFaces materialID 0 shape.mesh.material_ids = facesWithMaterial shape materialID := by
  rw [matchingFaces_eq_filter]
  simp [facesWithMaterial]

theorem matchingFaces_length (materialID : Int) (ids : List Int) (faceID : Nat) :
    (matchingFaces materialID faceID ids).length = ids.count materialID := by
  induction ids generalizing faceID with
  | nil => simp [matchingFaces]
  | cons m ids ih =>
    by_cases hm : m = materialID
    · simp [matchingFaces, hm, ih]
    · have : ¬ (m == materialID) = true := by simpa using hm
      simp [matchingFaces, hm, ih, List.count_cons, this]

/-! ## Partitions, the material loop and the shape loop -/

theorem forall₂_exists_right {α β : Type} {R : α → β → Prop} {l1 : List α} {l2 : List β}
    (h : List.Forall₂ R l1 l2) : ∀ a ∈ l1, ∃ b ∈ l2, R a b := by
  induction h with
  | nil => intro a ha; simp at ha
  | cons hr _ ih =>
    intro a ha
    simp only [List.mem_cons] at ha
    rcases ha with rfl | ha
    · exact ⟨_, List.mem_cons_self _ _, hr⟩
    · obtain ⟨b, hb, hab⟩ := ih a ha
      exact ⟨b, List.mem_cons_of_mem _ hb, hab⟩

theorem forall₂_imp_mem {α β : Type} {R S : α → β → Prop} {l1 : List α} {l2 : List β}
    (h : List.Forall₂ R l1 l2) (himp : ∀ a b, b ∈ l2 → R a b → S a b) :
    List.Forall₂ S l1 l2 := by
  induction h with
  | nil => exact List.Forall₂.nil
  | cons hr _ ih =>
    exact List.Forall₂.cons (himp _ _ (List.mem_cons_self _ _) hr)
      (ih (fun a b hb hab => himp a b (List.mem_cons_of_mem _ hb) hab))

/-- The partition built for one material id is well formed and holds one triangle per face
with that id, in face order. -/
theorem buildPartition_spec {F : Type} [Inhabited F] (env : Env F) (attributes : attrib_t F)
    (materials : RawVec (material_t F)) (shape : shape_t) (materialID : Int) (randCalls : Nat) :
    Partition.WF attributes
        (buildPartition env attributes materials shape materialID randCalls).part ∧
      List.Forall₂
        (TriangleOf (buildPartition env attributes materials shape materialID
          randCalls).part.knownVertices shape)
        (facesWithMaterial shape materialID)
        (buildPartition env attributes materials shape materialID randCalls).part.mesh.index := by
  obtain ⟨w, _, new, hnew, hall⟩ := faceLoop_spec env attributes materials shape materialID
    shape.mesh.material_ids 0 { part := Partition.fresh, randCalls := randCalls }
    (Partition.fresh_WF attributes)
  refine ⟨w, ?_⟩
  have hidx : (buildPartition env attributes materials shape materialID randCalls).part.mesh.index
      = new := by
    simp only [buildPartition, hnew]
    simp [Partition.fresh, TriangleMesh.fresh]
  rw [hidx, ← matchingFaces_zero]
  exact hall

theorem buildPartition_index_length {F : Type} [Inhabited F] (env : Env F)
    (attributes : attrib_t F) (materials : RawVec (material_t F)) (shape : shape_t)
    (materialID : Int) (randCalls : Nat) :
    (buildPartition env attributes materials shape materialID randCalls).part.mesh.index.length
      = shape.mesh.material_ids.count materialID := by
  have h := (buildPartition_spec env attributes materials shape materialID randCalls).2.length_eq
  rw [← h, ← matchingFaces_zero, matchingFaces_length]

theorem buildPartition_nonempty {F : Type} [Inhabited F] (env : Env F)
    (attributes : attrib_t F) (materials : RawVec (material_t F)) (shape : shape_t)
    (materialID : Int) (randCalls : Nat) (hm : materialID ∈ shape.mesh.material_ids) :
    (buildPartition env attributes materials shape materialID randCalls).part.mesh.vertex ≠ [] ∧
    (buildPartition env attributes materials shape materialID randCalls).part.mesh.index ≠ [] := by
  have hlen := buildPartition_index_length env attributes materials shape materialID randCalls
  have hpos : 0 < shape.mesh.material_ids.count materialID := List.count_pos_iff.2 hm
  have hidx : (buildPartition env attributes materials shape materialID randCalls).part.mesh.index
      ≠ [] := by
    intro h
    rw [h] at hlen
    simp at hlen
    omega
  refine ⟨?_, hidx⟩
  obtain ⟨t, ht⟩ := List.exists_mem_of_ne_nil _ hidx
  have hv := ((buildPartition_spec env attributes materials shape materialID
    randCalls).1.triangles t ht).1.2
  intro h
  rw [h] at hv
  simp at hv

theorem buildPartition_diffuse {F : Type} [Inhabited F] (env : Env F)
    (attributes : attrib_t F) (materials : RawVec (material_t F)) (shape : shape_t)
    (materialID : Int) (randCalls : Nat) (hm : materialID ∈ shape.mesh.material_ids)
    (hne : materialID ≠ -1) :
    (buildPartition env attributes materials shape materialID randCalls).part.mesh.diffuse
      = (materials.read materialID).diffuse :=
  faceLoop_diffuse env attributes materials shape materialID hne shape.mesh.material_ids 0 _
    (Partition.fresh_WF attributes) (Or.inl hm)

theorem mem_setInsert (s : List Int) (x a : Int) : a ∈ setInsert s x ↔ a = x ∨ a ∈ s := by
  induction s with
  | nil => simp [setInsert]
  | cons y ys ih =>
    simp only [setInsert]
    split_ifs with h1 h2
    · simp
    · simp only [List.mem_cons, ih]
      tauto
    · have : x = y := by omega
      subst this
      simp

theorem sorted_setInsert (s : List Int) (x : Int) (hs : s.Sorted (· < ·)) :
    (setInsert s x).Sorted (· < ·) := by
  induction s with
  | nil => simp [setInsert]
  | cons y ys ih =>
    have hy : ∀ b ∈ ys, y < b := (List.sorted_cons.1 hs).1
    have hys : ys.Sorted (· < ·) := (List.sorted_cons.1 hs).2
    simp only [setInsert]
    split_ifs with h1 h2
    · refine List.sorted_cons.2 ⟨?_, hs⟩
      intro b hb
      simp only [List.mem_cons] at hb
      rcases hb with rfl | hb
      · exact h1
      · exact lt_trans h1 (hy b hb)
    · refine List.sorted_cons.2 ⟨?_, ih hys⟩
      intro b hb
      rcases (mem_setInsert ys x b).1 hb with rfl | hb
      · exact h2
      · exact hy b hb
    · exact hs

theorem foldl_setInsert (l s : List Int) :
    (∀ a, a ∈ l.foldl setInsert s ↔ a ∈ s ∨ a ∈ l) ∧
    (s.Sorted (· < ·) → (l.foldl setInsert s).Sorted (· < ·)) := by
  induction l generalizing s with
  | nil => simp
  | cons x xs ih =>
    obtain ⟨h1, h2⟩ := ih (setInsert s x)
    refine ⟨fun a => ?_, fun hs => h2 (sorted_setInsert s x hs)⟩
    simp only [List.foldl_cons, h1, mem_setInsert, List.mem_cons]
    tauto

theorem mem_materialIDs (shape : shape_t) (m : Int) :
    m ∈ materialIDs shape ↔ m ∈ shape.mesh.material_ids := by
  simp [materialIDs, (foldl_setInsert shape.mesh.material_ids []).1]

theorem materialIDs_sorted (shape : shape_t) : (materialIDs shape).Sorted (· < ·) :=
  (foldl_setInsert shape.mesh.material_ids []).2 List.sorted_nil

theorem materialIDs_nodup (shape : shape_t) : (materialIDs shape).Nodup :=
  (materialIDs_sorted shape).nodup

/-- The meshes one shape contributes: one per material id handed to the loop, in that order. -/
theorem materialLoop_spec {F : Type} [Inhabited F] (env : Env F) (attributes : attrib_t F)
    (materials : RawVec (material_t F)) (shape : shape_t) (ms : List Int)
    (hms : ∀ m ∈ ms, m ∈ shape.mesh.material_ids) (st : LoadState F) :
    ∃ new, (materialLoop env attributes materials shape ms st).meshes = st.meshes ++ new ∧
      List.Forall₂
        (fun mesh m => ∃ r, mesh = (buildPartition env attributes materials shape m r).part.mesh)
        new ms := by
  induction ms generalizing st with
  | nil => exact ⟨[], by simp [materialLoop], List.Forall₂.nil⟩
  | cons m ms ih =>
    have hm : m ∈ shape.mesh.material_ids := hms m (List.mem_cons_self _ _)
    have hne := (buildPartition_nonempty env attributes materials shape m st.randCalls hm).1
    have hemp : (buildPartition env attributes materials shape m st.randCalls).part.mesh.vertex.isEmpty
        = false := by
      cases h : (buildPartition env attributes materials shape m st.randCalls).part.mesh.vertex with
      | nil => exact absurd h hne
      | cons _ _ => rfl
    obtain ⟨new, hnew, hall⟩ := ih (fun a ha => hms a (List.mem_cons_of_mem _ ha))
      { meshes := st.meshes ++ [(buildPartition env attributes materials shape m st.randCalls).part.mesh],
        randCalls := (buildPartition env attributes materials shape m st.randCalls).randCalls }
    refine ⟨(buildPartition env attributes materials shape m st.randCalls).part.mesh :: new, ?_, ?_⟩
    · simp only [materialLoop, hemp, Bool.false_eq_true, if_false, hnew]
      simp
    · exact List.Forall₂.cons ⟨st.randCalls, rfl⟩ hall

/-- The meshes of the whole shape loop: one per (shape, material id) pair, in loop order. -/
theorem shapeLoop_spec {F : Type} [Inhabited F] (env : Env F) (attributes : attrib_t F)
    (materials : RawVec (material_t F)) (shapes : List shape_t) (st : LoadState F) :
    ∃ new, (shapeLoop env attributes materials shapes st).meshes = st.meshes ++ new ∧
      List.Forall₂
        (fun mesh key =>
          ∃ r, mesh = (buildPartition env attributes materials key.1 key.2 r).part.mesh)
        new (partitionKeys shapes) := by
  induction shapes generalizing st with
  | nil => exact ⟨[], by simp [shapeLoop], List.Forall₂.nil⟩
  | cons shape rest ih =>
    obtain ⟨new1, h1, hall1⟩ := materialLoop_spec env attributes materials shape
      (materialIDs shape) (fun m hm => (mem_materialIDs shape m).1 hm) st
    obtain ⟨new2, h2, hall2⟩ := ih
      (materialLoop env attributes materials shape (materialIDs shape) st)
    refine ⟨new1 ++ new2, ?_, ?_⟩
    · simp only [shapeLoop, h2, h1, List.append_assoc]
    · simp only [partitionKeys]
      refine List.rel_append ?_ hall2
      rw [List.forall₂_map_right_iff]
      exact hall1

theorem mem_partitionKeys (shapes : List shape_t) (key : shape_t × Int) :
    key ∈ partitionKeys shapes ↔ key.1 ∈ shapes ∧ key.2 ∈ key.1.mesh.material_ids := by
  induction shapes with
  | nil => simp [partitionKeys]
  | cons shape rest ih =>
    simp only [partitionKeys, List.mem_append, List.mem_map, ih, List.mem_cons, mem_materialIDs]
    constructor
    · rintro (⟨m, hm, rfl⟩ | ⟨h1, h2⟩)
      · exact ⟨Or.inl rfl, hm⟩
      · exact ⟨Or.inr h1, h2⟩
    · rintro ⟨rfl | h1, h2⟩
      · exact Or.inl ⟨key.2, h2, rfl⟩
      · exact Or.inr ⟨h1, h2⟩

/-- The load succeeds exactly when the parser does, and then returns the meshes of the shape
loop with their bounding box. -/
theorem loadOBJ_ok {F : Type} [Inhabited F] [Min F] [Max F] (env : Env F) (objFile : String)
    (model : Model F) (h : loadOBJ env objFile = Except.ok model) :
    (env.LoadObj objFile (modelDir objFile)).readOK = true ∧
    model.meshes = (shapeLoop env (env.LoadObj objFile (modelDir objFile)).attributes
      (env.LoadObj objFile (modelDir objFile)).materials
      (env.LoadObj objFile (modelDir objFile)).shapes { meshes := [], randCalls := 0 }).meshes := by
  unfold loadOBJ at h
  by_cases hr : (env.LoadObj objFile (modelDir objFile)).readOK = true
  · simp only [hr, Bool.not_true, Bool.false_eq_true, if_false] at h
    injection h with h
    subst h
    exact ⟨hr, rfl⟩
  · simp only [Bool.not_eq_true] at hr
    simp [hr] at h

/-- Every mesh of a loaded model is the partition of one (shape, material id) pair. -/
theorem loadOBJ_meshes {F : Type} [Inhabited F] [Min F] [Max F] (env : Env F)
    (objFile : String) (model : Model F) (h : loadOBJ env objFile = Except.ok model) :
    List.Forall₂
      (fun mesh key => ∃ r, mesh = (buildPartition env
        (env.LoadObj objFile (modelDir objFile)).attributes
        (env.LoadObj objFile (modelDir objFile)).materials key.1 key.2 r).part.mesh)
      model.meshes (partitionKeys (env.LoadObj objFile (modelDir objFile)).shapes) := by
  obtain ⟨_, hm⟩ := loadOBJ_ok env objFile model h
  obtain ⟨new, hnew, hall⟩ := shapeLoop_spec env
    (env.LoadObj objFile (modelDir objFile)).attributes
    (env.LoadObj objFile (modelDir objFile)).materials
    (env.LoadObj objFile (modelDir objFile)).shapes { meshes := [], randCalls := 0 }
  rw [hm, hnew]
  simpa using hall

/-! ## Reads within bounds -/

theorem RawVec.read_of_getElem? {α : Type} (v : RawVec α) (i : Nat) (a : α)
    (h : v.elems[i]? = some a) : v.read (i : Int) = a := by
  simp [RawVec.read, h]

theorem vec3f_at_of_checked {F : Type} (v : RawVec F) (p : Int) (a : vec3f F)
    (h : vec3f_checked v p = some a) : vec3f_at v p = a := by
  unfold vec3f_checked at h
  by_cases hp : 0 ≤ p
  · simp only [hp, if_true] at h
    obtain ⟨n, rfl⟩ := Int.eq_ofNat_of_zero_le hp
    simp only [Int.toNat_ofNat] at h
    cases hx : v.elems[3 * n]? with
    | none => simp [hx] at h
    | some x =>
      cases hy : v.elems[3 * n + 1]? with
      | none => simp [hx, hy] at h
      | some y =>
        cases hz : v.elems[3 * n + 2]? with
        | none => simp [hx, hy, hz] at h
        | some z =>
          simp only [hx, hy, hz, Option.some.injEq] at h
          subst h
          have e0 : (3 * (n : Int)) = ((3 * n : Nat) : Int) := by push_cast; ring
          have e1 : (3 * (n : Int) + 1) = ((3 * n + 1 : Nat) : Int) := by push_cast; ring
          have e2 : (3 * (n : Int) + 2) = ((3 * n + 2 : Nat) : Int) := by push_cast; ring
          simp only [vec3f_at]
          rw [e2, e1, e0, RawVec.read_of_getElem? v _ x hx, RawVec.read_of_getElem? v _ y hy,
            RawVec.read_of_getElem? v _ z hz]
  · simp [hp] at h

theorem vec2f_at_of_checked {F : Type} (v : RawVec F) (p : Int) (a : vec2f F)
    (h : vec2f_checked v p = some a) : vec2f_at v p = a := by
  unfold vec2f_checked at h
  by_cases hp : 0 ≤ p
  · simp only [hp, if_true] at h
    obtain ⟨n, rfl⟩ := Int.eq_ofNat_of_zero_le hp
    simp only [Int.toNat_ofNat] at h
    cases hx : v.elems[2 * n]? with
    | none => simp [hx] at h
    | some x =>
      cases hy : v.elems[2 * n + 1]? with
      | none => simp [hx, hy] at h
      | some y =>
        simp only [hx, hy, Option.some.injEq] at h
        subst h
        have e0 : (2 * (n : Int)) = ((2 * n : Nat) : Int) := by push_cast; ring
        have e1 : (2 * (n : Int) + 1) = ((2 * n + 1 : Nat) : Int) := by push_cast; ring
        simp only [vec2f_at]
        rw [e1, e0, RawVec.read_of_getElem? v _ x hx, RawVec.read_of_getElem? v _ y hy]
  · simp [hp] at h
/-! ## Sequences of `addVertex` calls and loaded models -/

theorem validId_iff (n : Nat) (v : Int) : validId n v ↔ 0 ≤ v ∧ v < (n : Int) := by
  unfold validId
  constructor
  · rintro ⟨h1, h2⟩; exact ⟨h1, by omega⟩
  · rintro ⟨h1, h2⟩; exact ⟨h1, by omega⟩

theorem addVerticesFrom_spec {F : Type} [Inhabited F] (attributes : attrib_t F)
    (calls : List index_t) (st : Partition F) (hwf : Partition.WF attributes st) :
    Partition.WF attributes (addVerticesFrom attributes st calls).2 ∧
      Partition.Ext st (addVerticesFrom attributes st calls).2 ∧
      List.Forall₂ (fun idx id => (addVerticesFrom attributes st calls).2.knownVertices.find idx = some id)
        calls (addVerticesFrom attributes st calls).1 := by
  induction calls generalizing st with
  | nil => exact ⟨hwf, Partition.Ext.refl st, List.Forall₂.nil⟩
  | cons idx rest ih =>
    obtain ⟨w1, e1, f1⟩ := addVertex_spec st attributes idx hwf
    obtain ⟨w2, e2, hall⟩ := ih _ w1
    exact ⟨w2, e1.trans e2, List.Forall₂.cons (e2.find _ _ f1) hall⟩

theorem addVertices_WF {F : Type} [Inhabited F] (attributes : attrib_t F)
    (calls : List index_t) : Partition.WF attributes (addVertices attributes calls).2 :=
  (addVerticesFrom_spec attributes calls Partition.fresh (Partition.fresh_WF attributes)).1

/-- Every mesh of a loaded model is the mesh of a well-formed partition. -/
theorem loadOBJ_mesh_WF {F : Type} [Inhabited F] [Min F] [Max F] (env : Env F)
    (objFile : String) (model : Model F) (h : loadOBJ env objFile = Except.ok model)
    (mesh : TriangleMesh F) (hmesh : mesh ∈ model.meshes) :
    ∃ p : Partition F, p.mesh = mesh ∧
      Partition.WF (env.LoadObj objFile (modelDir objFile)).attributes p := by
  obtain ⟨key, _, r, hr⟩ := forall₂_exists_right (loadOBJ_meshes env objFile model h) mesh hmesh
  exact ⟨_, hr.symm, (buildPartition_spec env _ _ key.1 key.2 r).1⟩

/-! ## The claims -/

/-- Claim C1. After every call of a sequence of `addVertex` calls on a mesh and map that start
empty, the normal array has length 0 or the vertex count, and so has the texcoord array; the same
holds for every mesh of a model returned by `loadOBJ`. -/
theorem attribute_arrays_never_ragged {F : Type} [Inhabited F] [Min F] [Max F] :
    (∀ (attributes : attrib_t F) (calls : List index_t) (n : Nat),
      ((addVertices attributes (calls.take n)).2.mesh.normal.length = 0 ∨
        (addVertices attributes (calls.take n)).2.mesh.normal.length
          = (addVertices attributes (calls.take n)).2.mesh.vertex.length) ∧
      ((addVertices attributes (calls.take n)).2.mesh.texcoord.length = 0 ∨
        (addVertices attributes (calls.take n)).2.mesh.texcoord.length
          = (addVertices attributes (calls.take n)).2.mesh.vertex.length)) ∧
    (∀ (env : Env F) (objFile : String) (model : Model F),
      loadOBJ env objFile = Except.ok model → ∀ mesh ∈ model.meshes,
        (mesh.normal.length = 0 ∨ mesh.normal.length = mesh.vertex.length) ∧
        (mesh.texcoord.length = 0 ∨ mesh.texcoord.length = mesh.vertex.length)) := by
  constructor
  · intro attributes calls n
    have w := addVertices_WF attributes (calls.take n)
    exact ⟨w.normal_len, w.texcoord_len⟩
  · intro env objFile model h mesh hmesh
    obtain ⟨p, rfl, w⟩ := loadOBJ_mesh_WF env objFile model h mesh hmesh
    exact ⟨w.normal_len, w.texcoord_len⟩

theorem attribute_arrays_never_ragged_witness :
    loadOBJ sampleEnv "a/b.obj" = Except.ok sampleModel ∧ sampleMesh2 ∈ sampleModel.meshes ∧
      (sampleMesh2.normal.length = 0 ∨ sampleMesh2.normal.length = sampleMesh2.vertex.length) ∧
      (sampleMesh2.texcoord.length = 0 ∨
        sampleMesh2.texcoord.length = sampleMesh2.vertex.length) :=
  ⟨by rfl, by decide,
    attribute_arrays_never_ragged.2 sampleEnv "a/b.obj" sampleModel (by rfl) sampleMesh2
      (by decide)⟩

/-- Claim C2. In every mesh of a model returned by `loadOBJ`, each of the three components of
every triangle is at least 0 and below the number of vertices of that mesh. -/
theorem triangle_indices_in_range {F : Type} [Inhabited F] [Min F] [Max F]
    (env : Env F) (objFile : String) (model : Model F)
    (h : loadOBJ env objFile = Except.ok model) :
    ∀ mesh ∈ model.meshes, ∀ t ∈ mesh.index,
      (0 ≤ t.x ∧ t.x < (mesh.vertex.length : Int)) ∧
      (0 ≤ t.y ∧ t.y < (mesh.vertex.length : Int)) ∧
      (0 ≤ t.z ∧ t.z < (mesh.vertex.length : Int)) := by
  intro mesh hmesh t ht
  obtain ⟨p, rfl, w⟩ := loadOBJ_mesh_WF env objFile model h mesh hmesh
  obtain ⟨h1, h2, h3⟩ := w.triangles t ht
  exact ⟨(validId_iff _ _).1 h1, (validId_iff _ _).1 h2, (validId_iff _ _).1 h3⟩

theorem triangle_indices_in_range_witness :
    loadOBJ sampleEnv "a/b.obj" = Except.ok sampleModel ∧ sampleMesh0 ∈ sampleModel.meshes ∧
      (⟨0, 1, 2⟩ : vec3i) ∈ sampleMesh0.index ∧
      ((0 ≤ (⟨0, 1, 2⟩ : vec3i).x ∧ (⟨0, 1, 2⟩ : vec3i).x < (sampleMesh0.vertex.length : Int)) ∧
       (0 ≤ (⟨0, 1, 2⟩ : vec3i).y ∧ (⟨0, 1, 2⟩ : vec3i).y < (sampleMesh0.vertex.length : Int)) ∧
       (0 ≤ (⟨0, 1, 2⟩ : vec3i).z ∧ (⟨0, 1, 2⟩ : vec3i).z < (sampleMesh0.vertex.length : Int))) :=
  ⟨by rfl, by decide, by decide,
    triangle_indices_in_range sampleEnv "a/b.obj" sampleModel (by rfl) sampleMesh0 (by decide)
      ⟨0, 1, 2⟩ (by decide)⟩

/-- Claim C3. Calling `addVertex` with the same corner identity twice in a row returns the same
index both times, and the second call leaves the mesh and the `knownVertices` map unchanged (so
the vertex count does not grow); this holds in every state, reachable or not. -/
theorem addVertex_twice {F : Type} [Inhabited F] (st : Partition F) (attributes : attrib_t F)
    (idx : index_t) :
    addVertex (addVertex st attributes idx).2 attributes idx
      = ((addVertex st attributes idx).1, (addVertex st attributes idx).2) := by
  cases hf : st.knownVertices.find idx with
  | some id =>
    rw [addVertex_found st attributes idx id hf]
    exact addVertex_found st attributes idx id hf
  | none =>
    apply addVertex_found
    simp only [addVertex, hf]
    exact VertexMap.find_assign_same _ _ _

/-- Claim C4. Within one partition (mesh and map starting empty), two requests whose corner
identities differ in any field are given different local vertex indices by `addVertex`, whatever
positions they reference. -/
theorem distinct_identities_distinct_indices {F : Type} [Inhabited F] (attributes : attrib_t F)
    (calls : List index_t) :
    ∀ p ∈ List.zip calls (addVertices attributes calls).1,
      ∀ q ∈ List.zip calls (addVertices attributes calls).1, p.1 ≠ q.1 → p.2 ≠ q.2 := by
  obtain ⟨w, _, hall⟩ :=
    addVerticesFrom_spec attributes calls Partition.fresh (Partition.fresh_WF attributes)
  have hz : ∀ p ∈ List.zip calls (addVertices attributes calls).1,
      (addVertices attributes calls).2.knownVertices.find p.1 = some p.2 := by
    intro p hp
    obtain ⟨a, b⟩ := p
    exact (List.forall₂_iff_zip.1 hall).2 hp
  intro p hp q hq hne heq
  apply hne
  have h1 := hz p hp
  have h2 := hz q hq
  rw [heq] at h1
  exact w.inj _ _ _ h1 h2

theorem distinct_identities_distinct_indices_witness :
    ((⟨0, 0, 0⟩, 0) : index_t × Int) ∈
        List.zip [(⟨0, 0, 0⟩ : index_t), ⟨0, 1, 0⟩, ⟨0, 0, 0⟩]
          (addVertices sampleAttributes [⟨0, 0, 0⟩, ⟨0, 1, 0⟩, ⟨0, 0, 0⟩]).1 ∧
      ((⟨0, 1, 0⟩, 1) : index_t × Int) ∈
        List.zip [(⟨0, 0, 0⟩ : index_t), ⟨0, 1, 0⟩, ⟨0, 0, 0⟩]
          (addVertices sampleAttributes [⟨0, 0, 0⟩, ⟨0, 1, 0⟩, ⟨0, 0, 0⟩]).1 ∧
      ((⟨0, 0, 0⟩, 0) : index_t × Int).2 ≠ ((⟨0, 1, 0⟩, 1) : index_t × Int).2 :=
  ⟨by decide, by decide,
    distinct_identities_distinct_indices sampleAttributes [⟨0, 0, 0⟩, ⟨0, 1, 0⟩, ⟨0, 0, 0⟩]
      (⟨0, 0, 0⟩, 0) (by decide) (⟨0, 1, 0⟩, 1) (by decide) (by decide)⟩

theorem Partition.WF.cornerGeometry {F : Type} {attributes : attrib_t F} {st : Partition F}
    (w : Partition.WF attributes st) (idx : index_t) (i : Int)
    (h : st.knownVertices.find idx = some i) : CornerGeometry attributes st.mesh idx i := by
  refine ⟨(w.range idx i h).1, ?_, ?_, ?_⟩
  · intro a ha
    rw [w.position idx i h, vec3f_at_of_checked _ _ a ha]
  · intro hn a ha
    rw [w.normal idx i h hn, vec3f_at_of_checked _ _ a ha]
  · intro ht a ha
    rw [w.texcoord idx i h ht, vec2f_at_of_checked _ _ a ha]

/-- Claim C5. In every mesh of a loaded model, for every face kept in it and each of its three
corners, the emitted triangle index points at a vertex whose position is the referenced source
position, whose normal is the referenced source normal when `normal_index >= 0`, and whose
texcoord is the referenced source texcoord when `texcoord_index >= 0` (source indices in bounds);
and a later `addVertex` on the same mesh only appends to the three arrays, so the values stored
earlier are not changed. -/
theorem geometry_preserved {F : Type} [Inhabited F] [Min F] [Max F] :
    (∀ (env : Env F) (objFile : String) (model : Model F),
      loadOBJ env objFile = Except.ok model →
      List.Forall₂
        (fun mesh key =>
          List.Forall₂
            (fun f t =>
              CornerGeometry (env.LoadObj objFile (modelDir objFile)).attributes mesh
                (corner key.1 f 0) t.x ∧
              CornerGeometry (env.LoadObj objFile (modelDir objFile)).attributes mesh
                (corner key.1 f 1) t.y ∧
              CornerGeometry (env.LoadObj objFile (modelDir objFile)).attributes mesh
                (corner key.1 f 2) t.z)
            (facesWithMaterial key.1 key.2) mesh.index)
        model.meshes (partitionKeys (env.LoadObj objFile (modelDir objFile)).shapes)) ∧
    (∀ (attributes : attrib_t F) (calls : List index_t) (idx : index_t),
      (addVertices attributes calls).2.mesh.vertex
        <+: (addVertex (addVertices attributes calls).2 attributes idx).2.mesh.vertex ∧
      (addVertices attributes calls).2.mesh.normal
        <+: (addVertex (addVertices attributes calls).2 attributes idx).2.mesh.normal ∧
      (addVertices attributes calls).2.mesh.texcoord
        <+: (addVertex (addVertices attributes calls).2 attributes idx).2.mesh.texcoord) := by
  constructor
  · intro env objFile model h
    refine (loadOBJ_meshes env objFile model h).imp ?_
    rintro mesh key ⟨r, rfl⟩
    obtain ⟨w, hall⟩ := buildPartition_spec env
      (env.LoadObj objFile (modelDir objFile)).attributes
      (env.LoadObj objFile (modelDir objFile)).materials key.1 key.2 r
    refine hall.imp ?_
    intro f t ht
    exact ⟨w.cornerGeometry _ _ ht.1, w.cornerGeometry _ _ ht.2.1, w.cornerGeometry _ _ ht.2.2⟩
  · intro attributes calls idx
    obtain ⟨_, e, _⟩ := addVertex_spec _ attributes idx (addVertices_WF attributes calls)
    exact ⟨e.vertex, e.normal, e.texcoord⟩

theorem geometry_preserved_witness :
    loadOBJ sampleEnv "a/b.obj" = Except.ok sampleModel ∧
      List.Forall₂
        (fun mesh key =>
          List.Forall₂
            (fun f t =>
              CornerGeometry (sampleEnv.LoadObj "a/b.obj" (modelDir "a/b.obj")).attributes mesh
                (corner key.1 f 0) t.x ∧
              CornerGeometry (sampleEnv.LoadObj "a/b.obj" (modelDir "a/b.obj")).attributes mesh
                (corner key.1 f 1) t.y ∧
              CornerGeometry (sampleEnv.LoadObj "a/b.obj" (modelDir "a/b.obj")).attributes mesh
                (corner key.1 f 2) t.z)
            (facesWithMaterial key.1 key.2) mesh.index)
        sampleModel.meshes
        (partitionKeys (sampleEnv.LoadObj "a/b.obj" (modelDir "a/b.obj")).shapes) :=
  ⟨by rfl, geometry_preserved.1 sampleEnv "a/b.obj" sampleModel (by rfl)⟩

theorem forall₂_map_eq {α β γ : Type} {f : α → γ} {g : β → γ} {l1 : List α} {l2 : List β}
    (h : List.Forall₂ (fun a b => f a = g b) l1 l2) : l1.map f = l2.map g := by
  induction h with
  | nil => rfl
  | cons hr _ ih => simp [hr, ih]

theorem sum_count_materialIDs (shape : shape_t) :
    ((materialIDs shape).map (fun m => shape.mesh.material_ids.count m)).sum
      = shape.mesh.material_ids.length := by
  have hperm : (materialIDs shape).Perm shape.mesh.material_ids.dedup :=
    (List.perm_ext_iff_of_nodup (materialIDs_nodup shape) (List.nodup_dedup _)).2
      (fun a => by rw [mem_materialIDs, List.mem_dedup])
  rw [(hperm.map _).sum_eq]
  exact List.sum_map_count_dedup_eq_length _

theorem materialIDs_length (shape : shape_t) :
    (materialIDs shape).length = shape.mesh.material_ids.toFinset.card := by
  rw [← List.toFinset_card_of_nodup (materialIDs_nodup shape)]
  congr 1
  ext a
  simp [mem_materialIDs]

theorem partitionKeys_length (shapes : List shape_t) :
    (partitionKeys shapes).length
      = (shapes.map (fun s => s.mesh.material_ids.toFinset.card)).sum := by
  induction shapes with
  | nil => rfl
  | cons s rest ih => simp [partitionKeys, ih, materialIDs_length]

/-- Claim C6. The mesh built for material id `m` of a shape holds exactly one triangle per face of
that shape whose material id is `m`, in face order and from no other face: its triangle list is
the list of those faces, each corner renamed by a map that gives different identities different
ids. Hence the triangle counts of the meshes that one shape contributes sum to the number of faces
of the shape. -/
theorem partition_faces_complete {F : Type} [Inhabited F] [Min F] [Max F] :
    (∀ (env : Env F) (objFile : String) (model : Model F),
      loadOBJ env objFile = Except.ok model →
      List.Forall₂
        (fun mesh key =>
          ∃ known : VertexMap,
            (∀ k k' v, known.find k = some v → known.find k' = some v → k = k') ∧
            List.Forall₂ (TriangleOf known key.1) (facesWithMaterial key.1 key.2) mesh.index)
        model.meshes (partitionKeys (env.LoadObj objFile (modelDir objFile)).shapes)) ∧
    (∀ (env : Env F) (attributes : attrib_t F) (materials : RawVec (material_t F))
      (shape : shape_t) (st : LoadState F),
      ∃ new, (materialLoop env attributes materials shape (materialIDs shape) st).meshes
          = st.meshes ++ new ∧
        List.Forall₂ (fun mesh m => mesh.index.length = (facesWithMaterial shape m).length)
          new (materialIDs shape) ∧
        (new.map (fun mesh => mesh.index.length)).sum = shape.mesh.material_ids.length) := by
  constructor
  · intro env objFile model h
    refine (loadOBJ_meshes env objFile model h).imp ?_
    rintro mesh key ⟨r, rfl⟩
    obtain ⟨w, hall⟩ := buildPartition_spec env
      (env.LoadObj objFile (modelDir objFile)).attributes
      (env.LoadObj objFile (modelDir objFile)).materials key.1 key.2 r
    exact ⟨_, w.inj, hall⟩
  · intro env attributes materials shape st
    obtain ⟨new, hnew, hall⟩ := materialLoop_spec env attributes materials shape
      (materialIDs shape) (fun m hm => (mem_materialIDs shape m).1 hm) st
    refine ⟨new, hnew, ?_, ?_⟩
    · refine hall.imp ?_
      rintro mesh m ⟨r, rfl⟩
      exact ((buildPartition_spec env attributes materials shape m r).2.length_eq).symm
    · have hcount : List.Forall₂
          (fun (mesh : TriangleMesh F) (m : Int) =>
            mesh.index.length = shape.mesh.material_ids.count m) new (materialIDs shape) := by
        refine hall.imp ?_
        rintro mesh m ⟨r, rfl⟩
        exact buildPartition_index_length env attributes materials shape m r
      rw [forall₂_map_eq hcount]
      exact sum_count_materialIDs shape

theorem partition_faces_complete_witness :
    loadOBJ sampleEnv "a/b.obj" = Except.ok sampleModel ∧
      List.Forall₂
        (fun mesh key =>
          ∃ known : VertexMap,
            (∀ k k' v, known.find k = some v → known.find k' = some v → k = k') ∧
            List.Forall₂ (TriangleOf known key.1) (facesWithMaterial key.1 key.2) mesh.index)
        sampleModel.meshes
        (partitionKeys (sampleEnv.LoadObj "a/b.obj" (modelDir "a/b.obj")).shapes) :=
  ⟨by rfl, partition_faces_complete.1 sampleEnv "a/b.obj" sampleModel (by rfl)⟩

/-- Claim C7. Every mesh of a loaded model has at least one vertex and at least one triangle. The
meshes a shape contributes correspond one to one, in loop order, to the material ids in the set
`materialIDs`, which holds exactly the ids carried by at least one face, each once; so a shape
contributes as many meshes as it has distinct face material ids, and an id matching no face
produces no mesh. -/
theorem no_empty_mesh {F : Type} [Inhabited F] [Min F] [Max F] :
    (∀ (env : Env F) (objFile : String) (model : Model F),
      loadOBJ env objFile = Except.ok model →
      (∀ mesh ∈ model.meshes, mesh.vertex ≠ [] ∧ mesh.index ≠ []) ∧
      model.meshes.length = ((env.LoadObj objFile (modelDir objFile)).shapes.map
        (fun s => s.mesh.material_ids.toFinset.card)).sum) ∧
    (∀ (env : Env F) (attributes : attrib_t F) (materials : RawVec (material_t F))
      (shape : shape_t) (st : LoadState F),
      ∃ new, (materialLoop env attributes materials shape (materialIDs shape) st).meshes
          = st.meshes ++ new ∧
        List.Forall₂
          (fun mesh m => m ∈ shape.mesh.material_ids ∧
            ∃ r, mesh = (buildPartition env attributes materials shape m r).part.mesh)
          new (materialIDs shape) ∧
        new.length = shape.mesh.material_ids.toFinset.card) ∧
    (∀ (shape : shape_t), (materialIDs shape).Nodup ∧
      ∀ m, m ∈ materialIDs shape ↔ m ∈ shape.mesh.material_ids) := by
  refine ⟨?_, ?_, fun shape => ⟨materialIDs_nodup shape, mem_materialIDs shape⟩⟩
  · intro env objFile model h
    have hall := loadOBJ_meshes env objFile model h
    refine ⟨?_, ?_⟩
    · intro mesh hmesh
      obtain ⟨key, hkey, r, rfl⟩ := forall₂_exists_right hall mesh hmesh
      exact buildPartition_nonempty env _ _ key.1 key.2 r ((mem_partitionKeys _ key).1 hkey).2
    · rw [hall.length_eq, partitionKeys_length]
  · intro env attributes materials shape st
    obtain ⟨new, hnew, hall⟩ := materialLoop_spec env attributes materials shape
      (materialIDs shape) (fun m hm => (mem_materialIDs shape m).1 hm) st
    refine ⟨new, hnew, ?_, ?_⟩
    · exact forall₂_imp_mem hall (fun mesh m hm h => ⟨(mem_materialIDs shape m).1 hm, h⟩)
    · rw [hall.length_eq, materialIDs_length]

theorem no_empty_mesh_witness :
    loadOBJ sampleEnv "a/b.obj" = Except.ok sampleModel ∧
      ((∀ mesh ∈ sampleModel.meshes, mesh.vertex ≠ [] ∧ mesh.index ≠ []) ∧
      sampleModel.meshes.length = ((sampleEnv.LoadObj "a/b.obj" (modelDir "a/b.obj")).shapes.map
        (fun s => s.mesh.material_ids.toFinset.card)).sum) :=
  ⟨by rfl, no_empty_mesh.1 sampleEnv "a/b.obj" sampleModel (by rfl)⟩

/-- Claim C8, counterexample. Position index 5 lies outside the position array (one position), yet
`addVertex` returns a vertex id and the load returns a model whose mesh holds a vertex read from
beyond the array. -/
theorem out_of_range_position_is_read :
    vec3f_checked oobAttributes.vertices 5 = none ∧
    addVertex Partition.fresh oobAttributes ⟨5, -1, -1⟩ =
      (0, { mesh := { vertex := [⟨1015, 1016, 1017⟩], normal := [], texcoord := [], index := [],
                      diffuse := ⟨0, 0, 0⟩, diffuseTextureID := -1 },
            knownVertices := [(⟨5, -1, -1⟩, 0)] }) ∧
    loadOBJ oobEnv "scene.obj" = Except.ok
      { meshes := [{ vertex := [⟨10, 11, 12⟩, ⟨1015, 1016, 1017⟩], normal := [], texcoord := [],
                     index := [⟨0, 1, 0⟩], diffuse := ⟨4, 4, 4⟩, diffuseTextureID := -1 }],
        textures := [], bounds := ⟨some (⟨10, 11, 12⟩, ⟨1015, 1016, 1017⟩)⟩ } := by
  refine ⟨by decide, by rfl, by rfl⟩

/-- Claim C8, amended. `addVertex` checks no bounds and has no failure outcome. After any sequence
of calls, a further call returns an id whose vertex carries the attributes the identity references
whenever the position index (and the normal and texcoord index when not negative) lies within its
source array; for an identity not yet known it appends exactly one vertex, read at the raw offset
`vertex_index` of the position array. -/
theorem addVertex_unchecked {F : Type} [Inhabited F] (attributes : attrib_t F)
    (calls : List index_t) (idx : index_t) :
    CornerGeometry attributes (addVertex (addVertices attributes calls).2 attributes idx).2.mesh
      idx (addVertex (addVertices attributes calls).2 attributes idx).1 ∧
    ((addVertices attributes calls).2.knownVertices.find idx = none →
      (addVertex (addVertices attributes calls).2 attributes idx).1
        = ((addVertices attributes calls).2.mesh.vertex.length : Int) ∧
      (addVertex (addVertices attributes calls).2 attributes idx).2.mesh.vertex
        = (addVertices attributes calls).2.mesh.vertex
          ++ [vec3f_at attributes.vertices idx.vertex_index]) := by
  have w := addVertices_WF attributes calls
  obtain ⟨w1, _, f1⟩ := addVertex_spec _ attributes idx w
  refine ⟨w1.cornerGeometry _ _ f1, ?_⟩
  intro hf
  obtain ⟨next, text, heq, _⟩ := addVertex_new _ attributes idx hf w.normal_len w.texcoord_len
  rw [heq]
  exact ⟨rfl, rfl⟩

theorem addVertex_unchecked_witness :
    (addVertices sampleAttributes [⟨0, 0, 0⟩]).2.knownVertices.find ⟨2, 0, -1⟩ = none ∧
      ((addVertex (addVertices sampleAttributes [⟨0, 0, 0⟩]).2 sampleAttributes ⟨2, 0, -1⟩).1
        = ((addVertices sampleAttributes [⟨0, 0, 0⟩]).2.mesh.vertex.length : Int) ∧
      (addVertex (addVertices sampleAttributes [⟨0, 0, 0⟩]).2 sampleAttributes ⟨2, 0, -1⟩).2.mesh.vertex
        = (addVertices sampleAttributes [⟨0, 0, 0⟩]).2.mesh.vertex
          ++ [vec3f_at sampleAttributes.vertices (⟨2, 0, -1⟩ : index_t).vertex_index]) :=
  ⟨by decide, (addVertex_unchecked sampleAttributes [⟨0, 0, 0⟩] ⟨2, 0, -1⟩).2 (by decide)⟩

/-- Claim C9, counterexample. The only face has material id 3, the material table has one entry,
and `loadOBJ` returns a model whose mesh colour was read from beyond the table. -/
theorem out_of_range_material_is_read :
    (badMaterialEnv.LoadObj "scene.obj" (modelDir "scene.obj")).materials.size = 1 ∧
    (badMaterialEnv.LoadObj "scene.obj" (modelDir "scene.obj")).shapes.map
      (fun s => s.mesh.material_ids) = [[3]] ∧
    loadOBJ badMaterialEnv "scene.obj" = Except.ok
      { meshes := [{ vertex := [⟨10, 11, 12⟩, ⟨20, 21, 22⟩, ⟨30, 31, 32⟩], normal := [],
                     texcoord := [], index := [⟨0, 1, 2⟩], diffuse := ⟨103, 103, 103⟩,
                     diffuseTextureID := -1 }],
        textures := [], bounds := ⟨some (⟨10, 11, 12⟩, ⟨30, 31, 32⟩)⟩ } := by
  refine ⟨by rfl, by rfl, by rfl⟩

/-- Claim C9, amended. `loadOBJ` checks no material id against the material table: it fails if and
only if the parser reports failure, whatever material ids the faces carry, and otherwise returns a
model. -/
theorem loadOBJ_fails_iff_parser_fails {F : Type} [Inhabited F] [Min F] [Max F]
    (env : Env F) (objFile : String) :
    ((∃ msg, loadOBJ env objFile = Except.error msg) ↔
      (env.LoadObj objFile (modelDir objFile)).readOK = false) ∧
    ((∃ model, loadOBJ env objFile = Except.ok model) ↔
      (env.LoadObj objFile (modelDir objFile)).readOK = true) := by
  cases hr : (env.LoadObj objFile (modelDir objFile)).readOK <;> simp [loadOBJ, hr]

/-- Claim C10. For every mesh of a loaded model, built for the material id `m` of its partition:
when `m` is not `-1` and `0 <= m < materials.size()`, the mesh's diffuse colour is
`materials[m].diffuse`, however many faces the partition has. -/
theorem diffuse_from_material_table {F : Type} [Inhabited F] [Min F] [Max F]
    (env : Env F) (objFile : String) (model : Model F)
    (h : loadOBJ env objFile = Except.ok model) :
    List.Forall₂
      (fun mesh key => key.2 ≠ -1 → 0 ≤ key.2 →
        ∀ mat, (env.LoadObj objFile (modelDir objFile)).materials.elems[key.2.toNat]? = some mat →
          mesh.diffuse = mat.diffuse)
      model.meshes (partitionKeys (env.LoadObj objFile (modelDir objFile)).shapes) := by
  refine forall₂_imp_mem (loadOBJ_meshes env objFile model h) ?_
  rintro mesh key hkey ⟨r, rfl⟩ hne hpos mat hmat
  rw [buildPartition_diffuse env _ _ key.1 key.2 r ((mem_partitionKeys _ key).1 hkey).2 hne]
  obtain ⟨n, hn⟩ := Int.eq_ofNat_of_zero_le hpos
  rw [hn] at hmat ⊢
  simp only [Int.toNat_ofNat] at hmat
  rw [RawVec.read_of_getElem? _ n mat hmat]

theorem diffuse_from_material_table_witness :
    loadOBJ sampleEnv "a/b.obj" = Except.ok sampleModel ∧
      List.Forall₂
        (fun mesh key => key.2 ≠ -1 → 0 ≤ key.2 →
          ∀ mat, (sampleEnv.LoadObj "a/b.obj" (modelDir "a/b.obj")).materials.elems[key.2.toNat]?
              = some mat →
            mesh.diffuse = mat.diffuse)
        sampleModel.meshes
        (partitionKeys (sampleEnv.LoadObj "a/b.obj" (modelDir "a/b.obj")).shapes) :=
  ⟨by rfl, diffuse_from_material_table sampleEnv "a/b.obj" sampleModel (by rfl)⟩

/-! ## Order of the meshes -/

theorem materialIDs_eq_sort (shape : shape_t) :
    materialIDs shape = shape.mesh.material_ids.toFinset.sort (· ≤ ·) := by
  apply List.eq_of_perm_of_sorted (r := (· ≤ ·))
  · apply (List.perm_ext_iff_of_nodup (materialIDs_nodup shape) (Finset.sort_nodup _ _)).2
    intro a
    rw [mem_materialIDs, Finset.mem_sort, List.mem_toFinset]
  · exact (materialIDs_sorted shape).imp (fun h => le_of_lt h)
  · exact Finset.sort_sorted _ _

/-- Claim C11, counterexample. The faces of the sample shape carry the material ids 2 and 0 in
that order, and the model holds the mesh for material 0 before the mesh for material 2. -/
theorem discovery_order_not_kept :
    (sampleEnv.LoadObj "a/b.obj" (modelDir "a/b.obj")).shapes.map (fun s => s.mesh.material_ids)
      = [[2, 0]] ∧
    loadOBJ sampleEnv "a/b.obj" = Except.ok sampleModel ∧
    sampleModel.meshes
      = [(buildPartition sampleEnv sampleAttributes sampleMaterials sampleShape 0 0).part.mesh,
         (buildPartition sampleEnv sampleAttributes sampleMaterials sampleShape 2 0).part.mesh] := by
  refine ⟨by rfl, by rfl, by rfl⟩

/-- Claim C11, amended. The meshes of the returned model are ordered by shape index, and among the
meshes of one shape they appear in ascending order of material id (the iteration order of the
`std::set`): the meshes are, one for one and in this order, the partitions of the pairs listed by
`partitionKeys`, which lists for one shape after the other the shape's distinct face material ids
sorted ascending. -/
theorem meshes_by_shape_then_ascending_id {F : Type} [Inhabited F] [Min F] [Max F] :
    (∀ (env : Env F) (objFile : String) (model : Model F),
      loadOBJ env objFile = Except.ok model →
      List.Forall₂
        (fun mesh key => ∃ r, mesh = (buildPartition env
          (env.LoadObj objFile (modelDir objFile)).attributes
          (env.LoadObj objFile (modelDir objFile)).materials key.1 key.2 r).part.mesh)
        model.meshes (partitionKeys (env.LoadObj objFile (modelDir objFile)).shapes)) ∧
    partitionKeys [] = [] ∧
    (∀ (shape : shape_t) (rest : List shape_t),
      partitionKeys (shape :: rest)
        = ((shape.mesh.material_ids.toFinset.sort (· ≤ ·)).map (fun m => (shape, m)))
          ++ partitionKeys rest) := by
  refine ⟨loadOBJ_meshes, rfl, ?_⟩
  intro shape rest
  rw [← materialIDs_eq_sort]
  rfl

theorem meshes_by_shape_then_ascending_id_witness :
    loadOBJ sampleEnv "a/b.obj" = Except.ok sampleModel ∧
      List.Forall₂
        (fun mesh key => ∃ r, mesh = (buildPartition sampleEnv
          (sampleEnv.LoadObj "a/b.obj" (modelDir "a/b.obj")).attributes
          (sampleEnv.LoadObj "a/b.obj" (modelDir "a/b.obj")).materials key.1 key.2 r).part.mesh)
        sampleModel.meshes
        (partitionKeys (sampleEnv.LoadObj "a/b.obj" (modelDir "a/b.obj")).shapes) :=
  ⟨by rfl, meshes_by_shape_then_ascending_id.1 sampleEnv "a/b.obj" sampleModel (by rfl)⟩

/-! ## The bounding box -/

theorem exists_min_attained {F : Type} [LinearOrder F] (seen : List (vec3f F)) (v : vec3f F)
    (f : vec3f F → F) (m : F) (hle : ∀ u ∈ seen, m ≤ f u) (hat : ∃ u ∈ seen, f u = m) :
    (∀ u ∈ seen ++ [v], min m (f v) ≤ f u) ∧ ∃ u ∈ seen ++ [v], f u = min m (f v) := by
  constructor
  · intro u hu
    rcases List.mem_append.1 hu with hu | hu
    · exact le_trans (min_le_left _ _) (hle u hu)
    · rw [List.mem_singleton.1 hu]; exact min_le_right _ _
  · rcases min_choice m (f v) with h | h
    · obtain ⟨u, hu, huf⟩ := hat
      exact ⟨u, List.mem_append_left _ hu, by rw [h, huf]⟩
    · exact ⟨v, by simp, by rw [h]⟩

theorem exists_max_attained {F : Type} [LinearOrder F] (seen : List (vec3f F)) (v : vec3f F)
    (f : vec3f F → F) (m : F) (hle : ∀ u ∈ seen, f u ≤ m) (hat : ∃ u ∈ seen, f u = m) :
    (∀ u ∈ seen ++ [v], f u ≤ max m (f v)) ∧ ∃ u ∈ seen ++ [v], f u = max m (f v) := by
  constructor
  · intro u hu
    rcases List.mem_append.1 hu with hu | hu
    · exact le_trans (hle u hu) (le_max_left _ _)
    · rw [List.mem_singleton.1 hu]; exact le_max_right _ _
  · rcases max_choice m (f v) with h | h
    · obtain ⟨u, hu, huf⟩ := hat
      exact ⟨u, List.mem_append_left _ hu, by rw [h, huf]⟩
    · exact ⟨v, by simp, by rw [h]⟩

theorem BoxInv.extend {F : Type} [LinearOrder F] (b : box3f F) (seen : List (vec3f F))
    (v : vec3f F) (h : BoxInv b seen) : BoxInv (b.extend v) (seen ++ [v]) := by
  unfold BoxInv at h
  cases hb : b.corners with
  | none =>
    rw [hb] at h
    subst h
    simp only [box3f.extend, hb, BoxInv, IsExtremeBox, List.nil_append, List.mem_singleton]
    refine ⟨?_, ⟨v, rfl, rfl⟩, ⟨v, rfl, rfl⟩, ⟨v, rfl, rfl⟩, ⟨v, rfl, rfl⟩, ⟨v, rfl, rfl⟩,
      ⟨v, rfl, rfl⟩⟩
    rintro u rfl
    exact ⟨le_refl _, le_refl _, le_refl _, le_refl _, le_refl _, le_refl _⟩
  | some p =>
    obtain ⟨lo, hi⟩ := p
    rw [hb] at h
    obtain ⟨hall, hx, hy, hz, hX, hY, hZ⟩ := h
    obtain ⟨ax, bx⟩ := exists_min_attained seen v (·.x) lo.x (fun u hu => (hall u hu).1) hx
    obtain ⟨ay, by_⟩ := exists_min_attained seen v (·.y) lo.y (fun u hu => (hall u hu).2.1) hy
    obtain ⟨az, bz⟩ := exists_min_attained seen v (·.z) lo.z (fun u hu => (hall u hu).2.2.1) hz
    obtain ⟨aX, bX⟩ := exists_max_attained seen v (·.x) hi.x (fun u hu => (hall u hu).2.2.2.1) hX
    obtain ⟨aY, bY⟩ := exists_max_attained seen v (·.y) hi.y
      (fun u hu => (hall u hu).2.2.2.2.1) hY
    obtain ⟨aZ, bZ⟩ := exists_max_attained seen v (·.z) hi.z
      (fun u hu => (hall u hu).2.2.2.2.2) hZ
    simp only [box3f.extend, hb, BoxInv, IsExtremeBox, vec3f.min, vec3f.max]
    exact ⟨fun u hu => ⟨ax u hu, ay u hu, az u hu, aX u hu, aY u hu, aZ u hu⟩,
      bx, by_, bz, bX, bY, bZ⟩

theorem BoxInv.foldl {F : Type} [LinearOrder F] (vs : List (vec3f F)) (b : box3f F)
    (seen : List (vec3f F)) (h : BoxInv b seen) :
    BoxInv (vs.foldl box3f.extend b) (seen ++ vs) := by
  induction vs generalizing b seen with
  | nil => simpa using h
  | cons v vs ih =>
    have := ih (b.extend v) (seen ++ [v]) (BoxInv.extend b seen v h)
    simpa using this

theorem BoxInv.meshes {F : Type} [LinearOrder F] (meshes : List (TriangleMesh F))
    (b : box3f F) (seen : List (vec3f F)) (h : BoxInv b seen) :
    BoxInv (meshes.foldl (fun b mesh => mesh.vertex.foldl box3f.extend b) b)
      (seen ++ allVertices meshes) := by
  induction meshes generalizing b seen with
  | nil => simpa [allVertices] using h
  | cons mesh rest ih =>
    have := ih _ (seen ++ mesh.vertex) (BoxInv.foldl mesh.vertex b seen h)
    simpa [allVertices] using this

theorem computeBounds_spec {F : Type} [LinearOrder F] (meshes : List (TriangleMesh F)) :
    BoxInv (computeBounds meshes) (allVertices meshes) := by
  have := BoxInv.meshes meshes ⟨none⟩ [] rfl
  simpa [computeBounds] using this

theorem loadOBJ_bounds {F : Type} [Inhabited F] [Min F] [Max F] (env : Env F)
    (objFile : String) (model : Model F) (h : loadOBJ env objFile = Except.ok model) :
    model.bounds = computeBounds model.meshes := by
  unfold loadOBJ at h
  cases hr : (env.LoadObj objFile (modelDir objFile)).readOK
  · simp [hr] at h
  · simp only [hr, Bool.not_true, Bool.false_eq_true, if_false] at h
    injection h with h
    subst h
    rfl

theorem allVertices_eq_nil {F : Type} (meshes : List (TriangleMesh F))
    (h : allVertices meshes = []) : ∀ mesh ∈ meshes, mesh.vertex = [] := by
  induction meshes with
  | nil => intro mesh hmesh; simp at hmesh
  | cons m rest ih =>
    simp only [allVertices, List.append_eq_nil] at h
    intro mesh hmesh
    rcases List.mem_cons.1 hmesh with rfl | hmesh
    · exact h.1
    · exact ih h.2 mesh hmesh

theorem loadOBJ_mesh_nonempty {F : Type} [Inhabited F] [Min F] [Max F] (env : Env F)
    (objFile : String) (model : Model F) (h : loadOBJ env objFile = Except.ok model) :
    ∀ mesh ∈ model.meshes, mesh.vertex ≠ [] := by
  intro mesh hmesh
  obtain ⟨key, hkey, r, rfl⟩ := forall₂_exists_right (loadOBJ_meshes env objFile model h) mesh
    hmesh
  exact (buildPartition_nonempty env _ _ key.1 key.2 r ((mem_partitionKeys _ key).1 hkey).2).1

/-- Claim C12. For every successfully loaded model with at least one mesh, `model.bounds` is the
componentwise minimum and maximum over all vertices of all meshes: the box is not empty, it
contains every vertex, and each of its six coordinates is attained by a vertex (so no smaller
axis-aligned box contains them all). The scalars are any linearly ordered type. -/
theorem bounds_are_extrema {F : Type} [Inhabited F] [LinearOrder F] (env : Env F)
    (objFile : String) (model : Model F) (h : loadOBJ env objFile = Except.ok model)
    (hne : model.meshes ≠ []) :
    ∃ lo hi, model.bounds.corners = some (lo, hi) ∧
      IsExtremeBox lo hi (allVertices model.meshes) := by
  have hinv := computeBounds_spec model.meshes
  rw [← loadOBJ_bounds env objFile model h] at hinv
  unfold BoxInv at hinv
  cases hc : model.bounds.corners with
  | none =>
    rw [hc] at hinv
    exfalso
    obtain ⟨mesh, hmesh⟩ := List.exists_mem_of_ne_nil _ hne
    exact loadOBJ_mesh_nonempty env objFile model h mesh hmesh
      (allVertices_eq_nil model.meshes hinv mesh hmesh)
  | some p =>
    obtain ⟨lo, hi⟩ := p
    rw [hc] at hinv
    exact ⟨lo, hi, rfl, hinv⟩

theorem bounds_are_extrema_witness :
    loadOBJ triangleEnv "triangle.obj" = Except.ok triangleModel ∧
      triangleModel.meshes ≠ [] ∧
      ∃ lo hi, triangleModel.bounds.corners = some (lo, hi) ∧
        IsExtremeBox lo hi (allVertices triangleModel.meshes) :=
  ⟨by rfl, by decide,
    bounds_are_extrema triangleEnv "triangle.obj" triangleModel (by rfl) (by decide)⟩

/-! ## The texture cache -/

theorem Char.eq_of_toNat_eq (x y : Char) (h : x.toNat = y.toNat) : x = y := by
  apply Char.ext
  apply UInt32.ext
  exact h

theorem charsLt_irrefl (a : List Char) : charsLt a a = false := by
  induction a with
  | nil => rfl
  | cons x xs ih => simp [charsLt, ih]

theorem charsLt_equiv (a b : List Char) (h1 : charsLt a b = false) (h2 : charsLt b a = false) :
    a = b := by
  induction a generalizing b with
  | nil =>
    cases b with
    | nil => rfl
    | cons y ys => simp [charsLt] at h1
  | cons x xs ih =>
    cases b with
    | nil => simp [charsLt] at h2
    | cons y ys =>
      simp only [charsLt] at h1 h2
      have hxy : x.toNat = y.toNat := by
        by_contra hne
        rcases Nat.lt_or_gt_of_ne hne with hlt | hgt
        · simp [hlt] at h1
        · have hgt' : y.toNat < x.toNat := hgt
          simp [hgt'] at h2
      have hx := Char.eq_of_toNat_eq x y hxy
      subst hx
      simp only [lt_self_iff_false, if_false] at h1 h2
      rw [ih ys h1 h2]

theorem stringLt_irrefl (a : String) : stringLt a a = false :=
  charsLt_irrefl a.data

theorem stringLt_equiv_iff (a b : String) :
    ((!(stringLt a b) && !(stringLt b a)) = true) ↔ a = b := by
  constructor
  · intro h
    simp only [Bool.and_eq_true, Bool.not_eq_true'] at h
    have := charsLt_equiv a.data b.data h.1 h.2
    exact String.ext this
  · rintro rfl
    simp [stringLt, charsLt_irrefl]

theorem TextureMap.cached_find_nil (k : String) : TextureMap.find [] k = none := rfl

theorem TextureMap.cached_find_cons (e : String × Int) (rest : TextureMap) (k : String) :
    TextureMap.find (e :: rest) k = if e.1 = k then some e.2 else TextureMap.find rest k := by
  by_cases h : e.1 = k
  · subst h
    simp [TextureMap.find, stringLt_irrefl]
  · have h2 : ¬ ((!(stringLt e.1 k) && !(stringLt k e.1)) = true) :=
      fun hh => h ((stringLt_equiv_iff e.1 k).1 hh)
    simp only [TextureMap.find, h, if_false]
    rw [if_neg h2]

theorem TextureMap.cached_find_assign_same (m : TextureMap) (k : String) (v : Int) :
    TextureMap.find (TextureMap.assign m k v) k = some v := by
  induction m with
  | nil => simp [TextureMap.assign, TextureMap.cached_find_cons]
  | cons e rest ih =>
    simp only [TextureMap.assign]
    by_cases h1 : stringLt k e.1 = true
    · simp [h1, TextureMap.cached_find_cons]
    · by_cases h2 : stringLt e.1 k = true
      · have hne : e.1 ≠ k := by
          intro he
          rw [he] at h2
          simp [stringLt, charsLt_irrefl] at h2
        simp [h1, h2, TextureMap.cached_find_cons, hne, ih]
      · have he : e.1 = k := (stringLt_equiv_iff e.1 k).1 (by simp [h1, h2])
        simp [h1, h2, TextureMap.cached_find_cons, he, stringLt_irrefl]

theorem TextureMap.cached_find_assign_other (m : TextureMap) (k k' : String) (v : Int) (hk : k' ≠ k) :
    TextureMap.find (TextureMap.assign m k v) k' = TextureMap.find m k' := by
  induction m with
  | nil => simp [TextureMap.assign, TextureMap.cached_find_cons, TextureMap.cached_find_nil, hk.symm]
  | cons e rest ih =>
    simp only [TextureMap.assign]
    by_cases h1 : stringLt k e.1 = true
    · simp [h1, TextureMap.cached_find_cons, hk.symm]
    · by_cases h2 : stringLt e.1 k = true
      · simp [h1, h2, TextureMap.cached_find_cons, ih]
      · have he : e.1 = k := (stringLt_equiv_iff e.1 k).1 (by simp [h1, h2])
        simp [h1, h2, TextureMap.cached_find_cons, he, hk.symm, stringLt_irrefl]

/-- After any call of `loadTexture` with a non-empty path, the cache holds the returned id for
that path. -/
theorem loadTexture_cached {F : Type} (stbi_load : String → Option Image) (model : Model F)
    (knownTextures : TextureMap) (inFileName modelPath : String) (hne : inFileName ≠ "") :
    (loadTexture stbi_load model knownTextures inFileName modelPath).knownTextures.find inFileName
      = some (loadTexture stbi_load model knownTextures inFileName modelPath).textureID := by
  unfold loadTexture
  rw [if_neg hne]
  cases hf : knownTextures.find inFileName with
  | some id => exact hf
  | none =>
    simp only []
    cases hd : stbi_load (modelPath ++ "/" ++ fixBackslashes inFileName) with
    | some image => simp only [hd, TextureMap.cached_find_assign_same]
    | none => simp only [hd, TextureMap.cached_find_assign_same]

theorem loadTexture_hit {F : Type} (stbi_load : String → Option Image) (model : Model F)
    (knownTextures : TextureMap) (inFileName modelPath : String) (id : Int)
    (hne : inFileName ≠ "") (hf : knownTextures.find inFileName = some id) :
    loadTexture stbi_load model knownTextures inFileName modelPath
      = { textureID := id, model := model, knownTextures := knownTextures, decoded := [] } := by
  unfold loadTexture
  rw [if_neg hne, hf]

/-- Claim C13. For every non-empty raw path `p` and any two base directories `d1` and `d2`,
calling `loadTexture(p, d1)` and then `loadTexture(p, d2)` against the same model and
`knownTextures` map returns the same handle both times, and the second call makes no decode
attempt and leaves the model (so `model.textures`) and the cache unchanged, whether the first
decode succeeded or failed: after the first call the cache holds the returned handle for `p`, a
texture id or the failure value `-1` alike. -/
theorem texture_cache_hit {F : Type} (stbi_load : String → Option Image) (model : Model F)
    (knownTextures : TextureMap) (p d1 d2 : String) (hne : p ≠ "") :
    (loadTexture stbi_load (loadTexture stbi_load model knownTextures p d1).model
        (loadTexture stbi_load model knownTextures p d1).knownTextures p d2).textureID
      = (loadTexture stbi_load model knownTextures p d1).textureID ∧
    (loadTexture stbi_load (loadTexture stbi_load model knownTextures p d1).model
        (loadTexture stbi_load model knownTextures p d1).knownTextures p d2).decoded = [] ∧
    (loadTexture stbi_load (loadTexture stbi_load model knownTextures p d1).model
        (loadTexture stbi_load model knownTextures p d1).knownTextures p d2).model
      = (loadTexture stbi_load model knownTextures p d1).model ∧
    (loadTexture stbi_load (loadTexture stbi_load model knownTextures p d1).model
        (loadTexture stbi_load model knownTextures p d1).knownTextures p d2).knownTextures
      = (loadTexture stbi_load model knownTextures p d1).knownTextures ∧
    (loadTexture stbi_load model knownTextures p d1).knownTextures.find p
      = some (loadTexture stbi_load model knownTextures p d1).textureID := by
  rw [loadTexture_hit stbi_load _ _ p d2 _ hne
    (loadTexture_cached stbi_load model knownTextures p d1 hne)]
  exact ⟨rfl, rfl, rfl, rfl, loadTexture_cached stbi_load model knownTextures p d1 hne⟩

theorem texture_cache_hit_witness :
    "a.png" ≠ "" ∧
      (loadTexture sampleDecoder (loadTexture sampleDecoder emptyModel [] "a.png" "tex").model
          (loadTexture sampleDecoder emptyModel [] "a.png" "tex").knownTextures "a.png"
          "elsewhere").textureID
        = (loadTexture sampleDecoder emptyModel [] "a.png" "tex").textureID ∧
      (loadTexture sampleDecoder (loadTexture sampleDecoder emptyModel [] "a.png" "tex").model
          (loadTexture sampleDecoder emptyModel [] "a.png" "tex").knownTextures "a.png"
          "elsewhere").decoded = [] :=
  ⟨by decide,
    (texture_cache_hit sampleDecoder emptyModel [] "a.png" "tex" "elsewhere" (by decide)).1,
    (texture_cache_hit sampleDecoder emptyModel [] "a.png" "tex" "elsewhere" (by decide)).2.1⟩

/-- Claim C14. For every model, cache and base directory, `loadTexture` with the empty path
returns the failure sentinel `-1`, makes no decode attempt, and leaves the model (so
`model.textures`) and the `knownTextures` cache unchanged; the empty path is not inserted into the
cache. -/
theorem empty_path_no_texture {F : Type} (stbi_load : String → Option Image) (model : Model F)
    (knownTextures : TextureMap) (modelPath : String) :
    (loadTexture stbi_load model knownTextures "" modelPath).textureID = -1 ∧
    (loadTexture stbi_load model knownTextures "" modelPath).decoded = [] ∧
    (loadTexture stbi_load model knownTextures "" modelPath).model = model ∧
    (loadTexture stbi_load model knownTextures "" modelPath).knownTextures = knownTextures :=
  ⟨rfl, rfl, rfl, rfl⟩

/-! ## Mirroring the rows of a texture -/

theorem forLoop_succ {σ : Type} (n : Nat) (body : Nat → σ → σ) (s : σ) :
    forLoop (n + 1) body s = body n (forLoop n body s) := by
  simp [forLoop, List.range_succ]

theorem forLoop_congr {σ : Type} (n : Nat) (f g : Nat → σ → σ) (s : σ)
    (h : ∀ i, i < n → ∀ acc, f i acc = g i acc) : forLoop n f s = forLoop n g s := by
  induction n with
  | zero => rfl
  | succ n ih =>
    rw [forLoop_succ, forLoop_succ, ih (fun i hi acc => h i (by omega) acc), h n (by omega)]

theorem swapAt_length (buf : List Nat) (i j : Nat) : (swapAt buf i j).length = buf.length := by
  simp [swapAt]

theorem swapAt_getElem? (buf : List Nat) (i j k : Nat) (hi : i < buf.length)
    (hj : j < buf.length) :
    (swapAt buf i j)[k]? = if k = j then buf[i]? else if k = i then buf[j]? else buf[k]? := by
  simp only [swapAt, List.getElem?_set, List.length_set, List.getD_eq_getElem?_getD,
    List.getElem?_eq_getElem hi, List.getElem?_eq_getElem hj, Option.getD_some]
  by_cases h1 : k = j
  · subst h1
    simp [hj]
  · by_cases h2 : k = i
    · subst h2
      simp [h1, hi, Ne.symm h1]
    · simp [h1, h2, Ne.symm h1, Ne.symm h2]

theorem cell_lt {w h r c : Nat} (hr : r < h) (hc : c < w) : r * w + c < w * h := by
  have h1 : r * w + c < (r + 1) * w := by rw [Nat.add_mul]; omega
  have h2 : (r + 1) * w ≤ h * w := Nat.mul_le_mul_right w hr
  rw [Nat.mul_comm w h]
  omega

theorem cell_inj {w r c r' c' : Nat} (hc : c < w) (hc' : c' < w)
    (h : r * w + c = r' * w + c') : r = r' ∧ c = c' := by
  have hw : 0 < w := by omega
  have hd : (c + r * w) / w = (c' + r' * w) / w := by rw [Nat.add_comm c, Nat.add_comm c', h]
  rw [Nat.add_mul_div_right _ _ hw, Nat.add_mul_div_right _ _ hw, Nat.div_eq_of_lt hc,
    Nat.div_eq_of_lt hc'] at hd
  have hr : r = r' := by omega
  subst hr
  exact ⟨rfl, by omega⟩

/-- The inner loop after `n` columns: rows `a` and `b` are exchanged in the columns below `n`. -/
theorem swapRow_spec (w h a b : Nat) (ha : a < h) (hb : b < h) (hab : a ≠ b) (n : Nat)
    (hn : n ≤ w) (buf : List Nat) (hlen : buf.length = w * h) :
    (forLoop n (fun x acc => swapAt acc (a * w + x) (b * w + x)) buf).length = w * h ∧
    ∀ r c, r < h → c < w →
      (forLoop n (fun x acc => swapAt acc (a * w + x) (b * w + x)) buf)[r * w + c]?
        = buf[(if c < n then (if r = a then b else if r = b then a else r) else r) * w + c]? := by
  induction n with
  | zero =>
    refine ⟨hlen, ?_⟩
    intro r c _ _
    simp [forLoop]
  | succ n ih =>
    obtain ⟨hl, hget⟩ := ih (by omega)
    have hnw : n < w := by omega
    have ia : a * w + n < (forLoop n (fun x acc => swapAt acc (a * w + x) (b * w + x))
        buf).length := by rw [hl]; exact cell_lt ha hnw
    have ib : b * w + n < (forLoop n (fun x acc => swapAt acc (a * w + x) (b * w + x))
        buf).length := by rw [hl]; exact cell_lt hb hnw
    rw [forLoop_succ]
    refine ⟨by rw [swapAt_length, hl], ?_⟩
    intro r c hr hc
    rw [swapAt_getElem? _ _ _ _ ia ib]
    by_cases h1 : r * w + c = b * w + n
    · obtain ⟨rfl, rfl⟩ := cell_inj hc hnw h1
      rw [if_pos rfl, hget a c ha hc]
      simp [Ne.symm hab]
    · rw [if_neg h1]
      by_cases h2 : r * w + c = a * w + n
      · obtain ⟨rfl, rfl⟩ := cell_inj hc hnw h2
        rw [if_pos rfl, hget b c hb hc]
        simp
      · rw [if_neg h2, hget r c hr hc]
        by_cases hcn : c = n
        · subst hcn
          have hra : r ≠ a := fun e => h2 (by rw [e])
          have hrb : r ≠ b := fun e => h1 (by rw [e])
          simp [hra, hrb]
        · by_cases hlt : c < n
          · rw [if_pos hlt, if_pos (by omega : c < n + 1)]
          · rw [if_neg hlt, if_neg (by omega : ¬ c < n + 1)]

/-- The outer loop after `m` rows: the first `m` and the last `m` rows are reversed. -/
theorem mirrorRows_loop_spec (w h m : Nat) (hm : m ≤ h / 2) (buf : List Nat)
    (hlen : buf.length = w * h) :
    (forLoop m (fun y acc =>
        forLoop w (fun x acc2 => swapAt acc2 (y * w + x) ((h - 1 - y) * w + x)) acc) buf).length
      = w * h ∧
    ∀ r c, r < h → c < w →
      (forLoop m (fun y acc =>
          forLoop w (fun x acc2 => swapAt acc2 (y * w + x) ((h - 1 - y) * w + x)) acc)
        buf)[r * w + c]?
        = buf[(if r < m ∨ h - m ≤ r then h - 1 - r else r) * w + c]? := by
  induction m with
  | zero =>
    refine ⟨hlen, ?_⟩
    intro r c hr _
    have : ¬ (r < 0 ∨ h - 0 ≤ r) := by omega
    rw [if_neg this]
    rfl
  | succ m ih =>
    obtain ⟨hl, hget⟩ := ih (by omega)
    rw [forLoop_succ]
    obtain ⟨hl2, hget2⟩ := swapRow_spec w h m (h - 1 - m) (by omega) (by omega) (by omega) w
      (le_refl w) _ hl
    refine ⟨hl2, ?_⟩
    intro r c hr hc
    rw [hget2 r c hr hc, if_pos hc]
    by_cases h1 : r = m
    · subst h1
      rw [if_pos rfl, hget (h - 1 - r) c (by omega) hc]
      have e1 : ¬ (h - 1 - r < r ∨ h - r ≤ h - 1 - r) := by omega
      have e2 : r < r + 1 ∨ h - (r + 1) ≤ r := by omega
      rw [if_neg e1, if_pos e2]
    · rw [if_neg h1]
      by_cases h2 : r = h - 1 - m
      · subst h2
        rw [if_pos rfl, hget m c (by omega) hc]
        have e1 : ¬ (m < m ∨ h - m ≤ m) := by omega
        have e2 : h - 1 - m < m + 1 ∨ h - (m + 1) ≤ h - 1 - m := by omega
        have e3 : h - 1 - (h - 1 - m) = m := by omega
        rw [if_neg e1, if_pos e2, e3]
      · rw [if_neg h2, hget r c hr hc]
        by_cases hlt : r < m ∨ h - m ≤ r
        · rw [if_pos hlt, if_pos (by omega : r < m + 1 ∨ h - (m + 1) ≤ r)]
        · rw [if_neg hlt, if_neg (by omega : ¬ (r < m + 1 ∨ h - (m + 1) ≤ r))]

/-- The mirror loops reverse the order of the rows. -/
theorem mirrorRowsNat_spec (w h : Nat) (buf : List Nat) (hlen : buf.length = w * h) :
    (mirrorRowsNat w h buf).length = w * h ∧
    ∀ x y, x < w → y < h → (mirrorRowsNat w h buf)[y * w + x]? = buf[(h - 1 - y) * w + x]? := by
  obtain ⟨hl, hget⟩ := mirrorRows_loop_spec w h (h / 2) (le_refl _) buf hlen
  refine ⟨hl, ?_⟩
  intro x y hx hy
  unfold mirrorRowsNat
  rw [hget y x hy hx]
  by_cases hc : y < h / 2 ∨ h - h / 2 ≤ y
  · rw [if_pos hc]
  · rw [if_neg hc]
    have : h - 1 - y = y := by omega
    rw [this]

/-- On a picture whose width and height are not negative the source's index arithmetic in
`int` agrees with the arithmetic in `Nat`. -/
theorem mirrorRows_eq_nat (w h : Nat) (buf : List Nat) :
    mirrorRows ⟨(w : Int), (h : Int)⟩ buf = mirrorRowsNat w h buf := by
  unfold mirrorRows mirrorRowsNat
  have hdiv : (Int.tdiv (h : Int) 2).toNat = h / 2 := by
    rw [Int.tdiv_eq_ediv (by omega) (by omega)]
    omega
  simp only [hdiv, Int.toNat_ofNat]
  apply forLoop_congr
  intro y hy acc
  apply forLoop_congr
  intro x _ acc2
  have e1 : ((y : Int) * (w : Int) + (x : Int)).toNat = y * w + x := by
    have : ((y : Int) * (w : Int) + (x : Int)) = ((y * w + x : Nat) : Int) := by push_cast; ring
    rw [this, Int.toNat_ofNat]
  have e2 : (((h : Int) - 1 - (y : Int)) * (w : Int) + (x : Int)).toNat = (h - 1 - y) * w + x := by
    have hsub : ((h : Int) - 1 - (y : Int)) = ((h - 1 - y : Nat) : Int) := by omega
    have : (((h - 1 - y : Nat) : Int) * (w : Int) + (x : Int))
        = (((h - 1 - y) * w + x : Nat) : Int) := by push_cast; ring
    rw [hsub, this, Int.toNat_ofNat]
  rw [e1, e2]

/-- Claim C15. When `loadTexture` decodes an image of width `w` and height `h` (a path that is not
empty and not cached, a buffer of `w * h` pixels), the texture appended to the model has
resolution `(w, h)` and `w * h` pixels, and its pixel at column `x`, row `y` is the decoder's
pixel at column `x`, row `h - 1 - y`, for all `x < w` and `y < h`: the rows are reversed once (for
odd `h` the middle row stays, for a 1x2 image the two rows are exchanged). -/
theorem texture_rows_mirrored {F : Type} (stbi_load : String → Option Image) (model : Model F)
    (knownTextures : TextureMap) (inFileName modelPath : String) (image : Image) (w h : Nat)
    (hne : inFileName ≠ "") (hf : knownTextures.find inFileName = none)
    (hd : stbi_load (modelPath ++ "/" ++ fixBackslashes inFileName) = some image)
    (hw : image.width = (w : Int)) (hh : image.height = (h : Int))
    (hlen : image.pixels.length = w * h) :
    ∃ texture : Texture,
      (loadTexture stbi_load model knownTextures inFileName modelPath).model.textures
        = model.textures ++ [texture] ∧
      (loadTexture stbi_load model knownTextures inFileName modelPath).textureID
        = (model.textures.length : Int) ∧
      texture.resolution = ⟨(w : Int), (h : Int)⟩ ∧
      texture.pixel.length = w * h ∧
      ∀ x y, x < w → y < h →
        texture.pixel[y * w + x]? = image.pixels[(h - 1 - y) * w + x]? := by
  obtain ⟨hl, hget⟩ := mirrorRowsNat_spec w h image.pixels hlen
  refine ⟨{ resolution := ⟨(w : Int), (h : Int)⟩, pixel := mirrorRowsNat w h image.pixels },
    ?_, ?_, rfl, hl, hget⟩
  · unfold loadTexture
    rw [if_neg hne, hf]
    simp only [hd, hw, hh, mirrorRows_eq_nat]
  · unfold loadTexture
    rw [if_neg hne, hf]
    simp only [hd]

theorem texture_rows_mirrored_witness :
    "a.png" ≠ "" ∧ TextureMap.find [] "a.png" = none ∧
      sampleDecoder ("tex" ++ "/" ++ fixBackslashes "a.png") = some ⟨1, 2, [7, 9]⟩ ∧
      (loadTexture sampleDecoder emptyModel [] "a.png" "tex").model.textures
        = [{ pixel := [9, 7], resolution := ⟨1, 2⟩ }] ∧
      ∃ texture : Texture,
        (loadTexture sampleDecoder emptyModel [] "a.png" "tex").model.textures
          = emptyModel.textures ++ [texture] ∧
        (loadTexture sampleDecoder emptyModel [] "a.png" "tex").textureID
          = (emptyModel.textures.length : Int) ∧
        texture.resolution = ⟨((1 : Nat) : Int), ((2 : Nat) : Int)⟩ ∧
        texture.pixel.length = 1 * 2 ∧
        ∀ x y, x < 1 → y < 2 →
          texture.pixel[y * 1 + x]? = (⟨1, 2, [7, 9]⟩ : Image).pixels[(2 - 1 - y) * 1 + x]? :=
  ⟨by decide, by decide, by decide, by decide,
    texture_rows_mirrored sampleDecoder emptyModel [] "a.png" "tex" ⟨1, 2, [7, 9]⟩ 1 2
      (by decide) (by decide) (by decide) (by decide) (by decide) (by decide)⟩

/-! ## The base directory and the error message -/

theorem rfind_eq_none (c : Char) (s : List Char) : rfind c s = none ↔ c ∉ s := by
  induction s with
  | nil => simp [rfind]
  | cons x xs ih =>
    simp only [rfind, List.mem_cons, not_or]
    cases h : rfind c xs with
    | some p =>
      have : ¬ (c ∉ xs) := fun hc => by rw [ih.2 hc] at h; exact absurd h (by simp)
      simp [this]
    | none =>
      have hc : c ∉ xs := ih.1 h
      by_cases hx : x = c
      · simp [hx]
      · simp [hx, hc, Ne.symm hx]

theorem rfind_last (c : Char) (dir file : List Char) (hfile : c ∉ file) :
    rfind c (dir ++ c :: file) = some dir.length := by
  induction dir with
  | nil => simp [rfind, (rfind_eq_none c file).2 hfile]
  | cons x xs ih => simp [rfind, ih]

/-- Claim C16, counterexample. For the scene path `a/b.obj` the derived base directory is `a/`,
which includes the final separator, not `a`. -/
theorem modelDir_keeps_separator :
    modelDir "a/b.obj" = "a/" ∧ modelDir "a/b.obj" ≠ "a" := by
  refine ⟨by decide, by decide⟩

/-- Claim C16, amended. For every scene path (shorter than `2^64` characters, as every
`std::string` is) the base directory that `loadOBJ` derives and passes to the parser is the part
of the path up to and including its final `/`, and the empty string when the path contains no `/`.
-/
theorem modelDir_up_to_last_separator (objFile : String) (hlen : objFile.length < 2 ^ 64) :
    ('/' ∉ objFile.data → modelDir objFile = "") ∧
    (∀ dir file : List Char, objFile.data = dir ++ '/' :: file → '/' ∉ file →
      (modelDir objFile).data = dir ++ ['/']) := by
  refine ⟨?_, ?_⟩
  · intro h
    have : rfind '/' objFile.data = none := (rfind_eq_none _ _).2 h
    simp only [modelDir, rfindPlusOne, this]
    rfl
  · intro dir file hsplit hfile
    have hr : rfind '/' objFile.data = some dir.length := by
      rw [hsplit]; exact rfind_last '/' dir file hfile
    have hl : dir.length + 1 < 2 ^ 64 := by
      have : objFile.length = objFile.data.length := rfl
      rw [this, hsplit] at hlen
      simp only [List.length_append, List.length_cons] at hlen
      omega
    simp only [modelDir, rfindPlusOne, hr, Nat.mod_eq_of_lt hl]
    rw [hsplit]
    have hcat : dir ++ '/' :: file = (dir ++ ['/']) ++ file := by simp
    rw [hcat]
    exact List.take_left' (by simp)

theorem modelDir_up_to_last_separator_witness :
    "models/sponza/sponza.obj".length < 2 ^ 64 ∧
      "models/sponza/sponza.obj".data = "models/sponza".data ++ '/' :: "sponza.obj".data ∧
      '/' ∉ "sponza.obj".data ∧
      (modelDir "models/sponza/sponza.obj").data = "models/sponza".data ++ ['/'] :=
  ⟨by decide, by decide, by decide,
    (modelDir_up_to_last_separator "models/sponza/sponza.obj" (by decide)).2
      "models/sponza".data "sponza.obj".data (by decide) (by decide)⟩

/-- Claim C17. Whenever the parser reports failure for the scene path, `loadOBJ` fails with an
error and returns no model, and the error message contains the scene path and the parser's
diagnostic text (in both versions of the source: the message of `example07` also names the
material directory). -/
theorem parser_failure_is_fatal {F : Type} [Inhabited F] [Min F] [Max F] (env : Env F)
    (objFile : String) (hfail : (env.LoadObj objFile (modelDir objFile)).readOK = false) :
    (∃ msg, loadOBJ env objFile = Except.error msg ∧
      objFile.data <:+: msg.data ∧
      (env.LoadObj objFile (modelDir objFile)).err.data <:+: msg.data) ∧
    (∀ model, loadOBJ env objFile ≠ Except.ok model) ∧
    (objFile.data <:+: (readErrorMessage07 objFile (modelDir objFile)
        (env.LoadObj objFile (modelDir objFile)).err).data ∧
      (env.LoadObj objFile (modelDir objFile)).err.data <:+:
        (readErrorMessage07 objFile (modelDir objFile)
          (env.LoadObj objFile (modelDir objFile)).err).data) := by
  refine ⟨⟨"Could not read OBJ model from " ++ objFile ++ " : "
      ++ (env.LoadObj objFile (modelDir objFile)).err, by simp [loadOBJ, hfail], ?_, ?_⟩,
    ?_, ?_, ?_⟩
  · exact ⟨"Could not read OBJ model from ".data,
      (" : " ++ (env.LoadObj objFile (modelDir objFile)).err).data, by simp⟩
  · exact ⟨("Could not read OBJ model from " ++ objFile ++ " : ").data, [], by simp⟩
  · intro model h
    simp [loadOBJ, hfail] at h
  · exact ⟨"Could not read OBJ model from ".data,
      (":" ++ modelDir objFile ++ " : " ++ (env.LoadObj objFile (modelDir objFile)).err).data,
      by simp [readErrorMessage07]⟩
  · exact ⟨("Could not read OBJ model from " ++ objFile ++ ":" ++ modelDir objFile ++ " : ").data,
      [], by simp [readErrorMessage07]⟩

theorem parser_failure_is_fatal_witness :
    (sampleEnv.LoadObj "nowhere.obj" (modelDir "nowhere.obj")).readOK = false ∧
      loadOBJ sampleEnv "nowhere.obj"
        = Except.error "Could not read OBJ model from nowhere.obj : cannot open file" ∧
      ∀ model, loadOBJ sampleEnv "nowhere.obj" ≠ Except.ok model :=
  ⟨by decide, by rfl, (parser_failure_is_fatal sampleEnv "nowhere.obj" (by decide)).2.1⟩

/-! ## Textures are not loaded by `loadOBJ` -/

theorem faceLoop_textureID {F : Type} [Inhabited F] (env : Env F) (attributes : attrib_t F)
    (materials : RawVec (material_t F)) (shape : shape_t) (materialID : Int)
    (ids : List Int) (faceID : Nat) (st : FaceState F) (hwf : Partition.WF attributes st.part) :
    (faceLoop env attributes materials shape materialID faceID ids st).part.mesh.diffuseTextureID
      = st.part.mesh.diffuseTextureID := by
  induction ids generalizing faceID st with
  | nil => rfl
  | cons m ids ih =>
    by_cases hm : m = materialID
    · subst hm
      obtain ⟨w1, _, _, _⟩ := addFace_spec env attributes materials shape m faceID st hwf
      simp only [faceLoop, ne_eq, not_true_eq_false, if_false]
      rw [ih (faceID + 1) _ w1]
      obtain ⟨_, e, _⟩ := addCorners_spec env.argOrder attributes st.part
        (shape.mesh.indices.read (3 * (faceID : Int) + 0))
        (shape.mesh.indices.read (3 * (faceID : Int) + 1))
        (shape.mesh.indices.read (3 * (faceID : Int) + 2)) hwf
      by_cases hne : m = -1
      · simp only [addFace, hne, ne_eq, not_true_eq_false, if_false]
        exact e.textureID
      · simp only [addFace, hne, ne_eq, not_false_eq_true, if_true]
        exact e.textureID
    · simp only [faceLoop, ne_eq, hm, not_false_eq_true, if_true]
      exact ih (faceID + 1) st hwf

/-- Claim C18, counterexample. Material 2 of the sample scene names the diffuse texture `t.png`,
yet the model returned by `loadOBJ` has no texture and the mesh built for material 2 keeps the "no
texture" handle `-1`. -/
theorem texture_not_loaded :
    (sampleMaterials.read 2).diffuse_texname = "t.png" ∧
    loadOBJ sampleEnv "a/b.obj" = Except.ok sampleModel ∧
    sampleModel.textures = [] ∧
    sampleMesh2 = (buildPartition sampleEnv sampleAttributes sampleMaterials sampleShape 2
      0).part.mesh ∧
    sampleMesh2 ∈ sampleModel.meshes ∧
    sampleMesh2.diffuseTextureID = -1 := by
  refine ⟨by decide, by rfl, by rfl, by rfl, by decide, by rfl⟩

/-- Claim C18, amended. The scene assembler never invokes the texture loader (the call is
commented out in `loadOBJ`): every returned model has no textures and every mesh keeps the "no
texture" handle `-1`, whatever diffuse texture path its material names; so no mesh, with an empty
texture path or not, triggers a decode. -/
theorem loadOBJ_loads_no_texture {F : Type} [Inhabited F] [Min F] [Max F] (env : Env F)
    (objFile : String) (model : Model F) (h : loadOBJ env objFile = Except.ok model) :
    model.textures = [] ∧ ∀ mesh ∈ model.meshes, mesh.diffuseTextureID = -1 := by
  constructor
  · unfold loadOBJ at h
    cases hr : (env.LoadObj objFile (modelDir objFile)).readOK
    · simp [hr] at h
    · simp only [hr, Bool.not_true, Bool.false_eq_true, if_false] at h
      injection h with h
      subst h
      rfl
  · intro mesh hmesh
    obtain ⟨key, _, r, rfl⟩ := forall₂_exists_right (loadOBJ_meshes env objFile model h) mesh hmesh
    exact faceLoop_textureID env _ _ key.1 key.2 key.1.mesh.material_ids 0
      { part := Partition.fresh, randCalls := r } (Partition.fresh_WF _)

theorem loadOBJ_loads_no_texture_witness :
    loadOBJ sampleEnv "a/b.obj" = Except.ok sampleModel ∧
      (sampleModel.textures = [] ∧ ∀ mesh ∈ sampleModel.meshes, mesh.diffuseTextureID = -1) :=
  ⟨by rfl, loadOBJ_loads_no_texture sampleEnv "a/b.obj" sampleModel (by rfl)⟩

/-! ## Back-fill of attribute arrays -/

/-- The attribute-array update of `addVertex` when the index is not negative: an empty array is
filled up to the new vertex count, an array of full length gets one entry. -/
theorem attr_backfill {α : Type} [Inhabited α] (l : List α) (k : Nat) (a : α) :
    (l = [] →
      (if (pushUntil l (k + 1) a).length > 0 then resize (pushUntil l (k + 1) a) (k + 1)
        else pushUntil l (k + 1) a) = List.replicate (k + 1) a) ∧
    (l.length = k →
      (if (pushUntil l (k + 1) a).length > 0 then resize (pushUntil l (k + 1) a) (k + 1)
        else pushUntil l (k + 1) a) = l ++ [a]) := by
  constructor
  · rintro rfl
    simp [pushUntil_eq, resize]
  · intro hk
    have h1 : k + 1 - l.length = 1 := by omega
    simp only [pushUntil_eq, h1, List.replicate_one, List.length_append, List.length_singleton,
      resize]
    rw [if_pos (by omega), List.take_of_length_le (by simp; omega)]
    have h2 : k + 1 - (l.length + 1) = 0 := by omega
    simp [h2]

/-- Claim C19. When `addVertex` inserts a previously unknown identity with `normal_index >= 0`
into a mesh with `k` vertices, the normal array afterwards is `k + 1` copies of the normal read at
`normal_index` if it was empty before, and the old array followed by that one normal if it had `k`
entries before; the normal read is `normals[normal_index]` when the index is within the normal
array. The same holds for `texcoord_index` and the texcoord array. -/
theorem backfill_of_missing_attributes {F : Type} [Inhabited F] (st : Partition F)
    (attributes : attrib_t F) (idx : index_t) (hf : st.knownVertices.find idx = none) :
    (0 ≤ idx.normal_index →
      (st.mesh.normal = [] →
        (addVertex st attributes idx).2.mesh.normal
          = List.replicate (st.mesh.vertex.length + 1)
              (vec3f_at attributes.normals idx.normal_index)) ∧
      (st.mesh.normal.length = st.mesh.vertex.length →
        (addVertex st attributes idx).2.mesh.normal
          = st.mesh.normal ++ [vec3f_at attributes.normals idx.normal_index]) ∧
      (∀ a, vec3f_checked attributes.normals idx.normal_index = some a →
        vec3f_at attributes.normals idx.normal_index = a)) ∧
    (0 ≤ idx.texcoord_index →
      (st.mesh.texcoord = [] →
        (addVertex st attributes idx).2.mesh.texcoord
          = List.replicate (st.mesh.vertex.length + 1)
              (vec2f_at attributes.texcoords idx.texcoord_index)) ∧
      (st.mesh.texcoord.length = st.mesh.vertex.length →
        (addVertex st attributes idx).2.mesh.texcoord
          = st.mesh.texcoord ++ [vec2f_at attributes.texcoords idx.texcoord_index]) ∧
      (∀ a, vec2f_checked attributes.texcoords idx.texcoord_index = some a →
        vec2f_at attributes.texcoords idx.texcoord_index = a)) := by
  constructor
  · intro hn
    have hb := attr_backfill st.mesh.normal st.mesh.vertex.length
      (vec3f_at attributes.normals idx.normal_index)
    refine ⟨fun h => ?_, fun h => ?_, fun a ha => vec3f_at_of_checked _ _ a ha⟩
    · simp only [addVertex, hf, ge_iff_le, hn, if_true, List.length_append,
        List.length_singleton]
      exact hb.1 h
    · simp only [addVertex, hf, ge_iff_le, hn, if_true, List.length_append,
        List.length_singleton]
      exact hb.2 h
  · intro ht
    have hb := attr_backfill st.mesh.texcoord st.mesh.vertex.length
      (vec2f_at attributes.texcoords idx.texcoord_index)
    refine ⟨fun h => ?_, fun h => ?_, fun a ha => vec2f_at_of_checked _ _ a ha⟩
    · simp only [addVertex, hf, ge_iff_le, ht, if_true, List.length_append,
        List.length_singleton]
      exact hb.1 h
    · simp only [addVertex, hf, ge_iff_le, ht, if_true, List.length_append,
        List.length_singleton]
      exact hb.2 h

theorem backfill_of_missing_attributes_witness :
    (addVertices sampleAttributes [⟨0, -1, -1⟩, ⟨1, -1, -1⟩]).2.knownVertices.find ⟨2, 0, 0⟩
        = none ∧
      (0 ≤ (⟨2, 0, 0⟩ : index_t).normal_index) ∧
      (addVertices sampleAttributes [⟨0, -1, -1⟩, ⟨1, -1, -1⟩]).2.mesh.normal = [] ∧
      (addVertex (addVertices sampleAttributes [⟨0, -1, -1⟩, ⟨1, -1, -1⟩]).2 sampleAttributes
          ⟨2, 0, 0⟩).2.mesh.normal
        = List.replicate
            ((addVertices sampleAttributes [⟨0, -1, -1⟩, ⟨1, -1, -1⟩]).2.mesh.vertex.length + 1)
            (vec3f_at sampleAttributes.normals (⟨2, 0, 0⟩ : index_t).normal_index) :=
  ⟨by decide, by decide, by decide,
    ((backfill_of_missing_attributes
      (addVertices sampleAttributes [⟨0, -1, -1⟩, ⟨1, -1, -1⟩]).2 sampleAttributes ⟨2, 0, 0⟩
      (by decide)).1 (by decide)).1 (by decide)⟩

/-! ## The order `operator<` is lexicographic -/

theorem index_t.lt_iff (a b : index_t) :
    a.lt b = true ↔
      a.vertex_index < b.vertex_index ∨
      (a.vertex_index = b.vertex_index ∧
        (a.normal_index < b.normal_index ∨
          (a.normal_index = b.normal_index ∧ a.texcoord_index < b.texcoord_index))) := by
  unfold index_t.lt
  split_ifs
  all_goals simp
  all_goals omega

theorem index_t.lt_false_iff (a b : index_t) :
    a.lt b = false ↔
      ¬ (a.vertex_index < b.vertex_index ∨
      (a.vertex_index = b.vertex_index ∧
        (a.normal_index < b.normal_index ∨
          (a.normal_index = b.normal_index ∧ a.texcoord_index < b.texcoord_index)))) := by
  rw [← index_t.lt_iff, Bool.not_eq_true]

theorem index_t.ext_fields (a b : index_t) :
    a = b ↔ a.vertex_index = b.vertex_index ∧ a.normal_index = b.normal_index ∧
      a.texcoord_index = b.texcoord_index := by
  cases a; cases b; simp

/-- Claim C20. The comparison `operator<` on corner identities is a strict total order: it is
irreflexive and transitive, for any two identities exactly one of `a < b`, `b < a` and fieldwise
equality holds, it is the lexicographic order on (vertex_index, normal_index, texcoord_index), and
two identities are equivalent under it (neither less than the other) if and only if their three
fields are equal. -/
theorem operator_lt_strict_total_order :
    (∀ a : index_t, a.lt a = false) ∧
    (∀ a b c : index_t, a.lt b = true → b.lt c = true → a.lt c = true) ∧
    (∀ a b : index_t,
      (a.lt b = true ∧ b.lt a = false ∧ a ≠ b) ∨
      (a.lt b = false ∧ b.lt a = true ∧ a ≠ b) ∨
      (a.lt b = false ∧ b.lt a = false ∧ a = b)) ∧
    (∀ a b : index_t, a.lt b = true ↔
      a.vertex_index < b.vertex_index ∨
      (a.vertex_index = b.vertex_index ∧
        (a.normal_index < b.normal_index ∨
          (a.normal_index = b.normal_index ∧ a.texcoord_index < b.texcoord_index)))) ∧
    (∀ a b : index_t, (a.lt b = false ∧ b.lt a = false) ↔
      (a.vertex_index = b.vertex_index ∧ a.normal_index = b.normal_index ∧
        a.texcoord_index = b.texcoord_index)) := by
  refine ⟨index_t.lt_irrefl, ?_, ?_, index_t.lt_iff, ?_⟩
  · intro a b c hab hbc
    rw [index_t.lt_iff] at hab hbc ⊢
    omega
  · intro a b
    rw [index_t.lt_false_iff a b, index_t.lt_false_iff b a, index_t.lt_iff a b,
      index_t.lt_iff b a, ne_eq, index_t.ext_fields a b]
    omega
  · intro a b
    rw [index_t.lt_false_iff a b, index_t.lt_false_iff b a]
    omega

theorem operator_lt_strict_total_order_witness :
    (⟨0, 1, 5⟩ : index_t).lt ⟨0, 2, 0⟩ = true ∧ (⟨0, 2, 0⟩ : index_t).lt ⟨1, -1, -1⟩ = true ∧
      (⟨0, 1, 5⟩ : index_t).lt ⟨1, -1, -1⟩ = true :=
  ⟨by decide, by decide,
    operator_lt_strict_total_order.2.1 ⟨0, 1, 5⟩ ⟨0, 2, 0⟩ ⟨1, -1, -1⟩ (by decide) (by decide)⟩

/-! ## Dense sequential numbering -/

theorem mem_noteRequest (seen : List index_t) (idx k : index_t) :
    k ∈ noteRequest seen idx ↔ k ∈ seen ∨ k = idx := by
  unfold noteRequest
  split_ifs with h
  · constructor
    · exact Or.inl
    · rintro (h1 | rfl)
      · exact h1
      · exact h
  · simp

theorem nodup_noteRequest (seen : List index_t) (idx : index_t) (h : seen.Nodup) :
    (noteRequest seen idx).Nodup := by
  unfold noteRequest
  split_ifs with hm
  · exact h
  · exact List.Nodup.append h (List.nodup_singleton _) (by
      intro a ha hb
      rw [List.mem_singleton] at hb
      subst hb
      exact hm ha)

theorem noteRequest_extends (seen : List index_t) (idx : index_t) :
    seen <+: noteRequest seen idx := by
  unfold noteRequest
  split_ifs
  · exact List.prefix_refl _
  · exact List.prefix_append _ _

theorem foldl_noteRequest (calls seen : List index_t) :
    seen <+: calls.foldl noteRequest seen ∧
    (seen.Nodup → (calls.foldl noteRequest seen).Nodup) ∧
    (∀ k, k ∈ calls.foldl noteRequest seen ↔ k ∈ seen ∨ k ∈ calls) := by
  induction calls generalizing seen with
  | nil => simp
  | cons c rest ih =>
    obtain ⟨h1, h2, h3⟩ := ih (noteRequest seen c)
    refine ⟨(noteRequest_extends seen c).trans h1,
      fun h => h2 (nodup_noteRequest seen c h), fun k => ?_⟩
    simp only [List.foldl_cons, h3, mem_noteRequest, List.mem_cons]
    tauto

theorem addVertex_numbered {F : Type} [Inhabited F] (st : Partition F)
    (attributes : attrib_t F) (idx : index_t) (seen : List index_t) (h : Numbered st seen) :
    Numbered (addVertex st attributes idx).2 (noteRequest seen idx) ∧
    ∃ j : Nat, (addVertex st attributes idx).1 = (j : Int) ∧
      (noteRequest seen idx)[j]? = some idx := by
  obtain ⟨hlen, hmap⟩ := h
  cases hf : st.knownVertices.find idx with
  | some id =>
    obtain ⟨j, hj, hget⟩ := (hmap idx id).1 hf
    have hmem : idx ∈ seen := List.mem_iff_getElem?.2 ⟨_, hget⟩
    rw [addVertex_found st attributes idx id hf]
    simp only [noteRequest, hmem, if_true]
    exact ⟨⟨hlen, hmap⟩, j, hj, hget⟩
  | none =>
    have hnot : idx ∉ seen := by
      intro hmem
      obtain ⟨j, hj⟩ := List.mem_iff_getElem?.1 hmem
      rw [(hmap idx j).2 ⟨j, rfl, hj⟩] at hf
      exact absurd hf (by simp)
    have e1 : (addVertex st attributes idx).1 = (st.mesh.vertex.length : Int) := by
      simp only [addVertex, hf]
    have e2 : (addVertex st attributes idx).2.knownVertices
        = st.knownVertices.assign idx (st.mesh.vertex.length : Int) := by
      simp only [addVertex, hf]
    have e3 : (addVertex st attributes idx).2.mesh.vertex.length = st.mesh.vertex.length + 1 := by
      simp only [addVertex, hf, List.length_append, List.length_singleton]
    simp only [noteRequest, hnot, if_false]
    refine ⟨⟨by rw [e3, hlen]; simp, ?_⟩, seen.length, by rw [e1, hlen], by simp⟩
    intro k v
    rw [e2]
    by_cases hk : k = idx
    · subst hk
      rw [VertexMap.find_assign_same]
      constructor
      · intro hv
        refine ⟨seen.length, ?_, by simp⟩
        rw [← hlen]
        exact (Option.some.inj hv).symm
      · rintro ⟨j, hj, hget⟩
        have hjl : j = seen.length := by
          by_contra hne
          rcases Nat.lt_or_gt_of_ne hne with hlt | hgt
          · rw [List.getElem?_append_left hlt] at hget
            exact hnot (List.mem_iff_getElem?.2 ⟨_, hget⟩)
          · rw [List.getElem?_eq_none (by simp; omega)] at hget
            exact absurd hget (by simp)
        rw [hj, hjl, hlen]
    · rw [VertexMap.find_assign_other _ _ _ _ hk, hmap k v]
      constructor
      · rintro ⟨j, hj, hget⟩
        have hjl : j < seen.length := by
          by_contra hge
          rw [List.getElem?_eq_none (by omega)] at hget
          exact absurd hget (by simp)
        exact ⟨j, hj, by rw [List.getElem?_append_left hjl]; exact hget⟩
      · rintro ⟨j, hj, hget⟩
        have hjl : j < seen.length := by
          by_contra hge
          rcases Nat.eq_or_lt_of_le (Nat.le_of_not_lt hge) with heq | hgt
          · rw [← heq] at hget
            simp at hget
            exact hk hget.symm
          · rw [List.getElem?_eq_none (by simp; omega)] at hget
            exact absurd hget (by simp)
        exact ⟨j, hj, by rw [List.getElem?_append_left hjl] at hget; exact hget⟩

theorem addVerticesFrom_numbered {F : Type} [Inhabited F] (attributes : attrib_t F)
    (calls : List index_t) (st : Partition F) (seen : List index_t) (h : Numbered st seen) :
    Numbered (addVerticesFrom attributes st calls).2 (calls.foldl noteRequest seen) ∧
    List.Forall₂
      (fun c id => ∃ j : Nat, id = (j : Int) ∧ (calls.foldl noteRequest seen)[j]? = some c)
      calls (addVerticesFrom attributes st calls).1 := by
  induction calls generalizing st seen with
  | nil => exact ⟨h, List.Forall₂.nil⟩
  | cons c rest ih =>
    obtain ⟨h1, j, hj, hget⟩ := addVertex_numbered st attributes c seen h
    obtain ⟨h2, hall⟩ := ih _ _ h1
    refine ⟨h2, List.Forall₂.cons ⟨j, hj, ?_⟩ hall⟩
    exact getElem?_of_prefix (foldl_noteRequest rest (noteRequest seen c)).1 hget

theorem distinctRequests_take (calls : List index_t) (n : Nat) :
    distinctRequests (calls.take n) <+: distinctRequests calls := by
  have h : distinctRequests calls
      = (calls.drop n).foldl noteRequest (distinctRequests (calls.take n)) := by
    unfold distinctRequests
    rw [← List.foldl_append, List.take_append_drop]
  rw [h]
  exact (foldl_noteRequest _ _).1

theorem distinctRequests_card (calls : List index_t) :
    (distinctRequests calls).length = calls.toFinset.card := by
  have hnd : (distinctRequests calls).Nodup := (foldl_noteRequest calls []).2.1 List.nodup_nil
  rw [← List.toFinset_card_of_nodup hnd]
  congr 1
  ext k
  simp [distinctRequests, (foldl_noteRequest calls []).2.2 k]

/-- Claim C21. After any sequence of `addVertex` calls on a mesh and map that start empty, the map
is a bijection between the distinct identities requested so far and the index range `[0,
mesh.vertex.size())`: with the distinct identities listed in the order of their first request (a
list without repetition that holds exactly the requested identities, and that only grows at its
end as requests come), the map sends an identity to `v` exactly when the identity is entry number
`v` of that list; every call returns the position of its identity in the list; and the vertex
count is the number of distinct identities requested. -/
theorem dense_sequential_numbering {F : Type} [Inhabited F] (attributes : attrib_t F)
    (calls : List index_t) :
    ((distinctRequests calls).Nodup ∧
      (∀ k, k ∈ distinctRequests calls ↔ k ∈ calls) ∧
      ∀ n, distinctRequests (calls.take n) <+: distinctRequests calls) ∧
    (∀ k v, (addVertices attributes calls).2.knownVertices.find k = some v ↔
      ∃ j : Nat, v = (j : Int) ∧ (distinctRequests calls)[j]? = some k) ∧
    List.Forall₂
      (fun c id => ∃ j : Nat, id = (j : Int) ∧ (distinctRequests calls)[j]? = some c)
      calls (addVertices attributes calls).1 ∧
    (addVertices attributes calls).2.mesh.vertex.length = (distinctRequests calls).length ∧
    (addVertices attributes calls).2.mesh.vertex.length = calls.toFinset.card := by
  have hstart : Numbered (Partition.fresh : Partition F) [] := by
    refine ⟨rfl, ?_⟩
    intro k v
    simp [Partition.fresh, VertexMap.find]
  obtain ⟨⟨hlen, hmap⟩, hall⟩ := addVerticesFrom_numbered attributes calls Partition.fresh []
    hstart
  obtain ⟨_, hnd, hmem⟩ := foldl_noteRequest calls []
  refine ⟨⟨hnd List.nodup_nil, fun k => by simpa using hmem k, distinctRequests_take calls⟩,
    hmap, hall, hlen, ?_⟩
  rw [← distinctRequests_card]
  exact hlen

/-! ## Validity of texture handles -/

theorem TextureMap.mem_of_find (m : TextureMap) (k : String) (v : Int)
    (h : TextureMap.find m k = some v) : (k, v) ∈ m := by
  induction m with
  | nil => simp [TextureMap.cached_find_nil] at h
  | cons e rest ih =>
    rw [TextureMap.cached_find_cons] at h
    by_cases he : e.1 = k
    · rw [if_pos he] at h
      have hv : e.2 = v := Option.some.inj h
      have : e = (k, v) := Prod.ext he hv
      rw [this]
      exact List.mem_cons_self _ _
    · rw [if_neg he] at h
      exact List.mem_cons_of_mem _ (ih h)

theorem TextureMap.find_eq_none (m : TextureMap) (k : String) :
    TextureMap.find m k = none ↔ k ∉ m.map Prod.fst := by
  induction m with
  | nil => simp [TextureMap.cached_find_nil]
  | cons e rest ih =>
    rw [TextureMap.cached_find_cons]
    by_cases he : e.1 = k
    · simp [he]
    · simp only [if_neg he, ih, List.map_cons, List.mem_cons, not_or]
      constructor
      · intro h; exact ⟨fun hk => he hk.symm, h⟩
      · intro h; exact h.2

theorem TextureMap.assign_perm (m : TextureMap) (k : String) (v : Int)
    (h : TextureMap.find m k = none) : (TextureMap.assign m k v).Perm ((k, v) :: m) := by
  induction m with
  | nil => simp [TextureMap.assign]
  | cons e rest ih =>
    rw [TextureMap.cached_find_cons] at h
    by_cases he : e.1 = k
    · rw [if_pos he] at h
      exact absurd h (by simp)
    · rw [if_neg he] at h
      simp only [TextureMap.assign]
      by_cases h1 : stringLt k e.1 = true
      · rw [if_pos h1]
      · rw [if_neg h1]
        by_cases h2 : stringLt e.1 k = true
        · rw [if_pos h2]
          exact ((ih h).cons e).trans (List.Perm.swap _ _ _)
        · exfalso
          exact he ((stringLt_equiv_iff e.1 k).1 (by simp [h1, h2]))

theorem TextureInv.handle_lt {F : Type} {stbi_load : String → Option Image} {model : Model F}
    {knownTextures : TextureMap} {log : List String}
    (h : TextureInv stbi_load model knownTextures log) (e : String × Int)
    (he : e ∈ knownTextures) : e.2 = -1 ∨ (0 ≤ e.2 ∧ e.2 < (model.textures.length : Int)) := by
  rcases h.values e he with h1 | h1
  · exact Or.inl h1
  · right
    refine ⟨h1, ?_⟩
    have hm : e.2 ∈ (knownTextures.filter (fun e => decide (0 ≤ e.2))).map Prod.snd :=
      List.mem_map.2 ⟨e, List.mem_filter.2 ⟨he, by simpa using h1⟩, rfl⟩
    have := (h.handles.mem_iff).1 hm
    obtain ⟨i, hi, hie⟩ := List.mem_map.1 this
    rw [List.mem_range] at hi
    rw [← hie]
    exact Int.ofNat_lt.2 hi

theorem TextureInv.injective {F : Type} {stbi_load : String → Option Image} {model : Model F}
    {knownTextures : TextureMap} {log : List String}
    (h : TextureInv stbi_load model knownTextures log) (e e' : String × Int)
    (he : e ∈ knownTextures) (he' : e' ∈ knownTextures) (hpos : 0 ≤ e.2) (heq : e.2 = e'.2) :
    e = e' := by
  have hnd : ((knownTextures.filter (fun e => decide (0 ≤ e.2))).map Prod.snd).Nodup := by
    rw [h.handles.nodup_iff]
    exact (List.nodup_range _).map (fun a b hab => Int.ofNat.inj hab)
  exact List.inj_on_of_nodup_map hnd (List.mem_filter.2 ⟨he, by simpa using hpos⟩)
    (List.mem_filter.2 ⟨he', by simpa [← heq] using hpos⟩) heq

theorem loadTexture_decoded {F : Type} (stbi_load : String → Option Image) (model : Model F)
    (knownTextures : TextureMap) (inFileName modelPath : String) (image : Image)
    (hne : inFileName ≠ "") (hf : knownTextures.find inFileName = none)
    (hd : stbi_load (modelPath ++ "/" ++ fixBackslashes inFileName) = some image) :
    loadTexture stbi_load model knownTextures inFileName modelPath
      = { textureID := (model.textures.length : Int),
          model := { model with textures := model.textures ++
            [{ resolution := ⟨image.width, image.height⟩,
               pixel := mirrorRows ⟨image.width, image.height⟩ image.pixels }] },
          knownTextures := knownTextures.assign inFileName (model.textures.length : Int),
          decoded := [modelPath ++ "/" ++ fixBackslashes inFileName] } := by
  unfold loadTexture
  rw [if_neg hne, hf]
  simp only [hd]

theorem loadTexture_failed {F : Type} (stbi_load : String → Option Image) (model : Model F)
    (knownTextures : TextureMap) (inFileName modelPath : String)
    (hne : inFileName ≠ "") (hf : knownTextures.find inFileName = none)
    (hd : stbi_load (modelPath ++ "/" ++ fixBackslashes inFileName) = none) :
    loadTexture stbi_load model knownTextures inFileName modelPath
      = { textureID := -1, model := model,
          knownTextures := knownTextures.assign inFileName (-1),
          decoded := [modelPath ++ "/" ++ fixBackslashes inFileName] } := by
  unfold loadTexture
  rw [if_neg hne, hf]
  simp only [hd]

theorem mem_keys_cons (m : TextureMap) (p : String) (v : Int) (hne : p ≠ "") (k : String) :
    k ∈ ((p, v) :: m).map Prod.fst ↔ k ∈ m.map Prod.fst ∨ (k = p ∧ p ≠ "") := by
  simp only [List.map_cons, List.mem_cons]
  constructor
  · rintro (rfl | hk)
    · exact Or.inr ⟨rfl, hne⟩
    · exact Or.inl hk
  · rintro (hk | ⟨rfl, _⟩)
    · exact Or.inr hk
    · exact Or.inl rfl

/-- One call of `loadTexture` keeps the invariant, only appends to the textures, adds at most
the requested path to the cache, and returns `-1` or a valid texture id. -/
theorem loadTexture_inv {F : Type} (stbi_load : String → Option Image) (model : Model F)
    (knownTextures : TextureMap) (log : List String) (inFileName modelPath : String)
    (h : TextureInv stbi_load model knownTextures log) :
    TextureInv stbi_load (loadTexture stbi_load model knownTextures inFileName modelPath).model
      (loadTexture stbi_load model knownTextures inFileName modelPath).knownTextures
      (log ++ (loadTexture stbi_load model knownTextures inFileName modelPath).decoded) ∧
    model.textures.length
      ≤ (loadTexture stbi_load model knownTextures inFileName modelPath).model.textures.length ∧
    (∀ k, k ∈ (loadTexture stbi_load model knownTextures inFileName
        modelPath).knownTextures.map Prod.fst ↔
      k ∈ knownTextures.map Prod.fst ∨ (k = inFileName ∧ inFileName ≠ "")) ∧
    ((loadTexture stbi_load model knownTextures inFileName modelPath).textureID = -1 ∨
      (0 ≤ (loadTexture stbi_load model knownTextures inFileName modelPath).textureID ∧
        (loadTexture stbi_load model knownTextures inFileName modelPath).textureID
          < ((loadTexture stbi_load model knownTextures inFileName
              modelPath).model.textures.length : Int))) := by
  by_cases hne : inFileName = ""
  · subst hne
    have e : loadTexture stbi_load model knownTextures "" modelPath
        = { textureID := -1, model := model, knownTextures := knownTextures, decoded := [] } :=
      rfl
    rw [e]
    dsimp only
    rw [List.append_nil]
    exact ⟨h, le_refl _, fun k => by simp, Or.inl rfl⟩
  · cases hf : knownTextures.find inFileName with
    | some id =>
      rw [loadTexture_hit stbi_load model knownTextures inFileName modelPath id hne hf]
      simp only [List.append_nil]
      have hmem := TextureMap.mem_of_find _ _ _ hf
      refine ⟨h, le_refl _, fun k => ?_, h.handle_lt _ hmem⟩
      constructor
      · exact Or.inl
      · rintro (hk | ⟨rfl, _⟩)
        · exact hk
        · exact List.mem_map.2 ⟨_, hmem, rfl⟩
    | none =>
      have hnk : inFileName ∉ knownTextures.map Prod.fst := (TextureMap.find_eq_none _ _).1 hf
      cases hd : stbi_load (modelPath ++ "/" ++ fixBackslashes inFileName) with
      | some image =>
        have hp := TextureMap.assign_perm knownTextures inFileName
          (model.textures.length : Int) hf
        rw [loadTexture_decoded stbi_load model knownTextures inFileName modelPath image hne hf
          hd]
        dsimp only
        refine ⟨⟨?_, ?_, ?_, ?_⟩, ?_, fun k => ?_, Or.inr ⟨?_, ?_⟩⟩
        · rw [(hp.map Prod.fst).nodup_iff]
          exact List.nodup_cons.2 ⟨hnk, h.keys⟩
        · intro e he
          rcases List.mem_cons.1 (hp.mem_iff.1 he) with rfl | he
          · right
            exact Int.ofNat_nonneg _
          · exact h.values e he
        · refine (((hp.filter _).map Prod.snd).trans ?_)
          have hlen : (model.textures ++
              [({ resolution := ⟨image.width, image.height⟩,
                  pixel := mirrorRows ⟨image.width, image.height⟩ image.pixels } : Texture)]).length
              = model.textures.length + 1 := by simp
          rw [hlen, List.filter_cons_of_pos (by simp), List.map_cons, List.range_succ,
            List.map_append]
          refine (List.Perm.cons _ h.handles).trans ?_
          exact (List.perm_append_singleton _ _).symm
        · show (model.textures ++ [_]).length = _
          rw [List.filter_append, List.length_append, List.length_append, ← h.decodes]
          simp [hd]
        · show model.textures.length ≤ (model.textures ++ [_]).length
          simp
        · rw [(hp.map Prod.fst).mem_iff]
          exact mem_keys_cons _ _ _ hne k
        · exact Int.ofNat_nonneg _
        · show (model.textures.length : Int) < ((model.textures ++ [_]).length : Int)
          simp
      | none =>
        have hp := TextureMap.assign_perm knownTextures inFileName (-1) hf
        rw [loadTexture_failed stbi_load model knownTextures inFileName modelPath hne hf hd]
        dsimp only
        refine ⟨⟨?_, ?_, ?_, ?_⟩, le_refl _, fun k => ?_, Or.inl rfl⟩
        · rw [(hp.map Prod.fst).nodup_iff]
          exact List.nodup_cons.2 ⟨hnk, h.keys⟩
        · intro e he
          rcases List.mem_cons.1 (hp.mem_iff.1 he) with rfl | he
          · left; rfl
          · exact h.values e he
        · refine (((hp.filter _).map Prod.snd).trans ?_)
          rw [List.filter_cons_of_neg (by simp)]
          exact h.handles
        · show model.textures.length = _
          rw [List.filter_append, List.length_append, ← h.decodes]
          simp [hd]
        · rw [(hp.map Prod.fst).mem_iff]
          exact mem_keys_cons _ _ _ hne k

/-- A sequence of `loadTexture` calls keeps the invariant; the textures only grow, the cache
gains exactly the non-empty paths requested, and every returned id is `-1` or valid at the
end. -/
theorem loadTexturesFrom_inv {F : Type} (stbi_load : String → Option Image)
    (calls : List (String × String)) (model : Model F) (knownTextures : TextureMap)
    (log : List String) (h : TextureInv stbi_load model knownTextures log) :
    TextureInv stbi_load (loadTexturesFrom stbi_load model knownTextures calls).model
      (loadTexturesFrom stbi_load model knownTextures calls).knownTextures
      (log ++ (loadTexturesFrom stbi_load model knownTextures calls).decoded) ∧
    model.textures.length
      ≤ (loadTexturesFrom stbi_load model knownTextures calls).model.textures.length ∧
    (∀ k, k ∈ (loadTexturesFrom stbi_load model knownTextures calls).knownTextures.map Prod.fst ↔
      k ∈ knownTextures.map Prod.fst ∨ (k ≠ "" ∧ k ∈ calls.map Prod.fst)) ∧
    (∀ id ∈ (loadTexturesFrom stbi_load model knownTextures calls).ids,
      id = -1 ∨ (0 ≤ id ∧
        id < ((loadTexturesFrom stbi_load model knownTextures calls).model.textures.length
          : Int))) := by
  induction calls generalizing model knownTextures log with
  | nil =>
    simp only [loadTexturesFrom, List.append_nil]
    exact ⟨h, le_refl _, fun k => by simp, fun id hid => by simp at hid⟩
  | cons c rest ih =>
    obtain ⟨p, d⟩ := c
    obtain ⟨h1, hle1, hk1, hid1⟩ := loadTexture_inv stbi_load model knownTextures log p d h
    obtain ⟨h2, hle2, hk2, hid2⟩ := ih _ _ _ h1
    simp only [loadTexturesFrom]
    refine ⟨?_, le_trans hle1 hle2, fun k => ?_, fun id hid => ?_⟩
    · rw [← List.append_assoc]
      exact h2
    · rw [hk2 k, hk1 k]
      simp only [List.map_cons, List.mem_cons]
      constructor
      · rintro ((hk | ⟨rfl, hne⟩) | ⟨hne, hk⟩)
        · exact Or.inl hk
        · exact Or.inr ⟨hne, Or.inl rfl⟩
        · exact Or.inr ⟨hne, Or.inr hk⟩
      · rintro (hk | ⟨hne, rfl | hk⟩)
        · exact Or.inl (Or.inl hk)
        · exact Or.inl (Or.inr ⟨rfl, hne⟩)
        · exact Or.inr ⟨hne, hk⟩
    · rcases List.mem_cons.1 hid with rfl | hid
      · rcases hid1 with h0 | ⟨h0, h3⟩
        · exact Or.inl h0
        · exact Or.inr ⟨h0, lt_of_lt_of_le h3 (Int.ofNat_le.2 hle2)⟩
      · exact hid2 id hid

/-- Claim C22. After any sequence of `loadTexture` calls starting from a model with no textures
and an empty `knownTextures` map: every value stored in the cache and every value returned is `-1`
or an index `i` with `0 <= i < model.textures.size()`; two cache entries for different raw paths
with non-negative handles have different handles; the cache holds each requested non-empty raw
path exactly once, and `model.textures.size()` is the number of its entries with a non-negative
handle, which is also the number of decode attempts that succeeded. -/
theorem texture_handles_valid {F : Type} (stbi_load : String → Option Image) (model : Model F)
    (calls : List (String × String)) (hstart : model.textures = []) :
    (∀ e ∈ (loadTexturesFrom stbi_load model [] calls).knownTextures,
      e.2 = -1 ∨ (0 ≤ e.2 ∧
        e.2 < ((loadTexturesFrom stbi_load model [] calls).model.textures.length : Int))) ∧
    (∀ id ∈ (loadTexturesFrom stbi_load model [] calls).ids,
      id = -1 ∨ (0 ≤ id ∧
        id < ((loadTexturesFrom stbi_load model [] calls).model.textures.length : Int))) ∧
    (∀ e ∈ (loadTexturesFrom stbi_load model [] calls).knownTextures,
      ∀ e' ∈ (loadTexturesFrom stbi_load model [] calls).knownTextures,
        e.1 ≠ e'.1 → 0 ≤ e.2 → 0 ≤ e'.2 → e.2 ≠ e'.2) ∧
    (((loadTexturesFrom stbi_load model [] calls).knownTextures.map Prod.fst).Nodup ∧
      (∀ k, k ∈ (loadTexturesFrom stbi_load model [] calls).knownTextures.map Prod.fst ↔
        k ≠ "" ∧ k ∈ calls.map Prod.fst) ∧
      (loadTexturesFrom stbi_load model [] calls).model.textures.length
        = ((loadTexturesFrom stbi_load model [] calls).knownTextures.filter
            (fun e => decide (0 ≤ e.2))).length) ∧
    (loadTexturesFrom stbi_load model [] calls).model.textures.length
      = ((loadTexturesFrom stbi_load model [] calls).decoded.filter
          (fun f => (stbi_load f).isSome)).length := by
  have h0 : TextureInv stbi_load model [] [] := by
    refine ⟨by simp, by simp, ?_, ?_⟩
    · rw [hstart]; simp
    · rw [hstart]; simp
  obtain ⟨hinv, _, hkeys, hids⟩ := loadTexturesFrom_inv stbi_load calls model [] [] h0
  refine ⟨fun e he => hinv.handle_lt e he, hids, ?_, ⟨hinv.keys, ?_, ?_⟩, ?_⟩
  · intro e he e' he' hne hpos _ heq
    exact hne (congrArg Prod.fst (hinv.injective e e' he he' hpos heq))
  · intro k
    rw [hkeys k]
    simp
  · have := hinv.handles.length_eq
    simp only [List.length_map, List.length_range] at this
    exact this.symm
  · have := hinv.decodes
    simpa using this

theorem texture_handles_valid_witness :
    emptyModel.textures = [] ∧
      (loadTexturesFrom sampleDecoder emptyModel []
        [("a.png", "tex"), ("b.png", "tex"), ("a.png", "x"), ("", "tex")]).ids
        = [0, -1, 0, -1] ∧
      (loadTexturesFrom sampleDecoder emptyModel []
        [("a.png", "tex"), ("b.png", "tex"), ("a.png", "x"), ("", "tex")]).knownTextures
        = [("a.png", 0), ("b.png", -1)] ∧
      ∀ id ∈ (loadTexturesFrom sampleDecoder emptyModel []
          [("a.png", "tex"), ("b.png", "tex"), ("a.png", "x"), ("", "tex")]).ids,
        id = -1 ∨ (0 ≤ id ∧
          id < ((loadTexturesFrom sampleDecoder emptyModel []
            [("a.png", "tex"), ("b.png", "tex"), ("a.png", "x"), ("", "tex")]).model.textures.length
            : Int)) :=
  ⟨by rfl, by decide, by decide,
    (texture_handles_valid sampleDecoder emptyModel
      [("a.png", "tex"), ("b.png", "tex"), ("a.png", "x"), ("", "tex")] (by rfl)).2.1⟩

/-! ## The unit cube -/

theorem range_twelve : List.range 12 = [0, 1, 2, 3, 4, 5, 6, 7, 8, 9, 10, 11] := by decide

theorem addUnitCube_index {F A : Type} [Zero F] [One F] (xfmPoint : A → vec3f F → vec3f F)
    (mesh : TriangleMesh F) (xfm : A) :
    (addUnitCube xfmPoint mesh xfm).index
      = mesh.index ++ cubeTriangles (mesh.vertex.length : Int) := by
  simp only [addUnitCube, forLoop, range_twelve, List.foldl_cons, List.foldl_nil,
    vec3i.addScalar, cubeIndices, cubeTriangles, List.append_assoc, List.singleton_append,
    List.cons_append, List.nil_append]
  rfl

theorem addUnitCube_vertex {F A : Type} [Zero F] [One F] (xfmPoint : A → vec3f F → vec3f F)
    (mesh : TriangleMesh F) (xfm : A) :
    (addUnitCube xfmPoint mesh xfm).vertex
      = mesh.vertex ++ [xfmPoint xfm ⟨0, 0, 0⟩, xfmPoint xfm ⟨1, 0, 0⟩, xfmPoint xfm ⟨0, 1, 0⟩,
          xfmPoint xfm ⟨1, 1, 0⟩, xfmPoint xfm ⟨0, 0, 1⟩, xfmPoint xfm ⟨1, 0, 1⟩,
          xfmPoint xfm ⟨0, 1, 1⟩, xfmPoint xfm ⟨1, 1, 1⟩] := by
  simp [addUnitCube]

theorem cubeTriangles_spec (n : Int) :
    ∀ t ∈ cubeTriangles n,
      (n ≤ t.x ∧ t.x < n + 8) ∧ (n ≤ t.y ∧ t.y < n + 8) ∧ (n ≤ t.z ∧ t.z < n + 8) ∧
      t.x ≠ t.y ∧ t.y ≠ t.z ∧ t.x ≠ t.z := by
  intro t ht
  simp only [cubeTriangles, List.mem_cons, List.mem_singleton, List.not_mem_nil, or_false] at ht
  rcases ht with h | h | h | h | h | h | h | h | h | h | h | h <;> subst h <;>
    refine ⟨⟨?_, ?_⟩, ⟨?_, ?_⟩, ⟨?_, ?_⟩, ?_, ?_, ?_⟩ <;> simp

/-- Claim C23. For every mesh with `n` vertices, `addUnitCube` appends exactly 8 vertices and
exactly 12 triangles and leaves the vertices and triangles that were there (and the normals,
texcoords, colour and texture handle) unchanged; every component of every appended triangle lies
in `[n, n + 8)` and the three components of each are pairwise distinct; hence if every triangle
index was at least 0 and below the vertex count before the call, the same holds after it. -/
theorem addUnitCube_appends_cube {F A : Type} [Zero F] [One F]
    (xfmPoint : A → vec3f F → vec3f F) (mesh : TriangleMesh F) (xfm : A) :
    (∃ newVertices newTriangles,
      (addUnitCube xfmPoint mesh xfm).vertex = mesh.vertex ++ newVertices ∧
      newVertices.length = 8 ∧
      (addUnitCube xfmPoint mesh xfm).index = mesh.index ++ newTriangles ∧
      newTriangles.length = 12 ∧
      ∀ t ∈ newTriangles,
        ((mesh.vertex.length : Int) ≤ t.x ∧ t.x < (mesh.vertex.length : Int) + 8) ∧
        ((mesh.vertex.length : Int) ≤ t.y ∧ t.y < (mesh.vertex.length : Int) + 8) ∧
        ((mesh.vertex.length : Int) ≤ t.z ∧ t.z < (mesh.vertex.length : Int) + 8) ∧
        t.x ≠ t.y ∧ t.y ≠ t.z ∧ t.x ≠ t.z) ∧
    ((addUnitCube xfmPoint mesh xfm).normal = mesh.normal ∧
      (addUnitCube xfmPoint mesh xfm).texcoord = mesh.texcoord ∧
      (addUnitCube xfmPoint mesh xfm).diffuse = mesh.diffuse ∧
      (addUnitCube xfmPoint mesh xfm).diffuseTextureID = mesh.diffuseTextureID) ∧
    ((∀ t ∈ mesh.index,
        (0 ≤ t.x ∧ t.x < (mesh.vertex.length : Int)) ∧
        (0 ≤ t.y ∧ t.y < (mesh.vertex.length : Int)) ∧
        (0 ≤ t.z ∧ t.z < (mesh.vertex.length : Int))) →
      ∀ t ∈ (addUnitCube xfmPoint mesh xfm).index,
        (0 ≤ t.x ∧ t.x < ((addUnitCube xfmPoint mesh xfm).vertex.length : Int)) ∧
        (0 ≤ t.y ∧ t.y < ((addUnitCube xfmPoint mesh xfm).vertex.length : Int)) ∧
        (0 ≤ t.z ∧ t.z < ((addUnitCube xfmPoint mesh xfm).vertex.length : Int))) := by
  refine ⟨⟨_, cubeTriangles (mesh.vertex.length : Int), addUnitCube_vertex xfmPoint mesh xfm,
    rfl, addUnitCube_index xfmPoint mesh xfm, rfl, cubeTriangles_spec _⟩, ⟨rfl, rfl, rfl, rfl⟩, ?_⟩
  intro hold t ht
  have hlen : ((addUnitCube xfmPoint mesh xfm).vertex.length : Int)
      = (mesh.vertex.length : Int) + 8 := by
    rw [addUnitCube_vertex]
    simp
  rw [addUnitCube_index] at ht
  rw [hlen]
  rcases List.mem_append.1 ht with ht | ht
  · obtain ⟨h1, h2, h3⟩ := hold t ht
    omega
  · obtain ⟨h1, h2, h3, _⟩ := cubeTriangles_spec _ t ht
    omega

theorem addUnitCube_appends_cube_witness :
    (∀ t ∈ triangleMesh.index,
        (0 ≤ t.x ∧ t.x < (triangleMesh.vertex.length : Int)) ∧
        (0 ≤ t.y ∧ t.y < (triangleMesh.vertex.length : Int)) ∧
        (0 ≤ t.z ∧ t.z < (triangleMesh.vertex.length : Int))) ∧
      ∀ t ∈ (addUnitCube (fun (_ : Unit) v => v) triangleMesh ()).index,
        (0 ≤ t.x ∧
          t.x < ((addUnitCube (fun (_ : Unit) v => v) triangleMesh ()).vertex.length : Int)) ∧
        (0 ≤ t.y ∧
          t.y < ((addUnitCube (fun (_ : Unit) v => v) triangleMesh ()).vertex.length : Int)) ∧
        (0 ≤ t.z ∧
          t.z < ((addUnitCube (fun (_ : Unit) v => v) triangleMesh ()).vertex.length : Int)) :=
  ⟨by decide,
    (addUnitCube_appends_cube (fun (_ : Unit) v => v) triangleMesh ()).2.2 (by decide)⟩

end osc
